import Mathlib

/-! # yd4b-go: a verification development

Shallow embedding of the Go package `v1/yd4b` (client for the postal-code /
digital-address web service) together with the parts of the Go standard
library its three operations run through (`strings`, `errors`, `path`,
`net/url`, `net/http`, `encoding/json`).

Conventions of the embedding:

* Go `string` values that hold text (client fields, messages, option values)
  are Lean `String`s.  The URL machinery of `net/url` is byte oriented, so it
  is modelled on `Bytes` (the UTF-8 bytes of a string, one `Nat` per byte).
* Go `int` / `int64` values are `Int`; the library never does arithmetic on
  them, so no overflow arises.
* A Go function returning `(T, error)` returns the pair itself whenever the
  source can return a value next to a non-nil error; `none` is the nil error.
* A nil pointer dereference is the outcome `Outcome.panic`.
* The injected transport `doFunc` is a function from requests to the pair
  `(*http.Response, error)`.  The decoding side of `encoding/json` is a
  parameter of the operations (`Decoder`), and so is `http.DefaultClient.Do`
  in `NewClient`.
* Each operation is split where it calls the transport: the part that builds
  the request (`addressZipRequest`, `searchcodeHTTPRequest`,
  `getTokenRequest`) and the part that handles the answer (`addressZipResult`,
  `searchcodeResult`, `getTokenResult`).
* The standard library is modelled after Go 1.26 (`url.JoinPath` reports the
  error of a path element, a bracketed host must be an IPv6 literal, a host
  without bracket holds at most one colon).
-/

set_option linter.dupNamespace false
set_option linter.unusedTactic false
set_option linter.unreachableTactic false

namespace Yd4b

/-! ## Go strings as bytes -/

/-- The bytes of a Go string, one natural number below 256 per byte. -/
abbrev Bytes := List Nat

/-- UTF-8 encoding of one code point. -/
def utf8EncodeChar (c : Char) : Bytes :=
  let n := c.toNat
  if n < 0x80 then [n]
  else if n < 0x800 then [0xC0 + n / 64, 0x80 + n % 64]
  else if n < 0x10000 then [0xE0 + n / 4096, 0x80 + n / 64 % 64, 0x80 + n % 64]
  else [0xF0 + n / 262144, 0x80 + n / 4096 % 64, 0x80 + n / 64 % 64, 0x80 + n % 64]

/-- The byte sequence of a (text) Go string. -/
def utf8 (s : String) : Bytes :=
  s.toList.flatMap utf8EncodeChar

/-- Go `strings.Cut(s, sep)` for a one-byte separator: the text before and
after the first `sep`, and whether `sep` occurs. -/
def stringsCut (sep : Nat) : Bytes → Bytes × Bytes × Bool
  | [] => ([], [], false)
  | c :: rest =>
    if c = sep then ([], rest, true)
    else
      let r := stringsCut sep rest
      (c :: r.1, r.2.1, r.2.2)

/-- Split around the LAST occurrence of a byte (`strings.LastIndex` followed by
the two slicings `s[:i]`, `s[i+1:]`); `none` when the byte does not occur. -/
def cutLast (sep : Nat) : Bytes → Option (Bytes × Bytes)
  | [] => none
  | c :: rest =>
    match cutLast sep rest with
    | some (a, b) => some (c :: a, b)
    | none => if c = sep then some ([], rest) else none

/-- Go `strings.Index(s, pat)`: split `s` around the first occurrence of `pat`,
returning the text before it and the text from it on (`s[:i]`, `s[i:]`). -/
def cutAtSub (pat : Bytes) : Bytes → Option (Bytes × Bytes)
  | [] => if pat = [] then some ([], []) else none
  | c :: rest =>
    if pat.isPrefixOf (c :: rest) then some ([], c :: rest)
    else
      match cutAtSub pat rest with
      | some (a, b) => some (c :: a, b)
      | none => none

/-- ASCII lower-casing of one byte. -/
def lowerByte (c : Nat) : Nat :=
  if 65 ≤ c ∧ c ≤ 90 then c + 32 else c

/-- Go `strings.TrimPrefix(s, prefix)`: `s` without the leading `prefix` when
`s` starts with it, `s` itself otherwise. -/
def stringsTrimPrefix (s pre : String) : String :=
  if pre.toList.isPrefixOf s.toList then String.mk (s.toList.drop pre.length) else s

/-- Go `fmt.Sprint` of an `int`: its decimal rendering. -/
def fmtSprint (n : Int) : String :=
  match n with
  | Int.ofNat m => Nat.repr m
  | Int.negSucc m => "-" ++ Nat.repr (m + 1)

/-- The digit of `lowerhex = "0123456789abcdef"` at index `n`. -/
def lowerhex (n : Nat) : Char :=
  if n < 10 then Char.ofNat (48 + n) else Char.ofNat (87 + n)

/-- A UTF-8 continuation byte. -/
def isCont (b : Nat) : Bool :=
  0x80 ≤ b && b ≤ 0xBF

/-- `utf8.DecodeRuneInString` at a leading byte of 0x80 or more: the rune and
its width when the string starts with a valid encoding of 2, 3 or 4 bytes,
`none` (Go: `RuneError`, width 1) otherwise. -/
def decodeRune : Bytes → Option (Nat × Nat)
  | b0 :: b1 :: rest =>
    if 0xC2 ≤ b0 ∧ b0 ≤ 0xDF then
      if isCont b1 then some ((b0 - 0xC0) * 64 + (b1 - 0x80), 2) else none
    else if 0xE0 ≤ b0 ∧ b0 ≤ 0xEF then
      match rest with
      | b2 :: _ =>
        if (if b0 = 0xE0 then 0xA0 ≤ b1 ∧ b1 ≤ 0xBF
            else if b0 = 0xED then 0x80 ≤ b1 ∧ b1 ≤ 0x9F
            else isCont b1 = true) ∧ isCont b2 then
          some ((b0 - 0xE0) * 4096 + (b1 - 0x80) * 64 + (b2 - 0x80), 3)
        else none
      | [] => none
    else if 0xF0 ≤ b0 ∧ b0 ≤ 0xF4 then
      match rest with
      | b2 :: b3 :: _ =>
        if (if b0 = 0xF0 then 0x90 ≤ b1 ∧ b1 ≤ 0xBF
            else if b0 = 0xF4 then 0x80 ≤ b1 ∧ b1 ≤ 0x8F
            else isCont b1 = true) ∧ isCont b2 ∧ isCont b3 then
          some ((b0 - 0xF0) * 262144 + (b1 - 0x80) * 4096 + (b2 - 0x80) * 64 + (b3 - 0x80), 4)
        else none
      | _ => none
    else none
  | _ => none

/-- `strconv.IsPrint`.  It is exact up to U+00FF; the table of the printable
runes above U+00FF is not part of the model, which takes all of them as
printable. -/
def isPrint (r : Nat) : Bool :=
  if r ≤ 0xFF then (0x20 ≤ r && r ≤ 0x7E) || (0xA1 ≤ r && r ≤ 0xFF && r ≠ 0xAD)
  else true

/-- The text `strconv.Quote` writes for one rune (`appendEscapedRune`). -/
def quoteRune (r : Nat) : List Char :=
  if r = 34 ∨ r = 92 then [Char.ofNat 92, Char.ofNat r]
  else if isPrint r then [Char.ofNat r]
  else if r = 7 then [Char.ofNat 92, Char.ofNat 97]
  else if r = 8 then [Char.ofNat 92, Char.ofNat 98]
  else if r = 12 then [Char.ofNat 92, Char.ofNat 102]
  else if r = 10 then [Char.ofNat 92, Char.ofNat 110]
  else if r = 13 then [Char.ofNat 92, Char.ofNat 114]
  else if r = 9 then [Char.ofNat 92, Char.ofNat 116]
  else if r = 11 then [Char.ofNat 92, Char.ofNat 118]
  else if r < 32 ∨ r = 127 then [Char.ofNat 92, Char.ofNat 120, lowerhex (r / 16), lowerhex (r % 16)]
  else if r < 0x10000 then
    [Char.ofNat 92, Char.ofNat 117, lowerhex (r / 4096 % 16), lowerhex (r / 256 % 16),
     lowerhex (r / 16 % 16), lowerhex (r % 16)]
  else
    [Char.ofNat 92, Char.ofNat 85, lowerhex (r / 268435456 % 16), lowerhex (r / 16777216 % 16),
     lowerhex (r / 1048576 % 16), lowerhex (r / 65536 % 16), lowerhex (r / 4096 % 16),
     lowerhex (r / 256 % 16), lowerhex (r / 16 % 16), lowerhex (r % 16)]

/-- The scan of `strconv.Quote` over the bytes of a string; `fuel` bounds the
number of runes. -/
def quoteScan : Nat → Bytes → List Char
  | 0, _ => []
  | _, [] => []
  | fuel + 1, c :: rest =>
    if c < 0x80 then quoteRune c ++ quoteScan fuel rest
    else
      match decodeRune (c :: rest) with
      | some (r, width) => quoteRune r ++ quoteScan fuel ((c :: rest).drop width)
      | none =>
        [Char.ofNat 92, Char.ofNat 120, lowerhex (c / 16), lowerhex (c % 16)] ++
          quoteScan fuel rest

/-- `strconv.Quote(s)`, the rendering of the verb `%q`: a double-quoted Go
string literal. -/
def strconvQuote (s : Bytes) : String :=
  String.mk ([Char.ofNat 34] ++ quoteScan s.length s ++ [Char.ofNat 34])

/-! ## errors.go and Go error values -/

/-- The `Error` struct of errors.go. -/
structure Error where
  StatusCode : Int
  Message : String
deriving DecidableEq, Repr

/-- `NewError` of errors.go. -/
def NewError (statusCode : Int) (message : String) : Error :=
  { StatusCode := statusCode, Message := message }

/-- `(*Error).Error` of errors.go. -/
def Error.Error (e : Yd4b.Error) : String :=
  e.Message

/-- Values of Go's `error` interface as far as this library meets them:
a `*yd4b.Error`, a foreign leaf error (given by its message), a foreign error
wrapping one cause (`fmt.Errorf("...%w", cause)`, `*url.Error`), and the result
of `errors.Join`. -/
inductive GoError where
  | api (e : Error)
  | foreign (msg : String)
  | wrap (msg : String) (cause : GoError)
  | join (errs : List GoError)
deriving Repr

mutual
/-- Decidable equality of error values. -/
def GoError.decEq : (a b : GoError) → Decidable (a = b)
  | .api e, .api f =>
    if h : e = f then isTrue (by rw [h]) else isFalse (fun h2 => h (GoError.api.inj h2))
  | .foreign m, .foreign n =>
    if h : m = n then isTrue (by rw [h]) else isFalse (fun h2 => h (GoError.foreign.inj h2))
  | .wrap m c, .wrap n d =>
    if h : m = n then
      match GoError.decEq c d with
      | isTrue hc => isTrue (by rw [h, hc])
      | isFalse hc => isFalse (fun h2 => hc (GoError.wrap.inj h2).2)
    else isFalse (fun h2 => h (GoError.wrap.inj h2).1)
  | .join es, .join fs =>
    match GoError.decEqList es fs with
    | isTrue h => isTrue (by rw [h])
    | isFalse h => isFalse (fun h2 => h (GoError.join.inj h2))
  | .api _, .foreign _ => isFalse (fun h => GoError.noConfusion h)
  | .api _, .wrap _ _ => isFalse (fun h => GoError.noConfusion h)
  | .api _, .join _ => isFalse (fun h => GoError.noConfusion h)
  | .foreign _, .api _ => isFalse (fun h => GoError.noConfusion h)
  | .foreign _, .wrap _ _ => isFalse (fun h => GoError.noConfusion h)
  | .foreign _, .join _ => isFalse (fun h => GoError.noConfusion h)
  | .wrap _ _, .api _ => isFalse (fun h => GoError.noConfusion h)
  | .wrap _ _, .foreign _ => isFalse (fun h => GoError.noConfusion h)
  | .wrap _ _, .join _ => isFalse (fun h => GoError.noConfusion h)
  | .join _, .api _ => isFalse (fun h => GoError.noConfusion h)
  | .join _, .foreign _ => isFalse (fun h => GoError.noConfusion h)
  | .join _, .wrap _ _ => isFalse (fun h => GoError.noConfusion h)
/-- Decidable equality of lists of error values. -/
def GoError.decEqList : (as bs : List GoError) → Decidable (as = bs)
  | [], [] => isTrue rfl
  | [], _ :: _ => isFalse (fun h => List.noConfusion h)
  | _ :: _, [] => isFalse (fun h => List.noConfusion h)
  | a :: as, b :: bs =>
    match GoError.decEq a b with
    | isTrue h =>
      match GoError.decEqList as bs with
      | isTrue hs => isTrue (by rw [h, hs])
      | isFalse hs => isFalse (fun h2 => hs (List.cons.inj h2).2)
    | isFalse h => isFalse (fun h2 => h (List.cons.inj h2).1)
end

instance : DecidableEq GoError := GoError.decEq

deriving instance DecidableEq for Except

mutual
/-- The `Error()` text of an error value; for `errors.Join` the texts of the
joined errors separated by newlines. -/
def GoError.message : GoError → String
  | .api e => e.Error
  | .foreign msg => msg
  | .wrap msg _ => msg
  | .join errs => GoError.joinMessages errs
/-- The newline separated texts of a list of errors. -/
def GoError.joinMessages : List GoError → String
  | [] => ""
  | [e] => e.message
  | e :: rest => e.message ++ "\n" ++ GoError.joinMessages rest
end

mutual
/-- Go `errors.As(err, &target)` for `target` of type `*yd4b.Error`: the first
`*Error` met in the pre-order, depth-first walk of the error tree. -/
def GoError.asError : GoError → Option Error
  | .api e => some e
  | .foreign _ => none
  | .wrap _ cause => cause.asError
  | .join errs => GoError.asErrorList errs
/-- The first `*Error` found in a list of error trees. -/
def GoError.asErrorList : List GoError → Option Error
  | [] => none
  | e :: rest =>
    match e.asError with
    | some x => some x
    | none => GoError.asErrorList rest
end

mutual
/-- All error values in the tree of `err` (the values `errors.Is` compares its
target with), in pre-order. -/
def GoError.chain : GoError → List GoError
  | .api e => [.api e]
  | .foreign msg => [.foreign msg]
  | .wrap msg cause => .wrap msg cause :: cause.chain
  | .join errs => .join errs :: GoError.chainList errs
/-- The trees of a list of errors, concatenated. -/
def GoError.chainList : List GoError → List GoError
  | [] => []
  | e :: rest => e.chain ++ GoError.chainList rest
end

/-- Go `errors.Join`: nil arguments are dropped; nil when nothing is left. -/
def errorsJoin (errs : List (Option GoError)) : Option GoError :=
  match errs.filterMap id with
  | [] => none
  | es => some (.join es)

/-- Result of a Go function `func(...) (res T, err error)`: the pair it
returns, or a run-time panic. -/
inductive Outcome (α : Type) where
  | ret (res : α) (err : Option GoError)
  | panic
deriving DecidableEq, Repr

/-! ## net/url (Go 1.26) -/

/-- The escaping modes of net/url. -/
inductive Encoding where
  | encodePath
  | encodePathSegment
  | encodeHost
  | encodeZone
  | encodeUserPassword
  | encodeQueryComponent
  | encodeFragment
deriving DecidableEq, Repr

/-- ASCII letter or digit. -/
def isAlnum (c : Nat) : Bool :=
  (97 ≤ c && c ≤ 122) || (65 ≤ c && c ≤ 90) || (48 ≤ c && c ≤ 57)

/-- Hexadecimal digit (`ishex`). -/
def ishex (c : Nat) : Bool :=
  (48 ≤ c && c ≤ 57) || (97 ≤ c && c ≤ 102) || (65 ≤ c && c ≤ 70)

/-- Value of a hexadecimal digit (`unhex`). -/
def unhex (c : Nat) : Nat :=
  if 48 ≤ c ∧ c ≤ 57 then c - 48
  else if 97 ≤ c ∧ c ≤ 102 then c - 97 + 10
  else if 65 ≤ c ∧ c ≤ 70 then c - 65 + 10
  else 0

/-- The digit of `upperhex = "0123456789ABCDEF"` at index `n`. -/
def upperhex (n : Nat) : Nat :=
  if n < 10 then 48 + n else 55 + n

/-- Bytes that a host may hold unescaped: `! $ & ' ( ) * + , ; = : [ ] < > "`. -/
def hostSubDelim (c : Nat) : Bool :=
  c = 33 || c = 36 || c = 38 || c = 39 || c = 40 || c = 41 || c = 42 || c = 43 ||
  c = 44 || c = 59 || c = 61 || c = 58 || c = 91 || c = 93 || c = 60 || c = 62 || c = 34

/-- The reserved bytes `$ & + , / : ; = ? @`. -/
def isReserved (c : Nat) : Bool :=
  c = 36 || c = 38 || c = 43 || c = 44 || c = 47 || c = 58 || c = 59 || c = 61 ||
  c = 63 || c = 64

/-- `shouldEscape(c, mode)` of net/url: whether byte `c` must be written as
`%XX` in the given part of a URL. -/
def shouldEscape (c : Nat) (mode : Encoding) : Bool :=
  if isAlnum c then false
  else if (mode = .encodeHost || mode = .encodeZone) && hostSubDelim c then false
  else if c = 45 || c = 95 || c = 46 || c = 126 then false
  else if isReserved c then
    match mode with
    | .encodePath => c = 63
    | .encodePathSegment => c = 47 || c = 59 || c = 44 || c = 63
    | .encodeUserPassword => c = 64 || c = 47 || c = 63 || c = 58
    | .encodeQueryComponent => true
    | .encodeFragment => false
    | _ => true
  else if mode = .encodeFragment && (c = 33 || c = 40 || c = 41 || c = 42) then false
  else true

/-- `escape(s, mode)` of net/url. -/
def escape (mode : Encoding) : Bytes → Bytes
  | [] => []
  | c :: rest =>
    if c = 32 ∧ mode = .encodeQueryComponent then 43 :: escape mode rest
    else if shouldEscape c mode then
      37 :: upperhex (c / 16) :: upperhex (c % 16) :: escape mode rest
    else c :: escape mode rest

/-- The text of an `EscapeError`. -/
def escapeErrorText (e : Bytes) : String :=
  "invalid URL escape " ++ strconvQuote e

/-- The text of an `InvalidHostError`. -/
def invalidHostErrorText (e : Bytes) : String :=
  "invalid character " ++ strconvQuote e ++ " in host name"

/-- `unescape(s, mode)` of net/url; the failure carries the text of Go's
`EscapeError` / `InvalidHostError`. -/
def unescape (mode : Encoding) : Bytes → Except String Bytes
  | [] => .ok []
  | 37 :: a :: b :: rest =>
    if ¬ (ishex a ∧ ishex b) then .error (escapeErrorText [37, a, b])
    else if mode = .encodeHost ∧ unhex a < 8 ∧ ¬ (a = 50 ∧ b = 53) then
      .error (escapeErrorText [37, a, b])
    else if mode = .encodeZone ∧ ¬ (a = 50 ∧ b = 53) ∧ unhex a * 16 + unhex b ≠ 32
        ∧ shouldEscape (unhex a * 16 + unhex b) .encodeHost then
      .error (escapeErrorText [37, a, b])
    else
      match unescape mode rest with
      | .ok t => .ok ((unhex a * 16 + unhex b) :: t)
      | .error e => .error e
  | c :: rest =>
    if c = 37 then .error (escapeErrorText (c :: rest))
    else if (mode = .encodeHost ∨ mode = .encodeZone) ∧ c < 128 ∧ shouldEscape c .encodeHost then
      .error (invalidHostErrorText [c])
    else
      match unescape mode rest with
      | .ok t => .ok ((if c = 43 ∧ mode = .encodeQueryComponent then 32 else c) :: t)
      | .error e => .error e

/-- `QueryEscape` of net/url. -/
def QueryEscape (s : Bytes) : Bytes :=
  escape .encodeQueryComponent s

/-- `QueryUnescape` of net/url. -/
def QueryUnescape (s : Bytes) : Except String Bytes :=
  unescape .encodeQueryComponent s

/-- `url.Userinfo`. -/
structure Userinfo where
  username : Bytes
  password : Bytes
  passwordSet : Bool
deriving DecidableEq, Repr

/-- `url.URL`. -/
structure URL where
  Scheme : Bytes
  Opaque : Bytes
  User : Option Userinfo
  Host : Bytes
  Path : Bytes
  RawPath : Bytes
  OmitHost : Bool
  ForceQuery : Bool
  RawQuery : Bytes
  Fragment : Bytes
  RawFragment : Bytes
deriving DecidableEq, Repr

/-- The zero `URL`. -/
def URL.zero : URL :=
  { Scheme := [], Opaque := [], User := none, Host := [], Path := [], RawPath := [],
    OmitHost := false, ForceQuery := false, RawQuery := [], Fragment := [],
    RawFragment := [] }

/-- `getScheme`: split a leading `scheme:` off; `soFar` holds the bytes
already scanned (empty at the call). -/
def getSchemeAux (rawURL : Bytes) : Bytes → Bytes → Except String (Bytes × Bytes)
  | _, [] => .ok ([], rawURL)
  | soFar, c :: rest =>
    if (97 ≤ c ∧ c ≤ 122) ∨ (65 ≤ c ∧ c ≤ 90) then getSchemeAux rawURL (soFar ++ [c]) rest
    else if (48 ≤ c ∧ c ≤ 57) ∨ c = 43 ∨ c = 45 ∨ c = 46 then
      if soFar = [] then .ok ([], rawURL) else getSchemeAux rawURL (soFar ++ [c]) rest
    else if c = 58 then
      if soFar = [] then .error "missing protocol scheme" else .ok (soFar, rest)
    else .ok ([], rawURL)

/-- `getScheme(rawURL)` of net/url. -/
def getScheme (rawURL : Bytes) : Except String (Bytes × Bytes) :=
  getSchemeAux rawURL [] rawURL

/-- `validOptionalPort`: empty, or a colon followed by digits. -/
def validOptionalPort : Bytes → Bool
  | [] => true
  | c :: rest => c = 58 && rest.all (fun b => 48 ≤ b && b ≤ 57)

/-- `validUserinfo` of net/url. -/
def validUserinfo (s : Bytes) : Bool :=
  s.all (fun r => isAlnum r || r = 45 || r = 46 || r = 95 || r = 58 || r = 126 || r = 33 ||
    r = 36 || r = 38 || r = 39 || r = 40 || r = 41 || r = 42 || r = 43 || r = 44 ||
    r = 59 || r = 61 || r = 37 || r = 64)

/-- `stringContainsCTLByte` of net/url. -/
def stringContainsCTLByte (s : Bytes) : Bool :=
  s.any (fun b => b < 32 || b = 127)

/-- `parseIPv4Fields` of net/netip: whether the text is four decimal fields
of at most 255, none with a leading zero, separated by dots.  The state is the
value and the number of digits of the current field, the number of fields
closed so far and the previous byte. -/
def ipv4Scan : Nat → Nat → Nat → Option Nat → Bytes → Bool
  | _, _, pos, _, [] => pos = 3
  | val, digLen, pos, prev, c :: rest =>
    if 48 ≤ c ∧ c ≤ 57 then
      if digLen = 1 ∧ val = 0 then false
      else if val * 10 + (c - 48) > 255 then false
      else ipv4Scan (val * 10 + (c - 48)) (digLen + 1) pos (some c) rest
    else if c = 46 then
      if prev = none ∨ rest = [] ∨ prev = some 46 then false
      else if pos = 3 then false
      else ipv4Scan 0 0 (pos + 1) (some c) rest
    else false

/-- The end of `parseIPv6` of net/netip: the whole text must be used, and the
`::` stands for at least one field exactly when fewer than 16 bytes are
filled. -/
def ipv6Finish (i : Nat) (ellipsis : Bool) (s : Bytes) : Bool :=
  s = [] && (if i < 16 then ellipsis else ! ellipsis)

/-- The loop of `parseIPv6` of net/netip over the colon-separated fields; `i`
is the number of address bytes filled so far. -/
def ipv6Groups : Nat → Nat → Bool → Bytes → Bool
  | 0, _, _, _ => false
  | fuel + 1, i, ellipsis, s =>
    if ¬ i < 16 then ipv6Finish i ellipsis s
    else
      let off := (s.takeWhile ishex).length
      let rest := s.drop off
      if off > 4 then false
      else if off = 0 then false
      else if rest.head? = some 46 then
        -- a trailing IPv4 address
        if ¬ ellipsis ∧ i ≠ 12 then false
        else if i + 4 > 16 then false
        else if ipv4Scan 0 0 0 none s then ipv6Finish (i + 4) ellipsis []
        else false
      else if rest = [] then ipv6Finish (i + 2) ellipsis []
      else if rest.head? ≠ some 58 then false
      else if rest.length = 1 then false
      else if (rest.drop 1).head? = some 58 then
        if ellipsis then false
        else if rest.drop 2 = [] then ipv6Finish (i + 2) true []
        else ipv6Groups fuel (i + 2) true (rest.drop 2)
      else ipv6Groups fuel (i + 2) ellipsis (rest.drop 1)

/-- Whether `netip.ParseAddr` reads the text as an IPv6 address (with or
without zone): the first of `.`, `:` and `%` in it is a colon and `parseIPv6`
succeeds. -/
def netipIsIPv6 (x : Bytes) : Bool :=
  match x.find? (fun b => b = 46 || b = 58 || b = 37) with
  | some 58 =>
    let c := stringsCut 37 x
    if c.2.2 ∧ c.2.1 = [] then false
    else if [58, 58].isPrefixOf c.1 then
      if c.1.drop 2 = [] then true else ipv6Groups 9 0 true (c.1.drop 2)
    else ipv6Groups 9 0 false c.1
  | _ => false

/-- The text of the error for a bad port. -/
def invalidPortText (colonPort : Bytes) : String :=
  "invalid port " ++ strconvQuote colonPort ++ " after host"

/-- `parseHost` of net/url.  A host with a bracket is an IP literal: what
stands between the last `[` and the last `]` must be an IPv6 address for
`netip.ParseAddr` (the text of its error is left out); a host without bracket
may hold one colon, in front of the port. -/
def parseHost (host : Bytes) : Except String Bytes :=
  match cutLast 91 host with
  | some (_, afterOpen) =>
    -- an IP literal such as "[fe80::1%25en0]:80"
    match cutLast 93 host with
    | none => .error "missing ']' in host"
    | some (_, colonPort) =>
      if ¬ validOptionalPort colonPort then .error (invalidPortText colonPort)
      else
        match unescape .encodeHost colonPort with
        | .error e => .error e
        | .ok unescapedColonPort =>
          let hostname := afterOpen.take (afterOpen.length - (colonPort.length + 1))
          let unescaped : Except String Bytes :=
            match cutAtSub [37, 50, 53] hostname with
            | some (hostPart, zonePart) =>
              match unescape .encodeHost hostPart with
              | .error e => .error e
              | .ok h1 =>
                match unescape .encodeZone zonePart with
                | .error e => .error e
                | .ok h2 => .ok (h1 ++ h2)
            | none => unescape .encodeHost hostname
          match unescaped with
          | .error e => .error e
          | .ok unescapedHostname =>
            if ¬ netipIsIPv6 unescapedHostname then .error "invalid host"
            else .ok (91 :: unescapedHostname ++ 93 :: unescapedColonPort)
  | none =>
    let c := stringsCut 58 host
    if c.2.2 ∧ ¬ validOptionalPort (58 :: c.2.1) then .error (invalidPortText (58 :: c.2.1))
    else unescape .encodeHost host

/-- `parseAuthority` of net/url. -/
def parseAuthority (authority : Bytes) : Except String (Option Userinfo × Bytes) :=
  match cutLast 64 authority with
  | none =>
    match parseHost authority with
    | .error e => .error e
    | .ok host => .ok (none, host)
  | some (userinfo, hostPart) =>
    match parseHost hostPart with
    | .error e => .error e
    | .ok host =>
      if ¬ validUserinfo userinfo then .error "net/url: invalid userinfo"
      else if ¬ userinfo.contains 58 then
        match unescape .encodeUserPassword userinfo with
        | .error e => .error e
        | .ok name => .ok (some { username := name, password := [], passwordSet := false }, host)
      else
        let c := stringsCut 58 userinfo
        match unescape .encodeUserPassword c.1 with
        | .error e => .error e
        | .ok name =>
          match unescape .encodeUserPassword c.2.1 with
          | .error e => .error e
          | .ok pw => .ok (some { username := name, password := pw, passwordSet := true }, host)

/-- `(*URL).setPath` of net/url. -/
def URL.setPath (u : URL) (p : Bytes) : Except String URL :=
  match unescape .encodePath p with
  | .error e => .error e
  | .ok path =>
    if p = escape .encodePath path then .ok { u with Path := path, RawPath := [] }
    else .ok { u with Path := path, RawPath := p }

/-- `validEncoded(s, mode)` of net/url. -/
def validEncoded (s : Bytes) (mode : Encoding) : Bool :=
  s.all (fun c =>
    c = 33 || c = 36 || c = 38 || c = 39 || c = 40 || c = 41 || c = 42 || c = 43 ||
    c = 44 || c = 59 || c = 61 || c = 58 || c = 64 || c = 91 || c = 93 || c = 37 ||
    ! shouldEscape c mode)

/-- `(*URL).EscapedPath` of net/url. -/
def URL.EscapedPath (u : URL) : Bytes :=
  let rawMatches : Bool :=
    match unescape .encodePath u.RawPath with
    | .ok p => p = u.Path
    | .error _ => false
  if u.RawPath ≠ [] ∧ validEncoded u.RawPath .encodePath ∧ rawMatches then u.RawPath
  else if u.Path = [42] then [42]
  else escape .encodePath u.Path

/-- `(*URL).setFragment` of net/url. -/
def URL.setFragment (u : URL) (f : Bytes) : Except String URL :=
  match unescape .encodeFragment f with
  | .error e => .error e
  | .ok frag =>
    if f = escape .encodeFragment frag then .ok { u with Fragment := frag, RawFragment := [] }
    else .ok { u with Fragment := frag, RawFragment := f }

/-- `(*URL).EscapedFragment` of net/url. -/
def URL.EscapedFragment (u : URL) : Bytes :=
  let rawMatches : Bool :=
    match unescape .encodeFragment u.RawFragment with
    | .ok f => f = u.Fragment
    | .error _ => false
  if u.RawFragment ≠ [] ∧ validEncoded u.RawFragment .encodeFragment ∧ rawMatches then
    u.RawFragment
  else escape .encodeFragment u.Fragment

/-- `parse(rawURL, viaRequest)` of net/url with `viaRequest = false`, the only
way `url.Parse` calls it. -/
def parse (rawURL : Bytes) : Except String URL :=
  if stringContainsCTLByte rawURL then .error "net/url: invalid control character in URL"
  else if rawURL = [42] then .ok { URL.zero with Path := [42] }
  else
    match getScheme rawURL with
    | .error e => .error e
    | .ok (scheme0, rest0) =>
      let scheme := scheme0.map lowerByte
      let forceQuery : Bool := [63].isSuffixOf rest0 && rest0.count 63 == 1
      let rest1 : Bytes := if forceQuery then rest0.dropLast else (stringsCut 63 rest0).1
      let rawQuery : Bytes := if forceQuery then [] else (stringsCut 63 rest0).2.1
      let url : URL := { URL.zero with Scheme := scheme, ForceQuery := forceQuery,
                                       RawQuery := rawQuery }
      if ¬ [47].isPrefixOf rest1 ∧ scheme ≠ [] then
        -- rootless paths are opaque
        .ok { url with Opaque := rest1 }
      else if ¬ [47].isPrefixOf rest1 ∧ (stringsCut 47 rest1).1.contains 58 then
        .error "first path segment in URL cannot contain colon"
      else if (scheme ≠ [] ∨ ¬ [47, 47, 47].isPrefixOf rest1) ∧ [47, 47].isPrefixOf rest1 then
        let c := stringsCut 47 (rest1.drop 2)
        let authority := c.1
        let rest2 : Bytes := if c.2.2 then 47 :: c.2.1 else []
        match parseAuthority authority with
        | .error e => .error e
        | .ok (user, host) => URL.setPath { url with User := user, Host := host } rest2
      else if scheme ≠ [] ∧ [47].isPrefixOf rest1 then
        URL.setPath { url with OmitHost := true } rest1
      else URL.setPath url rest1

/-- The text of a `*url.Error`: `op "url": cause`. -/
def urlErrorText (op : String) (url : Bytes) (cause : String) : String :=
  op ++ " " ++ strconvQuote url ++ ": " ++ cause

/-- `url.Parse`.  The failure is Go's `*url.Error`, an error that wraps its
cause; the URL it names is the text without the fragment when the text before
the fragment fails to parse. -/
def urlParse (rawURL : Bytes) : Except GoError URL :=
  let c := stringsCut 35 rawURL
  match parse c.1 with
  | .error e => .error (.wrap (urlErrorText "parse" c.1 e) (.foreign e))
  | .ok url =>
    if c.2.1 = [] then .ok url
    else
      match url.setFragment c.2.1 with
      | .error e => .error (.wrap (urlErrorText "parse" rawURL e) (.foreign e))
      | .ok url2 => .ok url2

/-- `(*Userinfo).String` of net/url. -/
def Userinfo.String (u : Userinfo) : Bytes :=
  escape .encodeUserPassword u.username ++
    (if u.passwordSet then 58 :: escape .encodeUserPassword u.password else [])

/-- The text `(*URL).String` writes before the query: the scheme and either
the opaque part or the authority and the path. -/
def URL.stringHead (u : URL) : Bytes :=
  let buf1 : Bytes := if u.Scheme ≠ [] then u.Scheme ++ [58] else []
  if u.Opaque ≠ [] then buf1 ++ u.Opaque
  else
    let auth : Bytes :=
      if u.Scheme ≠ [] ∨ u.Host ≠ [] ∨ u.User ≠ none then
        if u.OmitHost ∧ u.Host = [] ∧ u.User = none then []
        else
          (if u.Host ≠ [] ∨ u.Path ≠ [] ∨ u.User ≠ none then [47, 47] else []) ++
          (match u.User with
           | some ui => ui.String ++ [64]
           | none => []) ++
          (if u.Host ≠ [] then escape .encodeHost u.Host else [])
      else []
    let path := u.EscapedPath
    let buf3 : Bytes := buf1 ++ auth
    let buf4 : Bytes :=
      if path ≠ [] ∧ path.head? ≠ some 47 ∧ u.Host ≠ [] then buf3 ++ [47] else buf3
    let buf5 : Bytes :=
      if buf4 = [] ∧ (stringsCut 47 path).1.contains 58 then [46, 47] else buf4
    buf5 ++ path

/-- `(*URL).String` of net/url. -/
def URL.String (u : URL) : Bytes :=
  let buf2 : Bytes := u.stringHead
  let buf6 : Bytes := if u.ForceQuery ∨ u.RawQuery ≠ [] then buf2 ++ 63 :: u.RawQuery else buf2
  if u.Fragment ≠ [] then buf6 ++ 35 :: u.EscapedFragment else buf6

/-- Byte-wise lexicographic order of Go strings (the order of `sort.Strings`). -/
def bytesLt : Bytes → Bytes → Bool
  | [], [] => false
  | [], _ :: _ => true
  | _ :: _, [] => false
  | a :: as, b :: bs => a < b || (a = b && bytesLt as bs)

/-- The pieces of `s` between occurrences of `sep` (`strings.Split`). -/
def splitBytes (sep : Nat) : Bytes → List Bytes
  | [] => [[]]
  | c :: rest =>
    if c = sep then [] :: splitBytes sep rest
    else
      match splitBytes sep rest with
      | [] => [[c]]
      | seg :: segs => (c :: seg) :: segs

/-- `url.Values`, a `map[string][]string`.  The map is kept as an association
list ordered by key, the order in which `Encode` walks it. -/
abbrev Values := List (Bytes × List Bytes)

/-- The map update `m[key] = append(m[key], value)` (`Values.Add`). -/
def Values.Add (key value : Bytes) : Values → Values
  | [] => [(key, [value])]
  | (k, vs) :: rest =>
    if key = k then (k, vs ++ [value]) :: rest
    else if bytesLt key k then (key, [value]) :: (k, vs) :: rest
    else (k, vs) :: Values.Add key value rest

/-- `Values.Set`: `v[key] = []string{value}`. -/
def Values.Set (key value : Bytes) : Values → Values
  | [] => [(key, [value])]
  | (k, vs) :: rest =>
    if key = k then (k, [value]) :: rest
    else if bytesLt key k then (key, [value]) :: (k, vs) :: rest
    else (k, vs) :: Values.Set key value rest

/-- `Values.Get`: the first value of `key`, or the empty string. -/
def Values.Get (v : Values) (key : Bytes) : Bytes :=
  match v.lookup key with
  | some (x :: _) => x
  | _ => []

/-- `Values.Has`. -/
def Values.Has (v : Values) (key : Bytes) : Bool :=
  (v.lookup key).isSome

/-- `Values.Encode`: `key=value` pairs sorted by key, joined by `&`. -/
def Values.Encode (v : Values) : Bytes :=
  [38].intercalate
    (v.flatMap (fun kv => kv.2.map (fun x => QueryEscape kv.1 ++ 61 :: QueryEscape x)))

/-- The loop of `parseQuery` over the `&`-separated pieces of a query; a piece
that is empty, holds a semicolon or fails to unescape is skipped (its error is
the one `Query` throws away). -/
def parseQueryPieces (m : Values) : List Bytes → Values
  | [] => m
  | piece :: rest =>
    if piece.contains 59 then parseQueryPieces m rest
    else if piece = [] then parseQueryPieces m rest
    else
      let c := stringsCut 61 piece
      match QueryUnescape c.1 with
      | .error _ => parseQueryPieces m rest
      | .ok key =>
        match QueryUnescape c.2.1 with
        | .error _ => parseQueryPieces m rest
        | .ok value => parseQueryPieces (Values.Add key value m) rest

/-- `(*URL).Query`: `ParseQuery(u.RawQuery)` with the error dropped. -/
def URL.Query (u : URL) : Values :=
  parseQueryPieces [] (splitBytes 38 u.RawQuery)

/-! ### path.Clean, path.Join and url.JoinPath -/

/-- One element of the scan of `path.Clean`; `out` is the stack of elements
written so far, last one first.  Empty and `.` elements are dropped, a `..`
removes the last real element (or is kept in front of a relative path),
anything else is appended. -/
def cleanStep (rooted : Bool) (out : List Bytes) (seg : Bytes) : List Bytes :=
  if seg = [] ∨ seg = [46] then out
  else if seg = [46, 46] then
    match out with
    | top :: below =>
      if top = [46, 46] then (if rooted then out else seg :: out) else below
    | [] => if rooted then [] else [seg]
  else seg :: out

/-- `path.Clean`. -/
def pathClean (path : Bytes) : Bytes :=
  if path = [] then [46]
  else
    let rooted : Bool := path.head? = some 47
    let out := (splitBytes 47 path).foldl (cleanStep rooted) []
    let body := [47].intercalate out.reverse
    if rooted then 47 :: body
    else if body = [] then [46] else body

/-- `path.Join`: leading empty elements are ignored, the others are joined by
slashes and the result is cleaned; the empty string when all are empty. -/
def pathJoin (elem : List Bytes) : Bytes :=
  match elem.dropWhile (fun e => e = []) with
  | [] => []
  | es => pathClean ([47].intercalate es)

/-- The text of a library error (`String`; the plain name is taken by the
method `String` inside the namespace of `URL`). -/
abbrev ErrorText := String

/-- `(*URL).joinPath` of net/url: the URL with the elements joined to its
path, or the error of `setPath`. -/
def URL.joinPath (u : URL) (elem : List Bytes) : Except ErrorText URL :=
  let elem0 := u.EscapedPath
  let p0 : Bytes :=
    if ¬ [47].isPrefixOf elem0 then (pathJoin ((47 :: elem0) :: elem)).drop 1
    else pathJoin (elem0 :: elem)
  let last := (elem0 :: elem).getLast?.getD []
  let p : Bytes := if [47].isSuffixOf last ∧ ¬ [47].isSuffixOf p0 then p0 ++ [47] else p0
  u.setPath p

/-- `url.JoinPath(base, elem...)`: the error is the one of `url.Parse` or the
`EscapeError` of a path element. -/
def urlJoinPath (base : Bytes) (elem : List Bytes) : Except GoError Bytes :=
  match urlParse base with
  | .error e => .error e
  | .ok url =>
    match url.joinPath elem with
    | .error e => .error (.foreign e)
    | .ok res => .ok res.String

/-! ## encoding/json (encoding side) -/

/-- The JSON values the request structs of this library marshal to. -/
inductive JSONValue where
  | str (s : String)
  | num (n : Int)
deriving DecidableEq, Repr

/-- A JSON object: its members in the order `json.Marshal` writes them.  A
request body is kept as this document; its text is `json.Marshal`'s rendering
of it. -/
abbrev JSONObject := List (String × JSONValue)

/-- A string member with the `omitempty` tag: left out when empty. -/
def omitemptyString (key s : String) : JSONObject :=
  if s = "" then [] else [(key, .str s)]

/-- An integer member with the `omitempty` tag: left out when zero. -/
def omitemptyInt (key : String) (n : Int) : JSONObject :=
  if n = 0 then [] else [(key, .num n)]

/-- `(*Error).ToJSON` of errors.go: `json.Marshal` of the two tagged fields;
marshalling a struct of an int and a string cannot fail. -/
def Error.ToJSON (e : Yd4b.Error) : Except GoError JSONObject :=
  .ok [("status_code", .num e.StatusCode), ("message", .str e.Message)]

/-! ## net/http -/

/-- `http.Header`, a `map[string][]string`, as an association list. -/
abbrev Header := List (String × List String)

/-- Bytes allowed in a header field name (token characters). -/
def validHeaderFieldByte (c : Char) : Bool :=
  let n := c.toNat
  isAlnum n || n = 33 || n = 35 || n = 36 || n = 37 || n = 38 || n = 39 || n = 42 ||
  n = 43 || n = 45 || n = 46 || n = 94 || n = 95 || n = 96 || n = 124 || n = 126

/-- The canonicalising scan of `textproto.CanonicalMIMEHeaderKey`: upper case
for the first letter and each letter after a dash, lower case elsewhere. -/
def canonicalScan : Bool → List Char → List Char
  | _, [] => []
  | upper, c :: rest =>
    let n := c.toNat
    let c2 : Char :=
      if upper ∧ 97 ≤ n ∧ n ≤ 122 then Char.ofNat (n - 32)
      else if ¬ upper ∧ 65 ≤ n ∧ n ≤ 90 then Char.ofNat (n + 32)
      else c
    c2 :: canonicalScan (c2 = '-') rest

/-- `textproto.CanonicalMIMEHeaderKey`: a key holding a byte that is not a
token character is returned unchanged. -/
def CanonicalMIMEHeaderKey (s : String) : String :=
  if s.toList.all validHeaderFieldByte then String.mk (canonicalScan true s.toList) else s

/-- The map update `h[key] = values`. -/
def Header.put (key : String) (values : List String) : Header → Header
  | [] => [(key, values)]
  | (k, vs) :: rest =>
    if k = key then (k, values) :: rest else (k, vs) :: Header.put key values rest

/-- `Header.Set`. -/
def Header.Set (h : Header) (key value : String) : Header :=
  Header.put (CanonicalMIMEHeaderKey key) [value] h

/-- `Header.Get`: the first value of the canonical key, or "". -/
def Header.Get (h : Header) (key : String) : String :=
  match h.lookup (CanonicalMIMEHeaderKey key) with
  | some (x :: _) => x
  | _ => ""

/-- `http.Request` as far as the library touches it.  `Header` is a map that
is not nil, as in every request `http.NewRequest` makes. -/
structure Request where
  Method : String
  URL : URL
  Header : Header
  Body : Option JSONObject
  Host : Bytes
deriving DecidableEq, Repr

/-- `http.Response` as far as the library touches it; `Body = none` is a nil
body, `some b` a body whose content is `b`. -/
structure Response where
  StatusCode : Int
  Body : Option String
deriving DecidableEq, Repr

/-- `validMethod` of net/http: non-empty and made of token characters. -/
def validMethod (method : String) : Bool :=
  method ≠ "" && method.toList.all validHeaderFieldByte

/-- `removeEmptyPort` of net/http: drops a trailing colon that stands for an
empty port. -/
def removeEmptyPort (host : Bytes) : Bytes :=
  let hasPort : Bool :=
    match cutLast 58 host, cutLast 93 host with
    | some (_, afterColon), some (_, afterBracket) => afterColon.length < afterBracket.length
    | some _, none => true
    | none, _ => false
  if hasPort ∧ [58].isSuffixOf host then host.dropLast else host

/-- `http.NewRequest(method, url, body)`. -/
def httpNewRequest (method : String) (url : Bytes) (body : Option JSONObject) :
    Except GoError Request :=
  let method := if method = "" then "GET" else method
  if ¬ validMethod method then
    .error (.foreign ("net/http: invalid method " ++ strconvQuote (utf8 method)))
  else
    match urlParse url with
    | .error e => .error e
    | .ok u =>
      let host := removeEmptyPort u.Host
      .ok { Method := method, URL := { u with Host := host }, Header := [], Body := body,
            Host := host }

/-! ## yd4b.go -/

/-- What a transport function returns: `(*http.Response, error)`, each nil
(`none`) or not. -/
abbrev DoResult := Option Response × Option GoError

/-- The `Client` struct of yd4b.go. -/
structure Client where
  version : String
  origin : String
  clientID : String
  clientSecret : String
  token : String
  myip : String
  ecuid : String
  doFunc : Request → DoResult

/-- `NewClient` of yd4b.go; `defaultDo` stands for `http.DefaultClient.Do`. -/
def NewClient (defaultDo : Request → DoResult) (origin clientID clientSecret myip : String) :
    Client :=
  { version := "v1", origin := origin, clientID := clientID, clientSecret := clientSecret,
    token := "", myip := myip, ecuid := "", doFunc := defaultDo }

/-- `(*Client).Version`. -/
def Client.Version (c : Client) : String :=
  c.version

/-- `(*Client).SetDoFunc`. -/
def Client.SetDoFunc (c : Client) (f : Request → DoResult) : Client :=
  { c with doFunc := f }

/-- `(*Client).SetToken`. -/
def Client.SetToken (c : Client) (token : String) : Client :=
  { c with token := token }

/-- `(*Client).HasToken`. -/
def Client.HasToken (c : Client) : Bool :=
  c.token ≠ ""

/-- `(*Client).SetECUID`. -/
def Client.SetECUID (c : Client) (ecuid : String) : Client :=
  { c with ecuid := ecuid }

/-- The request as `(*Client).do` hands it to the transport: the three
`Header.Set` calls of yd4b.go lines 60-64. -/
def Client.decorate (c : Client) (req : Request) : Request :=
  let h1 := req.Header.Set "Content-Type" "application/json"
  let h2 := h1.Set "x-forwarded-for" c.myip
  let h3 := if c.HasToken then h2.Set "Authorization" ("Bearer " ++ c.token) else h2
  { req with Header := h3 }

/-- `(*Client).do` of yd4b.go (`do` is a Lean keyword, hence the underscore). -/
def Client.do_ (c : Client) (req : Request) : DoResult :=
  c.doFunc (c.decorate req)

/-! ## addresszip.go -/

/-- The `addressRequest` struct. -/
structure addressRequest where
  PrefCode : String
  PrefName : String
  PrefKana : String
  PrefRoma : String
  CityCode : String
  CityName : String
  CityKana : String
  CityRoma : String
  TownName : String
  TownKana : String
  TownRoma : String
  Freeword : String
  FlgGetCity : Int
  FlgGetPref : Int
  Page : Int
  Limit : Int
deriving DecidableEq, Repr

/-- The zero `addressRequest` (`var r addressRequest`). -/
def addressRequest.zero : addressRequest :=
  { PrefCode := "", PrefName := "", PrefKana := "", PrefRoma := "", CityCode := "",
    CityName := "", CityKana := "", CityRoma := "", TownName := "", TownKana := "",
    TownRoma := "", Freeword := "", FlgGetCity := 0, FlgGetPref := 0, Page := 0, Limit := 0 }

/-- An `addressRequestOption`: its `apply(*addressRequest)` as a function on
the request it mutates. -/
abbrev addressRequestOption := addressRequest → addressRequest

/-- `WithPrefCode`. -/
def WithPrefCode (code : String) : addressRequestOption := fun r => { r with PrefCode := code }
/-- `WithPrefName`. -/
def WithPrefName (name : String) : addressRequestOption := fun r => { r with PrefName := name }
/-- `WithPrefKana`. -/
def WithPrefKana (kana : String) : addressRequestOption := fun r => { r with PrefKana := kana }
/-- `WithPrefRoma`. -/
def WithPrefRoma (roma : String) : addressRequestOption := fun r => { r with PrefRoma := roma }
/-- `WithCityCode`. -/
def WithCityCode (code : String) : addressRequestOption := fun r => { r with CityCode := code }
/-- `WithCityName`. -/
def WithCityName (name : String) : addressRequestOption := fun r => { r with CityName := name }
/-- `WithCityKana`. -/
def WithCityKana (kana : String) : addressRequestOption := fun r => { r with CityKana := kana }
/-- `WithCityRoma`. -/
def WithCityRoma (roma : String) : addressRequestOption := fun r => { r with CityRoma := roma }
/-- `WithTownName`. -/
def WithTownName (name : String) : addressRequestOption := fun r => { r with TownName := name }
/-- `WithTownKana`. -/
def WithTownKana (kana : String) : addressRequestOption := fun r => { r with TownKana := kana }
/-- `WithTownRoma`. -/
def WithTownRoma (roma : String) : addressRequestOption := fun r => { r with TownRoma := roma }
/-- `WithFreeword`. -/
def WithFreeword (word : String) : addressRequestOption := fun r => { r with Freeword := word }
/-- `WithFlgGetCity`. -/
def WithFlgGetCity (flag : Int) : addressRequestOption := fun r => { r with FlgGetCity := flag }
/-- `WithFlgGetPref`. -/
def WithFlgGetPref (flag : Int) : addressRequestOption := fun r => { r with FlgGetPref := flag }
/-- `WithAZPage`. -/
def WithAZPage (page : Int) : addressRequestOption := fun r => { r with Page := page }
/-- `WithAZLimit`. -/
def WithAZLimit (limit : Int) : addressRequestOption := fun r => { r with Limit := limit }

/-- `newAddressRequest`: the options applied in order to the zero request. -/
def newAddressRequest (opts : List addressRequestOption) : addressRequest :=
  opts.foldl (fun r opt => opt r) addressRequest.zero

/-- `json.Marshal` of an `addressRequest`: the tagged fields in declaration
order, each with `omitempty`.  Marshalling this struct cannot fail. -/
def addressRequest.marshal (r : addressRequest) : Except GoError JSONObject :=
  .ok (omitemptyString "pref_code" r.PrefCode ++ omitemptyString "pref_name" r.PrefName ++
    omitemptyString "pref_kana" r.PrefKana ++ omitemptyString "pref_roma" r.PrefRoma ++
    omitemptyString "city_code" r.CityCode ++ omitemptyString "city_name" r.CityName ++
    omitemptyString "city_kana" r.CityKana ++ omitemptyString "city_roma" r.CityRoma ++
    omitemptyString "town_name" r.TownName ++ omitemptyString "town_kana" r.TownKana ++
    omitemptyString "town_roma" r.TownRoma ++ omitemptyString "freeword" r.Freeword ++
    omitemptyInt "flg_getcity" r.FlgGetCity ++ omitemptyInt "flg_getpref" r.FlgGetPref ++
    omitemptyInt "page" r.Page ++ omitemptyInt "limit" r.Limit)

/-- The `AddressItem` struct. -/
structure AddressItem where
  ZipCode : String
  PrefCode : String
  PrefName : String
  PrefKana : String
  PrefRoma : String
  CityCode : String
  CityName : String
  CityKana : String
  CityRoma : String
  TownName : String
  TownKana : String
  TownRoma : String
deriving DecidableEq, Repr

/-- The `AddressResponse` struct; `Addresses = none` is the nil slice. -/
structure AddressResponse where
  Level : Int
  Page : Int
  Limit : Int
  Count : Int
  Addresses : Option (List AddressItem)
deriving DecidableEq, Repr

/-- The zero `AddressResponse`. -/
def AddressResponse.zero : AddressResponse :=
  { Level := 0, Page := 0, Limit := 0, Count := 0, Addresses := none }

/-- The decoding side of encoding/json, which the model takes as given:
`json.NewDecoder(body).Decode(&res)` on a zero `res` of type `α`, as the value
`res` holds afterwards together with the error returned. -/
structure Decoder (α : Type) where
  decode : String → α × Option GoError

/-- Lines 199-231 of `(*Client).AddressZip`: the request built for the
transport, or the `err` returned before the transport is reached. -/
def addressZipRequest (c : Client) (opts : List addressRequestOption) :
    Except (Option GoError) Request :=
  let reqBody := newAddressRequest opts
  match urlJoinPath (utf8 c.origin) [utf8 "api", utf8 c.version, utf8 "addresszip"] with
  | .error err => .error (errorsJoin [some (.api (NewError 500 "endpoint error")), some err])
  | .ok endpoint =>
    match urlParse endpoint with
    | .error err => .error (errorsJoin [some (.api (NewError 500 "url parse error")), some err])
    | .ok u0 =>
      let u : URL :=
        if c.ecuid ≠ "" then
          { u0 with RawQuery := (u0.Query.Set (utf8 "ec_uid") (utf8 c.ecuid)).Encode }
        else u0
      match reqBody.marshal with
      | .error err =>
        .error (errorsJoin [some (.api (NewError 500 "json encoding error")), some err])
      | .ok jsonBody =>
        match httpNewRequest "POST" u.String (some jsonBody) with
        | .error err =>
          .error (errorsJoin [some (.api (NewError 500 "request creation error")), some err])
        | .ok req => .ok req

/-- Lines 234-254 of `(*Client).AddressZip`: what is returned for the
transport's answer.  `defer resp.Body.Close()` panics on a nil response or a
nil body. -/
def addressZipResult (dec : Decoder AddressResponse) (r : DoResult) : Outcome AddressResponse :=
  match r with
  | (_, some err) =>
    .ret AddressResponse.zero (errorsJoin [some (.api (NewError 500 "client do error")), some err])
  | (none, none) => .panic
  | (some resp, none) =>
    match resp.Body with
    | none => .panic
    | some body =>
      if resp.StatusCode ≠ 200 then
        .ret AddressResponse.zero (some (.api (NewError resp.StatusCode "unexpected status code")))
      else
        match dec.decode body with
        | (res, some err) =>
          .ret res (errorsJoin [some (.api (NewError 500 "json decoding error")), some err])
        | (res, none) => .ret res none

/-- `(*Client).AddressZip`. -/
def Client.AddressZip (dec : Decoder AddressResponse) (c : Client)
    (opts : List addressRequestOption) : Outcome AddressResponse :=
  match addressZipRequest c opts with
  | .error err => .ret AddressResponse.zero err
  | .ok req => addressZipResult dec (c.do_ req)

/-! ## searchcode.go -/

/-- The `searchcodeRequest` struct. -/
structure searchcodeRequest where
  SearchCode : String
  Page : Int
  Limit : Int
  Choikitype : Int
  Searchtype : Int
deriving DecidableEq, Repr

/-- A `searchcodeOption`: its `apply(*searchcodeRequest)` as a function on the
request it mutates. -/
abbrev searchcodeOption := searchcodeRequest → searchcodeRequest

/-- `WithSCPage`. -/
def WithSCPage (page : Int) : searchcodeOption := fun r => { r with Page := page }
/-- `WithSCLimit`. -/
def WithSCLimit (limit : Int) : searchcodeOption := fun r => { r with Limit := limit }
/-- `WithChoikitype`. -/
def WithChoikitype (ct : Int) : searchcodeOption := fun r => { r with Choikitype := ct }
/-- `WithSearchtype`. -/
def WithSearchtype (st : Int) : searchcodeOption := fun r => { r with Searchtype := st }

/-- `newSearchcodeRequest`. -/
def newSearchcodeRequest (code : String) (opts : List searchcodeOption) : searchcodeRequest :=
  opts.foldl (fun r opt => opt r)
    { SearchCode := code, Page := 0, Limit := 0, Choikitype := 0, Searchtype := 0 }

/-- A `float64`, as its IEEE-754 bit pattern. -/
structure Float64 where
  bits : Nat
deriving DecidableEq, Repr

/-- The `SearchcodeAddressItem` struct; a nil pointer is `none`. -/
structure SearchcodeAddressItem where
  DgaCode : Option String
  ZipCode : String
  PrefCode : String
  PrefName : String
  PrefKana : Option String
  PrefRoma : Option String
  CityCode : String
  CityName : String
  CityKana : Option String
  CityRoma : Option String
  TownName : String
  TownKana : Option String
  TownRoma : Option String
  BizName : Option String
  BizKana : Option String
  BizRoma : Option String
  BlockName : Option String
  OtherName : Option String
  Address : Option String
  Longitude : Option Float64
  Latitude : Option Float64
deriving DecidableEq, Repr

/-- The `SearchcodeResponse` struct; `Addresses = none` is the nil slice. -/
structure SearchcodeResponse where
  Page : Int
  Limit : Int
  Count : Int
  Searchtype : String
  Addresses : Option (List SearchcodeAddressItem)
deriving DecidableEq, Repr

/-- The zero `SearchcodeResponse`. -/
def SearchcodeResponse.zero : SearchcodeResponse :=
  { Page := 0, Limit := 0, Count := 0, Searchtype := "", Addresses := none }

/-- The query parameters `(*Client).Searchcode` sets (lines 120-136) on the
parameters `q` that the endpoint already carries. -/
def searchcodeQuery (c : Client) (reqDTO : searchcodeRequest) (q : Values) : Values :=
  let q1 := if c.ecuid ≠ "" then q.Set (utf8 "ec_uid") (utf8 c.ecuid) else q
  let q2 := if reqDTO.Page > 0 then q1.Set (utf8 "page") (utf8 (fmtSprint reqDTO.Page)) else q1
  let q3 :=
    if reqDTO.Limit > 0 then q2.Set (utf8 "limit") (utf8 (fmtSprint reqDTO.Limit)) else q2
  let q4 :=
    if reqDTO.Choikitype > 0 then
      q3.Set (utf8 "choikitype") (utf8 (fmtSprint reqDTO.Choikitype))
    else q3
  if reqDTO.Searchtype > 0 then q4.Set (utf8 "searchtype") (utf8 (fmtSprint reqDTO.Searchtype))
  else q4

/-- Lines 105-144 of `(*Client).Searchcode`: the request built for the
transport, or the `err` returned before the transport is reached. -/
def searchcodeHTTPRequest (c : Client) (code : String) (opts : List searchcodeOption) :
    Except (Option GoError) Request :=
  let reqDTO := newSearchcodeRequest code opts
  match urlJoinPath (utf8 c.origin)
      [utf8 "api", utf8 c.version, utf8 "searchcode", utf8 reqDTO.SearchCode] with
  | .error err => .error (errorsJoin [some (.api (NewError 500 "endpoint error")), some err])
  | .ok endpoint =>
    match urlParse endpoint with
    | .error err => .error (errorsJoin [some (.api (NewError 500 "url parse error")), some err])
    | .ok u0 =>
      let q := searchcodeQuery c reqDTO u0.Query
      let u : URL := { u0 with RawQuery := q.Encode }
      match httpNewRequest "GET" u.String none with
      | .error err =>
        .error (errorsJoin [some (.api (NewError 500 "request creation error")), some err])
      | .ok httpReq => .ok httpReq

/-- Lines 146-167 of `(*Client).Searchcode`: what is returned for the
transport's answer.  `defer httpResp.Body.Close()` panics on a nil response or
a nil body. -/
def searchcodeResult (dec : Decoder SearchcodeResponse) (r : DoResult) :
    Outcome SearchcodeResponse :=
  match r with
  | (_, some err) =>
    .ret SearchcodeResponse.zero
      (errorsJoin [some (.api (NewError 500 "client do error")), some err])
  | (none, none) => .panic
  | (some httpResp, none) =>
    match httpResp.Body with
    | none => .panic
    | some body =>
      if httpResp.StatusCode ≠ 200 then
        .ret SearchcodeResponse.zero
          (some (.api (NewError httpResp.StatusCode "unexpected status code")))
      else
        match dec.decode body with
        | (resp, some err) =>
          .ret resp (errorsJoin [some (.api (NewError 500 "json decoding error")), some err])
        | (resp, none) => .ret resp none

/-- `(*Client).Searchcode`. -/
def Client.Searchcode (dec : Decoder SearchcodeResponse) (c : Client) (code : String)
    (opts : List searchcodeOption) : Outcome SearchcodeResponse :=
  match searchcodeHTTPRequest c code opts with
  | .error err => .ret SearchcodeResponse.zero err
  | .ok httpReq => searchcodeResult dec (c.do_ httpReq)

/-! ## token.go -/

/-- The `TokenRequest` struct. -/
structure TokenRequest where
  GrantType : String
  ClientID : String
  SecretKey : String
deriving DecidableEq, Repr

/-- `json.Marshal` of a `TokenRequest`: three string members, none with
`omitempty`.  Marshalling this struct cannot fail. -/
def TokenRequest.marshal (t : TokenRequest) : Except GoError JSONObject :=
  .ok [("grant_type", .str t.GrantType), ("client_id", .str t.ClientID),
       ("secret_key", .str t.SecretKey)]

/-- `(*TokenRequest).ToRequest`. -/
def TokenRequest.ToRequest (t : TokenRequest) (endpoint : Bytes) : Except GoError Request :=
  match t.marshal with
  | .error err => .error err
  | .ok jsonBody => httpNewRequest "POST" endpoint (some jsonBody)

/-- The `TokenResponse` struct. -/
structure TokenResponse where
  Scope : String
  TokenType : String
  ExpiresIn : Int
  Token : String
deriving DecidableEq, Repr

/-- The zero `TokenResponse`. -/
def TokenResponse.zero : TokenResponse :=
  { Scope := "", TokenType := "", ExpiresIn := 0, Token := "" }

/-- Lines 57-72 of `(*Client).GetToken`: the request built for the transport,
or the `err` returned before the transport is reached. -/
def getTokenRequest (c : Client) : Except (Option GoError) Request :=
  match urlJoinPath (utf8 c.origin) [utf8 "api", utf8 c.version, utf8 "j", utf8 "token"] with
  | .error err => .error (errorsJoin [some (.api (NewError 500 "endpoint error")), some err])
  | .ok endpoint =>
    let body : TokenRequest :=
      { GrantType := "client_credentials", ClientID := c.clientID, SecretKey := c.clientSecret }
    match body.ToRequest endpoint with
    | .error err =>
      .error (errorsJoin [some (.api (NewError 500 "request creation error")), some err])
    | .ok req => .ok req

/-- Lines 74-96 of `(*Client).GetToken`: what is returned for the transport's
answer.  `defer resp.Body.Close()` panics on a nil response or a nil body. -/
def getTokenResult (dec : Decoder TokenResponse) (r : DoResult) : Outcome TokenResponse :=
  match r with
  | (_, some err) =>
    .ret TokenResponse.zero (errorsJoin [some (.api (NewError 500 "client do error")), some err])
  | (none, none) => .panic
  | (some resp, none) =>
    match resp.Body with
    | none => .panic
    | some body =>
      if resp.StatusCode ≠ 200 then
        .ret TokenResponse.zero (some (.api (NewError resp.StatusCode "unexpected status code")))
      else
        match dec.decode body with
        | (res, some err) =>
          .ret res (errorsJoin [some (.api (NewError 500 "json decoding error")), some err])
        | (res, none) => .ret { res with Token := stringsTrimPrefix res.Token "Token: " } none

/-- `(*Client).GetToken`. -/
def Client.GetToken (dec : Decoder TokenResponse) (c : Client) : Outcome TokenResponse :=
  match getTokenRequest c with
  | .error err => .ret TokenResponse.zero err
  | .ok req => getTokenResult dec (c.do_ req)

/-! ## Callers' view of the options

The option interfaces have an unexported method, so a caller of the package
can only pass the options that the exported `With...` constructors return.
The two types below name those options. -/

/-- An option for `AddressZip` as a caller writes it: one of the sixteen
constructors with its argument. -/
inductive AddressOpt where
  | prefCode (v : String)
  | prefName (v : String)
  | prefKana (v : String)
  | prefRoma (v : String)
  | cityCode (v : String)
  | cityName (v : String)
  | cityKana (v : String)
  | cityRoma (v : String)
  | townName (v : String)
  | townKana (v : String)
  | townRoma (v : String)
  | freeword (v : String)
  | flgGetCity (v : Int)
  | flgGetPref (v : Int)
  | azPage (v : Int)
  | azLimit (v : Int)
deriving DecidableEq, Repr

/-- The option value a constructor call evaluates to. -/
def AddressOpt.toOption : AddressOpt → addressRequestOption
  | .prefCode v => WithPrefCode v
  | .prefName v => WithPrefName v
  | .prefKana v => WithPrefKana v
  | .prefRoma v => WithPrefRoma v
  | .cityCode v => WithCityCode v
  | .cityName v => WithCityName v
  | .cityKana v => WithCityKana v
  | .cityRoma v => WithCityRoma v
  | .townName v => WithTownName v
  | .townKana v => WithTownKana v
  | .townRoma v => WithTownRoma v
  | .freeword v => WithFreeword v
  | .flgGetCity v => WithFlgGetCity v
  | .flgGetPref v => WithFlgGetPref v
  | .azPage v => WithAZPage v
  | .azLimit v => WithAZLimit v

/-- An option for `Searchcode` as a caller writes it. -/
inductive SearchcodeOpt where
  | scPage (v : Int)
  | scLimit (v : Int)
  | choikitype (v : Int)
  | searchtype (v : Int)
deriving DecidableEq, Repr

/-- The option value a constructor call evaluates to. -/
def SearchcodeOpt.toOption : SearchcodeOpt → searchcodeOption
  | .scPage v => WithSCPage v
  | .scLimit v => WithSCLimit v
  | .choikitype v => WithChoikitype v
  | .searchtype v => WithSearchtype v

/-! ## Vocabulary of the error claims -/

/-- What a caller can observe of an error `err` that the library made with
`errors.Join(NewError(500, msg), cause)`: the text of `err` contains `msg`,
`errors.As` finds the library's `Error` with status 500 and message `msg`,
the cause is in the error tree of `err` (so `errors.Is(err, cause)` holds and
the cause can be recovered), and the text of the cause is part of the text of
`err`. -/
def WrapsCause (err : GoError) (msg : String) (cause : GoError) : Prop :=
  msg.toList <:+: err.message.toList ∧
  err.asError = some { StatusCode := 500, Message := msg } ∧
  cause ∈ err.chain ∧
  cause.message.toList <:+: err.message.toList

/-- The sixteen fields of an `addressRequest`. -/
inductive AddressField where
  | PrefCode | PrefName | PrefKana | PrefRoma
  | CityCode | CityName | CityKana | CityRoma
  | TownName | TownKana | TownRoma | Freeword
  | FlgGetCity | FlgGetPref | Page | Limit
deriving DecidableEq, Repr

/-- The JSON key of a field (its struct tag). -/
def AddressField.key : AddressField → String
  | .PrefCode => "pref_code"
  | .PrefName => "pref_name"
  | .PrefKana => "pref_kana"
  | .PrefRoma => "pref_roma"
  | .CityCode => "city_code"
  | .CityName => "city_name"
  | .CityKana => "city_kana"
  | .CityRoma => "city_roma"
  | .TownName => "town_name"
  | .TownKana => "town_kana"
  | .TownRoma => "town_roma"
  | .Freeword => "freeword"
  | .FlgGetCity => "flg_getcity"
  | .FlgGetPref => "flg_getpref"
  | .Page => "page"
  | .Limit => "limit"

/-- The zero value of a field: the empty string or 0. -/
def AddressField.zero : AddressField → JSONValue
  | .FlgGetCity => .num 0
  | .FlgGetPref => .num 0
  | .Page => .num 0
  | .Limit => .num 0
  | _ => .str ""

/-- The value a request holds in a field. -/
def addressRequest.get (r : addressRequest) : AddressField → JSONValue
  | .PrefCode => .str r.PrefCode
  | .PrefName => .str r.PrefName
  | .PrefKana => .str r.PrefKana
  | .PrefRoma => .str r.PrefRoma
  | .CityCode => .str r.CityCode
  | .CityName => .str r.CityName
  | .CityKana => .str r.CityKana
  | .CityRoma => .str r.CityRoma
  | .TownName => .str r.TownName
  | .TownKana => .str r.TownKana
  | .TownRoma => .str r.TownRoma
  | .Freeword => .str r.Freeword
  | .FlgGetCity => .num r.FlgGetCity
  | .FlgGetPref => .num r.FlgGetPref
  | .Page => .num r.Page
  | .Limit => .num r.Limit

/-- The field an option targets. -/
def AddressOpt.field : AddressOpt → AddressField
  | .prefCode _ => .PrefCode
  | .prefName _ => .PrefName
  | .prefKana _ => .PrefKana
  | .prefRoma _ => .PrefRoma
  | .cityCode _ => .CityCode
  | .cityName _ => .CityName
  | .cityKana _ => .CityKana
  | .cityRoma _ => .CityRoma
  | .townName _ => .TownName
  | .townKana _ => .TownKana
  | .townRoma _ => .TownRoma
  | .freeword _ => .Freeword
  | .flgGetCity _ => .FlgGetCity
  | .flgGetPref _ => .FlgGetPref
  | .azPage _ => .Page
  | .azLimit _ => .Limit

/-- The value an option carries. -/
def AddressOpt.value : AddressOpt → JSONValue
  | .prefCode v => .str v
  | .prefName v => .str v
  | .prefKana v => .str v
  | .prefRoma v => .str v
  | .cityCode v => .str v
  | .cityName v => .str v
  | .cityKana v => .str v
  | .cityRoma v => .str v
  | .townName v => .str v
  | .townKana v => .str v
  | .townRoma v => .str v
  | .freeword v => .str v
  | .flgGetCity v => .num v
  | .flgGetPref v => .num v
  | .azPage v => .num v
  | .azLimit v => .num v

/-- The four option fields of a `searchcodeRequest`. -/
inductive SearchcodeField where
  | Page | Limit | Choikitype | Searchtype
deriving DecidableEq, Repr

/-- The value a request holds in a field. -/
def searchcodeRequest.get (r : searchcodeRequest) : SearchcodeField → Int
  | .Page => r.Page
  | .Limit => r.Limit
  | .Choikitype => r.Choikitype
  | .Searchtype => r.Searchtype

/-- The field an option targets. -/
def SearchcodeOpt.field : SearchcodeOpt → SearchcodeField
  | .scPage _ => .Page
  | .scLimit _ => .Limit
  | .choikitype _ => .Choikitype
  | .searchtype _ => .Searchtype

/-- The value an option carries. -/
def SearchcodeOpt.value : SearchcodeOpt → Int
  | .scPage v => v
  | .scLimit v => v
  | .choikitype v => v
  | .searchtype v => v

/-- The value carried by the last option of `opts` that targets `f`, if any. -/
def lastAddressValue (opts : List AddressOpt) (f : AddressField) : Option JSONValue :=
  ((opts.filter (fun o => o.field = f)).getLast?).map AddressOpt.value

/-- The value carried by the last option of `opts` that targets `f`, if any. -/
def lastSearchcodeValue (opts : List SearchcodeOpt) (f : SearchcodeField) : Option Int :=
  ((opts.filter (fun o => o.field = f)).getLast?).map SearchcodeOpt.value

/-! ## Vocabulary of the URL claims -/

/-- A lower-case scheme: a letter followed by letters, digits, `+`, `-`, `.`. -/
def isPlainScheme : Bytes → Bool
  | [] => false
  | c :: rest =>
    (97 ≤ c && c ≤ 122) &&
      rest.all (fun b => (97 ≤ b && b ≤ 122) || (48 ≤ b && b ≤ 57) || b = 43 || b = 45 || b = 46)

/-- A host in which whatever follows the first `%` (the zone of an IPv6
literal) is made of bytes that a host holds as they are, `[` excepted.  A host
without `%` qualifies: a registered name (ASCII or not), an IPv4 address or a
bracketed IPv6 address, with or without port. -/
def hasPlainZone (h : Bytes) : Bool :=
  ((h.dropWhile (fun b => b ≠ 37)).drop 1).all
    (fun b => !shouldEscape b .encodeHost && b ≠ 91)

/-- A host that `url.Parse` reads back: not empty, and `parseHost` gives it
for the escaped spelling that `String` writes. -/
def isJoinHost (h : Bytes) : Bool :=
  h ≠ [] && parseHost (escape .encodeHost h) = .ok h

/-- A byte that `url.Parse` reads as part of a path or query: no control
byte, no `#`, no `?`. -/
def safeByte (b : Nat) : Bool :=
  32 ≤ b && b ≠ 127 && b ≠ 35 && b ≠ 63

/-- The fields of a user part as `url.Parse` gives them: bytes, and no
password text unless a password is set. -/
def userinfoOK : Option Userinfo → Prop
  | none => True
  | some ui => (∀ b ∈ ui.username, b < 256) ∧ (∀ b ∈ ui.password, b < 256) ∧
      (ui.passwordSet = false → ui.password = [])

/-- The `key=value` pair of a decimal query parameter, present when `n > 0`. -/
def decimalParam (key : String) (n : Int) : List Bytes :=
  if n > 0 then [utf8 key ++ 61 :: utf8 (fmtSprint n)] else []

/-- The `key=value` pair of a text query parameter, present when `v` is not
empty; the value is query-escaped. -/
def textParam (key v : String) : List Bytes :=
  if v ≠ "" then [utf8 key ++ 61 :: QueryEscape (utf8 v)] else []

/-- The query string of a `Searchcode` request whose endpoint carries no query
of its own: the parameters that are set, ordered by key and joined by `&`. -/
def searchcodeQueryText (c : Client) (r : searchcodeRequest) : Bytes :=
  [38].intercalate
    (decimalParam "choikitype" r.Choikitype ++ textParam "ec_uid" c.ecuid ++
     decimalParam "limit" r.Limit ++ decimalParam "page" r.Page ++
     decimalParam "searchtype" r.Searchtype)

/-- A transport that answers every request with `r`. -/
def stubDo (r : DoResult) : Request → DoResult :=
  fun _ => r

/-- The client of the package tests, with a stub transport answering `r`. -/
def sampleClient (r : DoResult) : Client :=
  (NewClient (stubDo r) "https://api.example.com" "id" "secret" "1.2.3.4")

/-- A decoder that fails on every body, leaving `res` at `zero`. -/
def failingDecoder (α : Type) (zero : α) : Decoder α :=
  { decode := fun _ => (zero, some (.foreign "invalid character")) }

/-- The malformed body of the package tests. -/
def sampleBadBody : String := "\x7bbad\x7d"

/-- The token body of the package tests. -/
def sampleTokenBody : String :=
  "\x7b\"scope\":\"J1\",\"token_type\":\"Bearer\",\"expires_in\":3600,\"token\":\"Token: abc123\"\x7d"

/-- A decoder that yields `v` for every body. -/
def constDecoder (α : Type) (v : α) : Decoder α :=
  { decode := fun _ => (v, none) }

/-- The request `AddressZip()` builds for `sampleClient`. -/
def sampleAddressZipRequest : Request :=
  { Method := "POST",
    URL := { URL.zero with Scheme := utf8 "https", Host := utf8 "api.example.com",
                           Path := utf8 "/api/v1/addresszip" },
    Header := [], Body := some [], Host := utf8 "api.example.com" }

/-- The request `Searchcode("CODE")` builds for `sampleClient`. -/
def sampleSearchcodeRequest : Request :=
  { Method := "GET",
    URL := { URL.zero with Scheme := utf8 "https", Host := utf8 "api.example.com",
                           Path := utf8 "/api/v1/searchcode/CODE" },
    Header := [], Body := none, Host := utf8 "api.example.com" }

/-- The request `GetToken()` builds for `sampleClient`. -/
def sampleTokenRequest : Request :=
  { Method := "POST",
    URL := { URL.zero with Scheme := utf8 "https", Host := utf8 "api.example.com",
                           Path := utf8 "/api/v1/j/token" },
    Header := [],
    Body := some [("grant_type", .str "client_credentials"), ("client_id", .str "id"),
                  ("secret_key", .str "secret")],
    Host := utf8 "api.example.com" }

/-- The response body of the `success simple` case of the package tests. -/
def sampleAddressBody : String :=
  "\x7b\"level\":1,\"page\":0,\"limit\":0,\"count\":0,\"addresses\":[]\x7d"

/-- The response body of the `success without params` case of the package
tests. -/
def sampleSearchcodeBody : String :=
  "\x7b\"page\":0,\"limit\":0,\"count\":0,\"searchtype\":\"zipcode\",\"addresses\":[]\x7d"

/-- The request `AddressZip()` builds for `sampleClient` with the partner ID
`EC42` of the package tests. -/
def samplePartnerRequest : Request :=
  { Method := "POST",
    URL := { URL.zero with Scheme := utf8 "https", Host := utf8 "api.example.com",
                           Path := utf8 "/api/v1/addresszip", RawQuery := utf8 "ec_uid=EC42" },
    Header := [], Body := some [], Host := utf8 "api.example.com" }

/-- The dummy request of `TestClientMethods`: `GET origin/test`. -/
def sampleDummyRequest : Request :=
  { Method := "GET",
    URL := { URL.zero with Scheme := utf8 "https", Host := utf8 "api.example.com",
                           Path := utf8 "/test" },
    Header := [], Body := none, Host := utf8 "api.example.com" }

/-! ## The client as state

The methods of yd4b.go have the receiver `c *Client`.  In state passing style
such a method takes the client its receiver points to and returns, next to its
results, the client the receiver points to afterwards.  The setters are the
methods with an assignment to a field of `c`.  The transport is a function of
the request it is handed; it holds no reference to the client. -/

/-- A method with receiver `c *Client`. -/
abbrev ClientMethod (α : Type) := Client → α × Client

/-- `(*Client).SetDoFunc` as a method: `c.doFunc = do`. -/
def Client.SetDoFuncM (f : Request → DoResult) : ClientMethod Unit :=
  fun c => ((), { c with doFunc := f })

/-- `(*Client).SetToken` as a method: `c.token = token`. -/
def Client.SetTokenM (token : String) : ClientMethod Unit :=
  fun c => ((), { c with token := token })

/-- `(*Client).SetECUID` as a method: `c.ecuid = ecuid`. -/
def Client.SetECUIDM (ecuid : String) : ClientMethod Unit :=
  fun c => ((), { c with ecuid := ecuid })

/-- `(*Client).HasToken` as a method: it reads `c.token`. -/
def Client.HasTokenM : ClientMethod Bool :=
  fun c => (c.token ≠ "", c)

/-- `(*Client).do` as a method: it sets headers of `req` from `c.myip` and
`c.token` and calls `c.doFunc`; it assigns no field of `c`. -/
def Client.doM (req : Request) : ClientMethod DoResult :=
  fun c =>
    let (hasToken, c1) := Client.HasTokenM c
    let h1 := req.Header.Set "Content-Type" "application/json"
    let h2 := h1.Set "x-forwarded-for" c1.myip
    let h3 := if hasToken then h2.Set "Authorization" ("Bearer " ++ c1.token) else h2
    (c1.doFunc { req with Header := h3 }, c1)

/-- `(*Client).AddressZip` as a method: the request is built from reads of
`c`, sent through `do`, and the answer handled without touching `c`. -/
def Client.AddressZipM (dec : Decoder AddressResponse) (opts : List addressRequestOption) :
    ClientMethod (Outcome AddressResponse) :=
  fun c =>
    match addressZipRequest c opts with
    | .error err => (.ret AddressResponse.zero err, c)
    | .ok req =>
      let (r, c1) := Client.doM req c
      (addressZipResult dec r, c1)

/-- `(*Client).Searchcode` as a method. -/
def Client.SearchcodeM (dec : Decoder SearchcodeResponse) (code : String)
    (opts : List searchcodeOption) : ClientMethod (Outcome SearchcodeResponse) :=
  fun c =>
    match searchcodeHTTPRequest c code opts with
    | .error err => (.ret SearchcodeResponse.zero err, c)
    | .ok httpReq =>
      let (r, c1) := Client.doM httpReq c
      (searchcodeResult dec r, c1)

/-- `(*Client).GetToken` as a method: the token of the answer is returned in
`res.Token`; there is no assignment to `c.token`. -/
def Client.GetTokenM (dec : Decoder TokenResponse) : ClientMethod (Outcome TokenResponse) :=
  fun c =>
    match getTokenRequest c with
    | .error err => (.ret TokenResponse.zero err, c)
    | .ok req =>
      let (r, c1) := Client.doM req c
      (getTokenResult dec r, c1)

/-! # Theorems -/

/-! ## Strings -/

theorem toList_append (a b : String) : (a ++ b).toList = a.toList ++ b.toList :=
  String.data_append a b

theorem length_eq_toList_length (a : String) : a.length = a.toList.length := rfl

theorem mk_toList (a : String) : String.mk a.toList = a := rfl

theorem stringsTrimPrefix_pos (s pre : String) (h : pre.toList <+: s.toList) :
    stringsTrimPrefix s pre = String.mk (s.toList.drop pre.length) := by
  unfold stringsTrimPrefix
  rw [if_pos (List.isPrefixOf_iff_prefix.mpr h)]

theorem stringsTrimPrefix_neg (s pre : String) (h : ¬ pre.toList <+: s.toList) :
    stringsTrimPrefix s pre = s := by
  unfold stringsTrimPrefix
  rw [if_neg (fun hp => h (List.isPrefixOf_iff_prefix.mp hp))]

theorem stringsTrimPrefix_append (pre rest : String) :
    stringsTrimPrefix (pre ++ rest) pre = rest := by
  rw [stringsTrimPrefix_pos _ _ (by rw [toList_append]; exact List.prefix_append _ _)]
  rw [toList_append, length_eq_toList_length, List.drop_left, mk_toList]

/-- The strip is a fixed point exactly on the strings without the prefix. -/
theorem stringsTrimPrefix_eq_self_iff (s pre : String) (hpre : pre ≠ "") :
    stringsTrimPrefix s pre = s ↔ ¬ pre.toList <+: s.toList := by
  constructor
  · intro h hp
    rw [stringsTrimPrefix_pos s pre hp] at h
    have hlen : (s.toList.drop pre.length).length = s.toList.length := by
      have := congrArg String.toList h
      exact congrArg List.length this
    have h1 : pre.toList.length ≤ s.toList.length := hp.length_le
    have h2 : 0 < pre.toList.length := by
      rcases hd : pre.toList with _ | ⟨a, l⟩
      · exact absurd (by rw [← mk_toList pre, hd]) hpre
      · simp
    rw [List.length_drop, length_eq_toList_length] at hlen
    omega
  · exact stringsTrimPrefix_neg s pre

/-! ## Error values -/

theorem errorsJoin_pair (a b : GoError) :
    errorsJoin [some a, some b] = some (.join [a, b]) := rfl

theorem message_join_pair (a b : GoError) :
    (GoError.join [a, b]).message = a.message ++ "\n" ++ b.message := by
  simp [GoError.message, GoError.joinMessages]

theorem asError_join_api (e : Error) (rest : List GoError) :
    (GoError.join (.api e :: rest)).asError = some e := by
  simp [GoError.asError, GoError.asErrorList]

theorem self_mem_chain (e : GoError) : e ∈ e.chain := by
  cases e <;> simp [GoError.chain]

theorem mem_chain_join_pair (a b : GoError) : b ∈ (GoError.join [a, b]).chain := by
  simp [GoError.chain, GoError.chainList, self_mem_chain]

theorem infix_message_join_left (a b : GoError) :
    a.message.toList <:+: (GoError.join [a, b]).message.toList := by
  rw [message_join_pair, toList_append, toList_append]
  exact ⟨[], "\n".toList ++ b.message.toList, by simp⟩

theorem infix_message_join_right (a b : GoError) :
    b.message.toList <:+: (GoError.join [a, b]).message.toList := by
  rw [message_join_pair, toList_append]
  exact ⟨(a.message ++ "\n").toList, [], by simp⟩

/-! ## Status and transport errors (C1 - C3) -/

/-- C1: when the transport answers the request of AddressZip, Searchcode or
GetToken with a response of status `s ≠ 200` (with any body content), the
operation returns the zero response and exactly the error
`Error{StatusCode: s, Message: "unexpected status code"}`. -/
theorem unexpected_status_code (c : Client) (resp : Response) (body : String)
    (hbody : resp.Body = some body) (hstatus : resp.StatusCode ≠ 200) :
    (∀ (dec : Decoder AddressResponse) (opts : List addressRequestOption) (req : Request),
      addressZipRequest c opts = .ok req → c.do_ req = (some resp, none) →
      c.AddressZip dec opts = .ret AddressResponse.zero
        (some (.api { StatusCode := resp.StatusCode, Message := "unexpected status code" }))) ∧
    (∀ (dec : Decoder SearchcodeResponse) (code : String) (opts : List searchcodeOption)
        (req : Request),
      searchcodeHTTPRequest c code opts = .ok req → c.do_ req = (some resp, none) →
      c.Searchcode dec code opts = .ret SearchcodeResponse.zero
        (some (.api { StatusCode := resp.StatusCode, Message := "unexpected status code" }))) ∧
    (∀ (dec : Decoder TokenResponse) (req : Request),
      getTokenRequest c = .ok req → c.do_ req = (some resp, none) →
      c.GetToken dec = .ret TokenResponse.zero
        (some (.api { StatusCode := resp.StatusCode, Message := "unexpected status code" }))) := by
  refine ⟨?_, ?_, ?_⟩
  · intro dec opts req hreq hdo
    simp [Client.AddressZip, hreq, hdo, addressZipResult, hbody, hstatus, NewError]
  · intro dec code opts req hreq hdo
    simp [Client.Searchcode, hreq, hdo, searchcodeResult, hbody, hstatus, NewError]
  · intro dec req hreq hdo
    simp [Client.GetToken, hreq, hdo, getTokenResult, hbody, hstatus, NewError]

set_option maxRecDepth 100000 in
theorem unexpected_status_code_witness :
    (sampleClient (some { StatusCode := 400, Body := some "err" }, none)).AddressZip
        (failingDecoder _ AddressResponse.zero) [] =
      .ret AddressResponse.zero
        (some (.api { StatusCode := 400, Message := "unexpected status code" })) ∧
    (sampleClient (some { StatusCode := 400, Body := some "err" }, none)).Searchcode
        (failingDecoder _ SearchcodeResponse.zero) "CODE" [] =
      .ret SearchcodeResponse.zero
        (some (.api { StatusCode := 400, Message := "unexpected status code" })) ∧
    (sampleClient (some { StatusCode := 400, Body := some "err" }, none)).GetToken
        (failingDecoder _ TokenResponse.zero) =
      .ret TokenResponse.zero
        (some (.api { StatusCode := 400, Message := "unexpected status code" })) := by
  have h := unexpected_status_code
    (sampleClient (some { StatusCode := 400, Body := some "err" }, none))
    { StatusCode := 400, Body := some "err" } "err" rfl (by decide)
  exact ⟨h.1 _ [] sampleAddressZipRequest (by decide) rfl,
    h.2.1 _ "CODE" [] sampleSearchcodeRequest (by decide) rfl,
    h.2.2 _ sampleTokenRequest (by decide) rfl⟩

theorem wrapsCause_join (msg : String) (cause : GoError) :
    WrapsCause (.join [.api (NewError 500 msg), cause]) msg cause :=
  ⟨infix_message_join_left (.api (NewError 500 msg)) cause,
   asError_join_api _ _,
   mem_chain_join_pair _ _,
   infix_message_join_right _ _⟩

/-- C2: when the transport function fails with `e` on the request of
AddressZip, Searchcode or GetToken, the operation returns the zero response
and the error `errors.Join(NewError(500, "client do error"), e)`: its text
contains "client do error", it carries the `Error` with status 500, and `e`
is in its error tree with its text part of the returned text. -/
theorem client_do_error (c : Client) (r : Option Response) (e : GoError) :
    (∀ (dec : Decoder AddressResponse) (opts : List addressRequestOption) (req : Request),
      addressZipRequest c opts = .ok req → c.do_ req = (r, some e) →
      ∃ err, c.AddressZip dec opts = .ret AddressResponse.zero (some err) ∧
        err = .join [.api (NewError 500 "client do error"), e] ∧
        WrapsCause err "client do error" e) ∧
    (∀ (dec : Decoder SearchcodeResponse) (code : String) (opts : List searchcodeOption)
        (req : Request),
      searchcodeHTTPRequest c code opts = .ok req → c.do_ req = (r, some e) →
      ∃ err, c.Searchcode dec code opts = .ret SearchcodeResponse.zero (some err) ∧
        err = .join [.api (NewError 500 "client do error"), e] ∧
        WrapsCause err "client do error" e) ∧
    (∀ (dec : Decoder TokenResponse) (req : Request),
      getTokenRequest c = .ok req → c.do_ req = (r, some e) →
      ∃ err, c.GetToken dec = .ret TokenResponse.zero (some err) ∧
        err = .join [.api (NewError 500 "client do error"), e] ∧
        WrapsCause err "client do error" e) := by
  refine ⟨?_, ?_, ?_⟩
  · intro dec opts req hreq hdo
    refine ⟨_, ?_, rfl, wrapsCause_join _ _⟩
    simp [Client.AddressZip, hreq, hdo, addressZipResult, errorsJoin_pair]
  · intro dec code opts req hreq hdo
    refine ⟨_, ?_, rfl, wrapsCause_join _ _⟩
    simp [Client.Searchcode, hreq, hdo, searchcodeResult, errorsJoin_pair]
  · intro dec req hreq hdo
    refine ⟨_, ?_, rfl, wrapsCause_join _ _⟩
    simp [Client.GetToken, hreq, hdo, getTokenResult, errorsJoin_pair]

set_option maxRecDepth 100000 in
theorem client_do_error_witness :
    (∃ err, (sampleClient (none, some (.foreign "net fail"))).AddressZip
        (failingDecoder _ AddressResponse.zero) [] = .ret AddressResponse.zero (some err) ∧
      err = .join [.api (NewError 500 "client do error"), .foreign "net fail"] ∧
      WrapsCause err "client do error" (.foreign "net fail")) ∧
    (∃ err, (sampleClient (none, some (.foreign "net fail"))).Searchcode
        (failingDecoder _ SearchcodeResponse.zero) "CODE" [] =
        .ret SearchcodeResponse.zero (some err) ∧
      err = .join [.api (NewError 500 "client do error"), .foreign "net fail"] ∧
      WrapsCause err "client do error" (.foreign "net fail")) ∧
    (∃ err, (sampleClient (none, some (.foreign "net fail"))).GetToken
        (failingDecoder _ TokenResponse.zero) = .ret TokenResponse.zero (some err) ∧
      err = .join [.api (NewError 500 "client do error"), .foreign "net fail"] ∧
      WrapsCause err "client do error" (.foreign "net fail")) :=
  ⟨(client_do_error (sampleClient (none, some (.foreign "net fail"))) none
      (.foreign "net fail")).1 _ [] sampleAddressZipRequest (by decide) rfl,
   (client_do_error (sampleClient (none, some (.foreign "net fail"))) none
      (.foreign "net fail")).2.1 _ "CODE" [] sampleSearchcodeRequest (by decide) rfl,
   (client_do_error (sampleClient (none, some (.foreign "net fail"))) none
      (.foreign "net fail")).2.2 _ sampleTokenRequest (by decide) rfl⟩

/-- C3: when the transport answers the request of AddressZip, Searchcode or
GetToken with status 200 and a body on which the JSON decoder fails with
`derr`, the operation returns the error
`errors.Join(NewError(500, "json decoding error"), derr)`: its text contains
"json decoding error", it carries the `Error` with status 500, and it wraps
the decoder's error. -/
theorem json_decoding_error (c : Client) (resp : Response) (body : String) (derr : GoError)
    (hstatus : resp.StatusCode = 200) (hbody : resp.Body = some body) :
    (∀ (dec : Decoder AddressResponse) (opts : List addressRequestOption) (req : Request)
        (res : AddressResponse),
      addressZipRequest c opts = .ok req → c.do_ req = (some resp, none) →
      dec.decode body = (res, some derr) →
      ∃ err, c.AddressZip dec opts = .ret res (some err) ∧
        err = .join [.api (NewError 500 "json decoding error"), derr] ∧
        WrapsCause err "json decoding error" derr) ∧
    (∀ (dec : Decoder SearchcodeResponse) (code : String) (opts : List searchcodeOption)
        (req : Request) (res : SearchcodeResponse),
      searchcodeHTTPRequest c code opts = .ok req → c.do_ req = (some resp, none) →
      dec.decode body = (res, some derr) →
      ∃ err, c.Searchcode dec code opts = .ret res (some err) ∧
        err = .join [.api (NewError 500 "json decoding error"), derr] ∧
        WrapsCause err "json decoding error" derr) ∧
    (∀ (dec : Decoder TokenResponse) (req : Request) (res : TokenResponse),
      getTokenRequest c = .ok req → c.do_ req = (some resp, none) →
      dec.decode body = (res, some derr) →
      ∃ err, c.GetToken dec = .ret res (some err) ∧
        err = .join [.api (NewError 500 "json decoding error"), derr] ∧
        WrapsCause err "json decoding error" derr) := by
  refine ⟨?_, ?_, ?_⟩
  · intro dec opts req res hreq hdo hdec
    refine ⟨_, ?_, rfl, wrapsCause_join _ _⟩
    simp [Client.AddressZip, hreq, hdo, addressZipResult, hbody, hstatus, hdec, errorsJoin_pair]
  · intro dec code opts req res hreq hdo hdec
    refine ⟨_, ?_, rfl, wrapsCause_join _ _⟩
    simp [Client.Searchcode, hreq, hdo, searchcodeResult, hbody, hstatus, hdec, errorsJoin_pair]
  · intro dec req res hreq hdo hdec
    refine ⟨_, ?_, rfl, wrapsCause_join _ _⟩
    simp [Client.GetToken, hreq, hdo, getTokenResult, hbody, hstatus, hdec, errorsJoin_pair]

set_option maxRecDepth 100000 in
theorem json_decoding_error_witness :
    (∃ err, (sampleClient (some { StatusCode := 200, Body := some sampleBadBody }, none)).AddressZip
        (failingDecoder _ AddressResponse.zero) [] = .ret AddressResponse.zero (some err) ∧
      err = .join [.api (NewError 500 "json decoding error"),
        .foreign "invalid character"] ∧
      WrapsCause err "json decoding error"
        (.foreign "invalid character")) ∧
    (∃ err, (sampleClient (some { StatusCode := 200, Body := some sampleBadBody }, none)).Searchcode
        (failingDecoder _ SearchcodeResponse.zero) "CODE" [] =
        .ret SearchcodeResponse.zero (some err) ∧
      err = .join [.api (NewError 500 "json decoding error"),
        .foreign "invalid character"] ∧
      WrapsCause err "json decoding error"
        (.foreign "invalid character")) ∧
    (∃ err, (sampleClient (some { StatusCode := 200, Body := some sampleBadBody }, none)).GetToken
        (failingDecoder _ TokenResponse.zero) = .ret TokenResponse.zero (some err) ∧
      err = .join [.api (NewError 500 "json decoding error"),
        .foreign "invalid character"] ∧
      WrapsCause err "json decoding error"
        (.foreign "invalid character")) :=
  ⟨(json_decoding_error (sampleClient (some { StatusCode := 200, Body := some sampleBadBody }, none))
      { StatusCode := 200, Body := some sampleBadBody } sampleBadBody _ rfl rfl).1
      (failingDecoder _ AddressResponse.zero) [] sampleAddressZipRequest _ (by decide) rfl rfl,
   (json_decoding_error (sampleClient (some { StatusCode := 200, Body := some sampleBadBody }, none))
      { StatusCode := 200, Body := some sampleBadBody } sampleBadBody _ rfl rfl).2.1
      (failingDecoder _ SearchcodeResponse.zero) "CODE" [] sampleSearchcodeRequest _
      (by decide) rfl rfl,
   (json_decoding_error (sampleClient (some { StatusCode := 200, Body := some sampleBadBody }, none))
      { StatusCode := 200, Body := some sampleBadBody } sampleBadBody _ rfl rfl).2.2
      (failingDecoder _ TokenResponse.zero) sampleTokenRequest _ (by decide) rfl rfl⟩

/-! ## GetToken (C4, C5) -/

/-- C4: when the transport answers GetToken's request with status 200 and the
body decodes (without error) to `v`, GetToken returns no error and a response
with `v`'s Scope, TokenType and ExpiresIn whose Token is `v.Token` without the
leading "Token: " when `v.Token` starts with it, and `v.Token` otherwise. -/
theorem getToken_success (c : Client) (dec : Decoder TokenResponse) (req : Request)
    (resp : Response) (body : String) (v : TokenResponse)
    (hreq : getTokenRequest c = .ok req) (hdo : c.do_ req = (some resp, none))
    (hstatus : resp.StatusCode = 200) (hbody : resp.Body = some body)
    (hdec : dec.decode body = (v, none)) :
    ∃ res, c.GetToken dec = .ret res none ∧
      res.Scope = v.Scope ∧ res.TokenType = v.TokenType ∧ res.ExpiresIn = v.ExpiresIn ∧
      (∀ rest, v.Token = "Token: " ++ rest → res.Token = rest) ∧
      (¬ "Token: ".toList <+: v.Token.toList → res.Token = v.Token) := by
  refine ⟨{ v with Token := stringsTrimPrefix v.Token "Token: " }, ?_, rfl, rfl, rfl, ?_, ?_⟩
  · simp [Client.GetToken, hreq, hdo, getTokenResult, hbody, hstatus, hdec]
  · intro rest hrest
    show stringsTrimPrefix v.Token "Token: " = rest
    rw [hrest, stringsTrimPrefix_append]
  · intro hnot
    exact stringsTrimPrefix_neg _ _ hnot

set_option maxRecDepth 100000 in
theorem getToken_success_witness :
    (∃ res, (sampleClient (some { StatusCode := 200, Body := some sampleTokenBody }, none)).GetToken
        (constDecoder _ { Scope := "J1", TokenType := "Bearer", ExpiresIn := 3600,
                          Token := "Token: abc123" }) = .ret res none ∧
      res.Scope = "J1" ∧ res.TokenType = "Bearer" ∧ res.ExpiresIn = 3600 ∧
      res.Token = "abc123") ∧
    (∃ res, (sampleClient (some { StatusCode := 200, Body := some sampleTokenBody }, none)).GetToken
        (constDecoder _ { Scope := "J1", TokenType := "Bearer", ExpiresIn := 3600,
                          Token := "abc123" }) = .ret res none ∧
      res.Token = "abc123") := by
  constructor
  · obtain ⟨res, h1, h2, h3, h4, h5, _⟩ :=
      getToken_success (sampleClient (some { StatusCode := 200, Body := some sampleTokenBody }, none))
        (constDecoder _ { Scope := "J1", TokenType := "Bearer", ExpiresIn := 3600,
                          Token := "Token: abc123" })
        sampleTokenRequest { StatusCode := 200, Body := some sampleTokenBody } sampleTokenBody _
        (by decide) rfl rfl rfl rfl
    exact ⟨res, h1, h2, h3, h4, h5 "abc123" (by decide)⟩
  · obtain ⟨res, h1, _, _, _, _, h6⟩ :=
      getToken_success (sampleClient (some { StatusCode := 200, Body := some sampleTokenBody }, none))
        (constDecoder _ { Scope := "J1", TokenType := "Bearer", ExpiresIn := 3600,
                          Token := "abc123" })
        sampleTokenRequest { StatusCode := 200, Body := some sampleTokenBody } sampleTokenBody _
        (by decide) rfl rfl rfl rfl
    exact ⟨res, h1, h6 (by decide)⟩

/-- C5 as stated fails: stripping "Token: Token: abc" gives "Token: abc", and
stripping that again gives "abc". -/
theorem trimTokenPrefix_not_idempotent :
    stringsTrimPrefix (stringsTrimPrefix "Token: Token: abc" "Token: ") "Token: " ≠
      stringsTrimPrefix "Token: Token: abc" "Token: " := by
  decide

/-- C5, amended: re-applying the strip changes nothing exactly when the
stripped token does not itself start with "Token: "; the strip removes one
copy of the prefix, not all of them. -/
theorem trimTokenPrefix_idempotent_iff (t : String) :
    stringsTrimPrefix (stringsTrimPrefix t "Token: ") "Token: " = stringsTrimPrefix t "Token: " ↔
      ¬ "Token: ".toList <+: (stringsTrimPrefix t "Token: ").toList :=
  stringsTrimPrefix_eq_self_iff (stringsTrimPrefix t "Token: ") "Token: " (by decide)

/-! ## Options (C6, C7) -/

theorem newAddressRequest_append (opts : List addressRequestOption) (o : addressRequestOption) :
    newAddressRequest (opts ++ [o]) = o (newAddressRequest opts) := by
  simp [newAddressRequest, List.foldl_append]

theorem newSearchcodeRequest_append (code : String) (opts : List searchcodeOption)
    (o : searchcodeOption) :
    newSearchcodeRequest code (opts ++ [o]) = o (newSearchcodeRequest code opts) := by
  simp [newSearchcodeRequest, List.foldl_append]

theorem lastAddressValue_append (opts : List AddressOpt) (o : AddressOpt) (f : AddressField) :
    lastAddressValue (opts ++ [o]) f =
      if o.field = f then some o.value else lastAddressValue opts f := by
  unfold lastAddressValue
  by_cases h : o.field = f
  · simp [List.filter_append, h, List.getLast?_append]
  · simp [List.filter_append, h]

theorem lastSearchcodeValue_append (opts : List SearchcodeOpt) (o : SearchcodeOpt)
    (f : SearchcodeField) :
    lastSearchcodeValue (opts ++ [o]) f =
      if o.field = f then some o.value else lastSearchcodeValue opts f := by
  unfold lastSearchcodeValue
  by_cases h : o.field = f
  · simp [List.filter_append, h, List.getLast?_append]
  · simp [List.filter_append, h]

/-- C6: for every sequence of options given to `newAddressRequest`, each of
the sixteen fields of the result holds the value of the last option in the
sequence that targets the field, and the zero value (empty string or 0) when
no option targets it; the empty sequence gives the all-zero request. -/
theorem newAddressRequest_last_wins (opts : List AddressOpt) :
    (∀ f : AddressField,
      (newAddressRequest (opts.map AddressOpt.toOption)).get f =
        (lastAddressValue opts f).getD f.zero) ∧
    newAddressRequest [] = addressRequest.zero := by
  refine ⟨?_, rfl⟩
  induction opts using List.reverseRecOn with
  | nil => intro f; cases f <;> rfl
  | append_singleton opts o ih =>
    intro f
    rw [List.map_append, List.map_singleton, newAddressRequest_append,
      lastAddressValue_append]
    by_cases h : o.field = f
    · rw [if_pos h]
      subst h
      cases o <;> rfl
    · rw [if_neg h, ← ih f]
      cases o <;> cases f <;> first | rfl | exact absurd rfl h

/-- C7: `newSearchcodeRequest(code, opts)` has `SearchCode = code` whatever the
options are, and each of Page, Limit, Choikitype and Searchtype holds the value
of the last option targeting it, or 0 when none does. -/
theorem newSearchcodeRequest_last_wins (code : String) (opts : List SearchcodeOpt) :
    (newSearchcodeRequest code (opts.map SearchcodeOpt.toOption)).SearchCode = code ∧
    ∀ f : SearchcodeField,
      (newSearchcodeRequest code (opts.map SearchcodeOpt.toOption)).get f =
        (lastSearchcodeValue opts f).getD 0 := by
  induction opts using List.reverseRecOn with
  | nil => exact ⟨rfl, fun f => by cases f <;> rfl⟩
  | append_singleton opts o ih =>
    rw [List.map_append, List.map_singleton, newSearchcodeRequest_append]
    refine ⟨?_, ?_⟩
    · refine Eq.trans ?_ ih.1
      cases o <;> rfl
    · intro f
      rw [lastSearchcodeValue_append]
      by_cases h : o.field = f
      · rw [if_pos h]
        subst h
        cases o <;> rfl
      · rw [if_neg h, ← ih.2 f]
        cases o <;> cases f <;> first | rfl | exact absurd rfl h

/-! ## Request bodies (C8) -/

theorem httpNewRequest_ok {method : String} {url : Bytes} {body : Option JSONObject}
    {req : Request} (hne : method ≠ "") (hvalid : validMethod method = true)
    (h : httpNewRequest method url body = .ok req) :
    ∃ u, urlParse url = .ok u ∧
      req = { Method := method, URL := { u with Host := removeEmptyPort u.Host }, Header := [],
              Body := body, Host := removeEmptyPort u.Host } := by
  unfold httpNewRequest at h
  simp only [if_neg hne, hvalid, not_true_eq_false, if_false] at h
  cases hp : urlParse url with
  | error e => rw [hp] at h; cases h
  | ok u =>
    rw [hp] at h
    refine ⟨u, rfl, ?_⟩
    injection h with h
    exact h.symm

theorem addressZipRequest_ok {c : Client} {opts : List addressRequestOption} {req : Request}
    (h : addressZipRequest c opts = .ok req) :
    ∃ endpoint u0 body,
      urlJoinPath (utf8 c.origin) [utf8 "api", utf8 c.version, utf8 "addresszip"] = .ok endpoint ∧
      urlParse endpoint = .ok u0 ∧
      (newAddressRequest opts).marshal = .ok body ∧
      httpNewRequest "POST"
        (if c.ecuid ≠ "" then
          { u0 with RawQuery := (u0.Query.Set (utf8 "ec_uid") (utf8 c.ecuid)).Encode }
         else u0).String (some body) = .ok req := by
  unfold addressZipRequest at h
  cases hj : urlJoinPath (utf8 c.origin) [utf8 "api", utf8 c.version, utf8 "addresszip"] with
  | error e => rw [hj] at h; cases h
  | ok endpoint =>
    rw [hj] at h
    cases hp : urlParse endpoint with
    | error e => simp only [hp] at h; cases h
    | ok u0 =>
      simp only [hp] at h
      cases hm : (newAddressRequest opts).marshal with
      | error e => simp only [hm] at h; cases h
      | ok body =>
        simp only [hm] at h
        refine ⟨endpoint, u0, body, rfl, hp, rfl, ?_⟩
        generalize httpNewRequest "POST"
          (if c.ecuid ≠ "" then
            { u0 with RawQuery := (u0.Query.Set (utf8 "ec_uid") (utf8 c.ecuid)).Encode }
           else u0).String (some body) = r at h ⊢
        cases r with
        | error e => cases h
        | ok q => exact congrArg Except.ok (Except.ok.inj h)

theorem lookup_omitemptyString (k key s : String) (rest : JSONObject) :
    List.lookup k (omitemptyString key s ++ rest) =
      if s ≠ "" ∧ k = key then some (.str s) else List.lookup k rest := by
  unfold omitemptyString
  by_cases hs : s = ""
  · simp [hs]
  · by_cases hk : k = key
    · simp [hs, hk, List.lookup]
    · have : (k == key) = false := by simpa using hk
      simp [hs, hk, List.lookup, this]

theorem lookup_omitemptyInt (k key : String) (n : Int) (rest : JSONObject) :
    List.lookup k (omitemptyInt key n ++ rest) =
      if n ≠ 0 ∧ k = key then some (.num n) else List.lookup k rest := by
  unfold omitemptyInt
  by_cases hs : n = 0
  · simp [hs]
  · by_cases hk : k = key
    · simp [hs, hk, List.lookup]
    · have : (k == key) = false := by simpa using hk
      simp [hs, hk, List.lookup, this]

/-- The members `json.Marshal` writes for an `addressRequest`. -/
theorem marshal_lookup (r : addressRequest) (f : AddressField) :
    ∃ body, r.marshal = .ok body ∧
      body.lookup f.key = if r.get f = f.zero then none else some (r.get f) := by
  refine ⟨_, rfl, ?_⟩
  have hnil : ∀ k : String, List.lookup k (omitemptyInt "limit" r.Limit) =
      if r.Limit ≠ 0 ∧ k = "limit" then some (.num r.Limit) else none := by
    intro k
    have := lookup_omitemptyInt k "limit" r.Limit []
    simpa using this
  cases f <;>
    simp [List.append_assoc, lookup_omitemptyString, lookup_omitemptyInt, hnil,
      AddressField.key, addressRequest.get, AddressField.zero]

theorem mem_omitemptyString (k : String) (v : JSONValue) (key s : String) :
    (k, v) ∈ omitemptyString key s ↔ s ≠ "" ∧ k = key ∧ v = .str s := by
  unfold omitemptyString
  by_cases hs : s = "" <;> simp [hs]

theorem mem_omitemptyInt (k : String) (v : JSONValue) (key : String) (n : Int) :
    (k, v) ∈ omitemptyInt key n ↔ n ≠ 0 ∧ k = key ∧ v = .num n := by
  unfold omitemptyInt
  by_cases hs : n = 0 <;> simp [hs]

/-- Every member `json.Marshal` writes for an `addressRequest` is a field with
a non-zero value, under the field's key. -/
theorem marshal_members (r : addressRequest) (k : String) (v : JSONValue) :
    ∃ body, r.marshal = .ok body ∧
      ((k, v) ∈ body → ∃ f : AddressField, k = f.key ∧ v = r.get f ∧ v ≠ f.zero) := by
  refine ⟨_, rfl, ?_⟩
  intro hmem
  simp only [List.mem_append, mem_omitemptyString, mem_omitemptyInt, or_assoc] at hmem
  rcases hmem with h | h | h | h | h | h | h | h | h | h | h | h | h | h | h | h
  · exact ⟨.PrefCode, h.2.1, h.2.2, by rw [h.2.2]; simpa [AddressField.zero] using h.1⟩
  · exact ⟨.PrefName, h.2.1, h.2.2, by rw [h.2.2]; simpa [AddressField.zero] using h.1⟩
  · exact ⟨.PrefKana, h.2.1, h.2.2, by rw [h.2.2]; simpa [AddressField.zero] using h.1⟩
  · exact ⟨.PrefRoma, h.2.1, h.2.2, by rw [h.2.2]; simpa [AddressField.zero] using h.1⟩
  · exact ⟨.CityCode, h.2.1, h.2.2, by rw [h.2.2]; simpa [AddressField.zero] using h.1⟩
  · exact ⟨.CityName, h.2.1, h.2.2, by rw [h.2.2]; simpa [AddressField.zero] using h.1⟩
  · exact ⟨.CityKana, h.2.1, h.2.2, by rw [h.2.2]; simpa [AddressField.zero] using h.1⟩
  · exact ⟨.CityRoma, h.2.1, h.2.2, by rw [h.2.2]; simpa [AddressField.zero] using h.1⟩
  · exact ⟨.TownName, h.2.1, h.2.2, by rw [h.2.2]; simpa [AddressField.zero] using h.1⟩
  · exact ⟨.TownKana, h.2.1, h.2.2, by rw [h.2.2]; simpa [AddressField.zero] using h.1⟩
  · exact ⟨.TownRoma, h.2.1, h.2.2, by rw [h.2.2]; simpa [AddressField.zero] using h.1⟩
  · exact ⟨.Freeword, h.2.1, h.2.2, by rw [h.2.2]; simpa [AddressField.zero] using h.1⟩
  · exact ⟨.FlgGetCity, h.2.1, h.2.2, by rw [h.2.2]; simpa [AddressField.zero] using h.1⟩
  · exact ⟨.FlgGetPref, h.2.1, h.2.2, by rw [h.2.2]; simpa [AddressField.zero] using h.1⟩
  · exact ⟨.Page, h.2.1, h.2.2, by rw [h.2.2]; simpa [AddressField.zero] using h.1⟩
  · exact ⟨.Limit, h.2.1, h.2.2, by rw [h.2.2]; simpa [AddressField.zero] using h.1⟩

/-- C8: the JSON body of the request that AddressZip hands to the transport
has a member under a field's key exactly when the built request holds a
non-zero value in that field (non-empty string, non-zero integer), and then
with that value; it has no other member; with no options it is the empty
object. -/
theorem addressZip_body (c : Client) (opts : List addressRequestOption) (req : Request)
    (h : addressZipRequest c opts = .ok req) :
    ∃ body, (c.decorate req).Body = some body ∧
      (∀ f : AddressField,
        body.lookup f.key =
          if (newAddressRequest opts).get f = f.zero then none
          else some ((newAddressRequest opts).get f)) ∧
      (∀ k v, (k, v) ∈ body →
        ∃ f : AddressField, k = f.key ∧ v = (newAddressRequest opts).get f ∧ v ≠ f.zero) ∧
      (opts = [] → body = []) := by
  obtain ⟨endpoint, u0, body, _, _, hm, hreq⟩ := addressZipRequest_ok h
  obtain ⟨u, _, hr⟩ := httpNewRequest_ok (by decide) (by decide) hreq
  refine ⟨body, ?_, ?_, ?_, ?_⟩
  · rw [hr]; rfl
  · intro f
    obtain ⟨b, hb, hl⟩ := marshal_lookup (newAddressRequest opts) f
    rw [hm] at hb
    rw [Except.ok.inj hb]
    exact hl
  · intro k v hkv
    obtain ⟨b, hb, hl⟩ := marshal_members (newAddressRequest opts) k v
    rw [hm] at hb
    rw [← Except.ok.inj hb] at hl
    exact hl hkv
  · intro hopts
    subst hopts
    have : (newAddressRequest []).marshal = .ok [] := by decide
    rw [hm] at this
    exact Except.ok.inj this

set_option maxRecDepth 100000 in
theorem addressZip_body_witness :
    ∃ body,
      ((sampleClient (none, none)).decorate
        { sampleAddressZipRequest with
          Body := some [("pref_code", .str "13"), ("limit", .num 20)] }).Body = some body ∧
      body.lookup "pref_code" = some (.str "13") ∧ body.lookup "page" = none ∧
      body.lookup "limit" = some (.num 20) := by
  obtain ⟨body, h1, h2, _, _⟩ := addressZip_body (sampleClient (none, none))
    [WithPrefCode "13", WithAZPage 0, WithAZLimit 20]
    { sampleAddressZipRequest with Body := some [("pref_code", .str "13"), ("limit", .num 20)] }
    (by decide)
  exact ⟨body, h1, h2 .PrefCode, h2 .Page, h2 .Limit⟩

/-! ## Byte strings -/

theorem stringsCut_not_mem (sep : Nat) (s : Bytes) (h : sep ∉ s) :
    stringsCut sep s = (s, [], false) := by
  induction s with
  | nil => rfl
  | cons c rest ih =>
    have hc : c ≠ sep := fun e => h (by simp [e])
    have hr : sep ∉ rest := fun e => h (by simp [e])
    simp [stringsCut, hc, ih hr]

theorem stringsCut_append (sep : Nat) (a b : Bytes) (h : sep ∉ a) :
    stringsCut sep (a ++ sep :: b) = (a, b, true) := by
  induction a with
  | nil => simp [stringsCut]
  | cons c rest ih =>
    have hc : c ≠ sep := fun e => h (by simp [e])
    have hr : sep ∉ rest := fun e => h (by simp [e])
    simp [stringsCut, hc, ih hr]

theorem cutLast_not_mem (sep : Nat) (s : Bytes) (h : sep ∉ s) : cutLast sep s = none := by
  induction s with
  | nil => rfl
  | cons c rest ih =>
    have hc : c ≠ sep := fun e => h (by simp [e])
    have hr : sep ∉ rest := fun e => h (by simp [e])
    simp [cutLast, hc, ih hr]

theorem utf8EncodeChar_lt (c : Char) : ∀ b ∈ utf8EncodeChar c, b < 256 := by
  have hc : c.toNat < 1114112 := by
    have := c.valid
    rcases this with h | h
    · have : c.toNat < 55296 := h
      omega
    · have : c.toNat < 1114112 := h.2
      exact this
  intro b hb
  unfold utf8EncodeChar at hb
  simp only at hb
  split at hb
  · simp at hb; omega
  · split at hb
    · simp at hb; omega
    · split at hb
      · simp at hb; omega
      · simp at hb; omega

theorem utf8_lt (s : String) : ∀ b ∈ utf8 s, b < 256 := by
  intro b hb
  unfold utf8 at hb
  rw [List.mem_flatMap] at hb
  obtain ⟨c, _, hc⟩ := hb
  exact utf8EncodeChar_lt c b hc

theorem utf8_append (a b : String) : utf8 (a ++ b) = utf8 a ++ utf8 b := by
  unfold utf8
  rw [toList_append, List.flatMap_append]

theorem utf8_eq_nil_iff (s : String) : utf8 s = [] ↔ s = "" := by
  constructor
  · intro h
    rcases hs : s.toList with _ | ⟨c, l⟩
    · rw [← mk_toList s, hs]
    · unfold utf8 at h
      rw [hs] at h
      have : utf8EncodeChar c ≠ [] := by
        unfold utf8EncodeChar
        simp only
        split
        · simp
        · split
          · simp
          · split <;> simp
      simp [List.flatMap_cons] at h
      exact absurd h.1 this
  · intro h; rw [h]; rfl

/-! ## Escaping -/

theorem upperhex_alnum (n : Nat) (h : n < 16) : isAlnum (upperhex n) = true := by
  unfold upperhex isAlnum
  split <;> simp <;> omega

theorem unhex_upperhex (n : Nat) (h : n < 16) : unhex (upperhex n) = n := by
  unfold upperhex unhex
  split
  · rw [if_pos (by omega)]; omega
  · rw [if_neg (by omega), if_neg (by omega), if_pos (by omega)]; omega

theorem ishex_upperhex (n : Nat) (h : n < 16) : ishex (upperhex n) = true := by
  unfold upperhex ishex
  split <;> simp <;> omega

theorem unescape_cons_of_ne (mode : Encoding) (c : Nat) (rest : Bytes) (hc : c ≠ 37) :
    unescape mode (c :: rest) =
      if (mode = .encodeHost ∨ mode = .encodeZone) ∧ c < 128 ∧ shouldEscape c .encodeHost then
        .error (invalidHostErrorText [c])
      else
        match unescape mode rest with
        | .ok t => .ok ((if c = 43 ∧ mode = .encodeQueryComponent then 32 else c) :: t)
        | .error e => .error e := by
  rw [unescape.eq_def]
  split
  · rename_i heq; cases heq
  · rename_i heq
    injection heq with h1 h2
    exact absurd h1 hc
  · rename_i c2 rest2 _ heq
    injection heq with h1 h2
    subst h1 h2
    rw [if_neg hc] <;> exact if_congr Iff.rfl rfl rfl

theorem escape_cons (mode : Encoding) (c : Nat) (rest : Bytes) :
    escape mode (c :: rest) =
      if c = 32 ∧ mode = .encodeQueryComponent then 43 :: escape mode rest
      else if shouldEscape c mode then
        37 :: upperhex (c / 16) :: upperhex (c % 16) :: escape mode rest
      else c :: escape mode rest := by
  rw [escape]

theorem unescape_percent (mode : Encoding) (a b : Nat) (rest : Bytes) :
    unescape mode (37 :: a :: b :: rest) =
      if ¬ (ishex a ∧ ishex b) then .error (escapeErrorText [37, a, b])
      else if mode = .encodeHost ∧ unhex a < 8 ∧ ¬ (a = 50 ∧ b = 53) then
        .error (escapeErrorText [37, a, b])
      else if mode = .encodeZone ∧ ¬ (a = 50 ∧ b = 53) ∧ unhex a * 16 + unhex b ≠ 32
          ∧ shouldEscape (unhex a * 16 + unhex b) .encodeHost then
        .error (escapeErrorText [37, a, b])
      else
        match unescape mode rest with
        | .ok t => .ok ((unhex a * 16 + unhex b) :: t)
        | .error e => .error e := by
  rw [unescape] <;> congr

theorem shouldEscape_path_of_not_safe (c : Nat) (h : safeByte c = false) :
    shouldEscape c .encodePath = true := by
  have hc : c < 32 ∨ c = 127 ∨ c = 35 ∨ c = 63 := by
    simp [safeByte] at h
    omega
  rcases hc with h | h | h | h
  · interval_cases c <;> rfl
  · subst h; rfl
  · subst h; rfl
  · subst h; rfl

theorem safeByte_upperhex (n : Nat) (h : n < 16) : safeByte (upperhex n) = true := by
  unfold upperhex safeByte
  split <;> simp <;> omega

theorem validEncoded_path_safe (s : Bytes) (h : validEncoded s .encodePath = true) :
    ∀ b ∈ s, safeByte b = true := by
  intro b hb
  unfold validEncoded at h
  rw [List.all_eq_true] at h
  have := h b hb
  by_contra hs
  have hse := shouldEscape_path_of_not_safe b (by simpa using hs)
  have hc : b < 32 ∨ b = 127 ∨ b = 35 ∨ b = 63 := by
    simp [safeByte] at hs
    omega
  simp [hse] at this
  omega

theorem escape_of_not_shouldEscape (mode : Encoding) (s : Bytes)
    (h : ∀ b ∈ s, shouldEscape b mode = false) : escape mode s = s := by
  induction s with
  | nil => rfl
  | cons c rest ih =>
    have hc : shouldEscape c mode = false := h c (by simp)
    have hrest : ∀ b ∈ rest, shouldEscape b mode = false := fun b hb => h b (by simp [hb])
    rw [escape_cons, ih hrest]
    have h32 : ¬ (c = 32 ∧ mode = .encodeQueryComponent) := by
      rintro ⟨h1, h2⟩
      subst h1 h2
      cases hc
    rw [if_neg h32, hc]
    simp

theorem not_mem_of_cutLast_none (sep : Nat) (l : Bytes) (h : cutLast sep l = none) :
    sep ∉ l := by
  induction l with
  | nil => simp
  | cons d l ih =>
    rw [cutLast] at h
    cases hl : cutLast sep l with
    | some r => rw [hl] at h; cases h
    | none =>
      rw [hl] at h
      simp only at h
      split at h
      · cases h
      · rename_i hd
        simp only [List.mem_cons, not_or]
        exact ⟨fun e => hd e.symm, ih hl⟩

theorem cutLast_rebuild (sep : Nat) (h a b : Bytes) (hc : cutLast sep h = some (a, b)) :
    h = a ++ sep :: b ∧ sep ∉ b := by
  induction h generalizing a b with
  | nil => cases hc
  | cons c rest ih =>
    rw [cutLast] at hc
    cases hr : cutLast sep rest with
    | some r =>
      obtain ⟨a2, b2⟩ := r
      rw [hr] at hc
      simp only [Option.some.injEq, Prod.mk.injEq] at hc
      obtain ⟨h1, h2⟩ := hc
      subst h1 h2
      obtain ⟨h3, h4⟩ := ih a2 b2 hr
      exact ⟨by rw [h3]; simp, h4⟩
    | none =>
      rw [hr] at hc
      simp only at hc
      split at hc
      · rename_i hcs
        simp only [Option.some.injEq, Prod.mk.injEq] at hc
        obtain ⟨h1, h2⟩ := hc
        subst h1 h2 hcs
        exact ⟨by simp, not_mem_of_cutLast_none _ _ hr⟩
      · cases hc

theorem isAlnum_bounds (b : Nat) (h : isAlnum b = true) :
    (97 ≤ b ∧ b ≤ 122) ∨ (65 ≤ b ∧ b ≤ 90) ∨ (48 ≤ b ∧ b ≤ 57) := by
  have : (97 ≤ b ∧ b ≤ 122 ∨ 65 ≤ b ∧ b ≤ 90) ∨ 48 ≤ b ∧ b ≤ 57 := by simpa [isAlnum] using h
  omega

theorem not_suffix_question (r q : Bytes) (hq : q ≠ []) (h63 : 63 ∉ q) :
    ([63] : Bytes).isSuffixOf (r ++ 63 :: q) = false := by
  rw [Bool.eq_false_iff]
  intro h
  rw [List.isSuffixOf_iff_suffix] at h
  obtain ⟨t, ht⟩ := h
  have hrev := congrArg List.reverse ht
  simp only [List.reverse_append, List.reverse_cons, List.reverse_nil, List.nil_append,
    List.singleton_append, List.append_assoc] at hrev
  rcases hqr : q.reverse with _ | ⟨c, l⟩
  · exact hq (List.reverse_eq_nil_iff.mp hqr)
  · rw [hqr] at hrev
    have hc : 63 = c := by
      simp only [List.cons_append] at hrev
      exact (List.cons.inj hrev).1
    have : c ∈ q.reverse := by rw [hqr]; simp
    rw [List.mem_reverse] at this
    exact h63 (hc ▸ this)

theorem safeByte_iff (b : Nat) :
    safeByte b = true ↔ 32 ≤ b ∧ b ≠ 127 ∧ b ≠ 35 ∧ b ≠ 63 := by
  simp [safeByte, and_assoc]

theorem shouldEscape_query_of_not_safe (c : Nat) (h : safeByte c = false) :
    shouldEscape c .encodeQueryComponent = true := by
  have hc : c < 32 ∨ c = 127 ∨ c = 35 ∨ c = 63 := by
    simp [safeByte] at h
    omega
  rcases hc with h | h | h | h
  · interval_cases c <;> rfl
  · subst h; rfl
  · subst h; rfl
  · subst h; rfl

theorem queryEscape_safe (s : Bytes) (h : ∀ b ∈ s, b < 256) :
    ∀ b ∈ QueryEscape s, safeByte b = true := by
  unfold QueryEscape
  induction s with
  | nil => intro b hb; simp [escape] at hb
  | cons c rest ih =>
    have hc : c < 256 := h c (by simp)
    have hrest : ∀ b ∈ rest, b < 256 := fun b hb => h b (by simp [hb])
    intro b hb
    rw [escape_cons] at hb
    by_cases h32 : c = 32 ∧ Encoding.encodeQueryComponent = Encoding.encodeQueryComponent
    · rw [if_pos h32] at hb
      simp only [List.mem_cons] at hb
      rcases hb with hb | hb
      · subst hb; rfl
      · exact ih hrest b hb
    · rw [if_neg h32] at hb
      by_cases hse : shouldEscape c .encodeQueryComponent = true
      · rw [if_pos hse] at hb
        simp only [List.mem_cons] at hb
        rcases hb with hb | hb | hb | hb
        · subst hb; rfl
        · subst hb; exact safeByte_upperhex _ (by omega)
        · subst hb; exact safeByte_upperhex _ (by omega)
        · exact ih hrest b hb
      · rw [if_neg hse] at hb
        simp only [List.mem_cons] at hb
        rcases hb with hb | hb
        · subst hb
          by_contra hs
          exact hse (shouldEscape_query_of_not_safe _ (by simpa using hs))
        · exact ih hrest b hb

theorem digitChar_toNat (k : Nat) (h : k < 10) :
    48 ≤ (Nat.digitChar k).toNat ∧ (Nat.digitChar k).toNat ≤ 57 := by
  interval_cases k <;> decide

theorem toDigitsCore_digits (fuel n : Nat) (ds : List Char)
    (hds : ∀ c ∈ ds, 48 ≤ c.toNat ∧ c.toNat ≤ 57) :
    ∀ c ∈ Nat.toDigitsCore 10 fuel n ds, 48 ≤ c.toNat ∧ c.toNat ≤ 57 := by
  induction fuel generalizing n ds with
  | zero => simpa [Nat.toDigitsCore] using hds
  | succ fuel ih =>
    have hd := digitChar_toNat (n % 10) (Nat.mod_lt _ (by omega))
    have hds' : ∀ c ∈ Nat.digitChar (n % 10) :: ds, 48 ≤ c.toNat ∧ c.toNat ≤ 57 := by
      intro c hc
      simp only [List.mem_cons] at hc
      rcases hc with hc | hc
      · rw [hc]; exact hd
      · exact hds c hc
    unfold Nat.toDigitsCore
    simp only
    split
    · exact hds'
    · exact ih _ _ hds'

theorem repr_digits (m : Nat) : ∀ c ∈ (Nat.repr m).toList, 48 ≤ c.toNat ∧ c.toNat ≤ 57 := by
  have : (Nat.repr m).toList = Nat.toDigits 10 m := rfl
  rw [this]
  exact toDigitsCore_digits _ _ [] (by simp)

theorem utf8_digits (s : String) (h : ∀ c ∈ s.toList, 48 ≤ c.toNat ∧ c.toNat ≤ 57) :
    ∀ b ∈ utf8 s, 48 ≤ b ∧ b ≤ 57 := by
  intro b hb
  unfold utf8 at hb
  rw [List.mem_flatMap] at hb
  obtain ⟨c, hc, hbc⟩ := hb
  have := h c hc
  unfold utf8EncodeChar at hbc
  simp only at hbc
  rw [if_pos (by omega)] at hbc
  simp at hbc
  omega

theorem fmtSprint_digits (n : Int) (h : n > 0) : ∀ b ∈ utf8 (fmtSprint n), 48 ≤ b ∧ b ≤ 57 := by
  cases n with
  | ofNat m => exact utf8_digits _ (repr_digits m)
  | negSucc m => exact absurd h (by simp [Int.negSucc_lt_zero])

theorem queryEscape_digits (s : Bytes) (h : ∀ b ∈ s, 48 ≤ b ∧ b ≤ 57) : QueryEscape s = s := by
  apply escape_of_not_shouldEscape
  intro b hb
  have := h b hb
  have ha : isAlnum b = true := by simp [isAlnum]; omega
  simp [shouldEscape, ha]

theorem mem_intercalate (sep : Bytes) (l : List Bytes) (b : Nat)
    (h : b ∈ sep.intercalate l) : b ∈ sep ∨ ∃ x ∈ l, b ∈ x := by
  induction l with
  | nil => simp [List.intercalate] at h
  | cons a rest ih =>
    cases rest with
    | nil =>
      simp [List.intercalate] at h
      exact Or.inr ⟨a, by simp, h⟩
    | cons a2 rest2 =>
      have hform : sep.intercalate (a :: a2 :: rest2) = a ++ sep ++ sep.intercalate (a2 :: rest2) := by
        simp [List.intercalate]
      rw [hform] at h
      simp only [List.mem_append] at h
      rcases h with (h | h) | h
      · exact Or.inr ⟨a, by simp, h⟩
      · exact Or.inl h
      · rcases ih h with h1 | ⟨x, hx, hbx⟩
        · exact Or.inl h1
        · exact Or.inr ⟨x, by simp [hx], hbx⟩

theorem utf8_ec_uid : utf8 "ec_uid" = [101, 99, 95, 117, 105, 100] := by decide
theorem utf8_page : utf8 "page" = [112, 97, 103, 101] := by decide
theorem utf8_limit : utf8 "limit" = [108, 105, 109, 105, 116] := by decide
theorem utf8_choikitype :
    utf8 "choikitype" = [99, 104, 111, 105, 107, 105, 116, 121, 112, 101] := by decide
theorem utf8_searchtype :
    utf8 "searchtype" = [115, 101, 97, 114, 99, 104, 116, 121, 112, 101] := by decide

/-- The parameters `Searchcode` sets on an endpoint without query, in the
order of their keys. -/
theorem searchcodeQuery_nil (c : Client) (r : searchcodeRequest) :
    searchcodeQuery c r [] =
      (if r.Choikitype > 0 then [(utf8 "choikitype", [utf8 (fmtSprint r.Choikitype)])] else []) ++
      (if c.ecuid ≠ "" then [(utf8 "ec_uid", [utf8 c.ecuid])] else []) ++
      (if r.Limit > 0 then [(utf8 "limit", [utf8 (fmtSprint r.Limit)])] else []) ++
      (if r.Page > 0 then [(utf8 "page", [utf8 (fmtSprint r.Page)])] else []) ++
      (if r.Searchtype > 0 then [(utf8 "searchtype", [utf8 (fmtSprint r.Searchtype)])]
       else []) := by
  unfold searchcodeQuery
  simp only [utf8_ec_uid, utf8_page, utf8_limit, utf8_choikitype, utf8_searchtype]
  by_cases h1 : c.ecuid ≠ "" <;> by_cases h2 : r.Page > 0 <;> by_cases h3 : r.Limit > 0 <;>
    by_cases h4 : r.Choikitype > 0 <;> by_cases h5 : r.Searchtype > 0 <;>
    simp [h1, h2, h3, h4, h5, Values.Set, bytesLt]

theorem queryEscape_key (k : String)
    (h : (utf8 k).all (fun b => isAlnum b || b = 95) = true) : QueryEscape (utf8 k) = utf8 k := by
  apply escape_of_not_shouldEscape
  intro b hb
  rw [List.all_eq_true] at h
  have := h b hb
  by_cases ha : isAlnum b = true
  · simp [shouldEscape, ha]
  · have hb : b = 95 := by simpa [ha] using this
    subst hb; rfl

theorem encode_decimal (key : String) (n : Int)
    (hk : (utf8 key).all (fun b => isAlnum b || b = 95) = true) :
    (if n > 0 then [(utf8 key, [utf8 (fmtSprint n)])] else ([] : Values)).flatMap
        (fun kv => kv.2.map (fun x => QueryEscape kv.1 ++ 61 :: QueryEscape x)) =
      decimalParam key n := by
  unfold decimalParam
  by_cases h : n > 0
  · simp [h, queryEscape_key key hk, queryEscape_digits _ (fmtSprint_digits n h)]
  · simp [h]

theorem encode_text (key v : String)
    (hk : (utf8 key).all (fun b => isAlnum b || b = 95) = true) :
    (if v ≠ "" then [(utf8 key, [utf8 v])] else ([] : Values)).flatMap
        (fun kv => kv.2.map (fun x => QueryEscape kv.1 ++ 61 :: QueryEscape x)) =
      textParam key v := by
  unfold textParam
  by_cases h : v = ""
  · simp [h]
  · simp [h, queryEscape_key key hk]

/-- The query string `Searchcode` encodes for an endpoint without query. -/
theorem searchcodeQuery_encode (c : Client) (r : searchcodeRequest) :
    (searchcodeQuery c r []).Encode = searchcodeQueryText c r := by
  rw [searchcodeQuery_nil]
  unfold Values.Encode searchcodeQueryText
  simp only [List.flatMap_append]
  rw [encode_decimal "choikitype" _ (by decide), encode_text "ec_uid" _ (by decide),
    encode_decimal "limit" _ (by decide), encode_decimal "page" _ (by decide),
    encode_decimal "searchtype" _ (by decide)]

theorem decimalParam_safe (key : String) (n : Int)
    (hk : (utf8 key).all (fun b => isAlnum b || b = 95) = true) :
    ∀ x ∈ decimalParam key n, ∀ b ∈ x, safeByte b = true := by
  intro x hx b hb
  unfold decimalParam at hx
  split at hx
  · rename_i hn
    simp only [List.mem_singleton] at hx
    subst hx
    simp only [List.mem_append, List.mem_cons] at hb
    rcases hb with hb | hb | hb
    · rw [List.all_eq_true] at hk
      have := hk b hb
      by_cases ha : isAlnum b = true
      · have := isAlnum_bounds b ha
        rw [safeByte_iff]; omega
      · have hb : b = 95 := by simpa [ha] using this
        subst hb; rfl
    · subst hb; rfl
    · have := fmtSprint_digits n hn b hb
      rw [safeByte_iff]; omega
  · simp at hx

theorem textParam_safe (key v : String)
    (hk : (utf8 key).all (fun b => isAlnum b || b = 95) = true) :
    ∀ x ∈ textParam key v, ∀ b ∈ x, safeByte b = true := by
  intro x hx b hb
  unfold textParam at hx
  split at hx
  · simp only [List.mem_singleton] at hx
    subst hx
    simp only [List.mem_append, List.mem_cons] at hb
    rcases hb with hb | hb | hb
    · rw [List.all_eq_true] at hk
      have := hk b hb
      by_cases ha : isAlnum b = true
      · have := isAlnum_bounds b ha
        rw [safeByte_iff]; omega
      · have hb : b = 95 := by simpa [ha] using this
        subst hb; rfl
    · subst hb; rfl
    · exact queryEscape_safe _ (utf8_lt v) b hb
  · simp at hx

theorem searchcodeQueryText_safe (c : Client) (r : searchcodeRequest) :
    ∀ b ∈ searchcodeQueryText c r, safeByte b = true := by
  intro b hb
  unfold searchcodeQueryText at hb
  rcases mem_intercalate _ _ b hb with h | ⟨x, hx, hbx⟩
  · simp at h; subst h; rfl
  · simp only [List.mem_append] at hx
    rcases hx with (((hx | hx) | hx) | hx) | hx
    · exact decimalParam_safe _ _ (by decide) x hx b hbx
    · exact textParam_safe _ _ (by decide) x hx b hbx
    · exact decimalParam_safe _ _ (by decide) x hx b hbx
    · exact decimalParam_safe _ _ (by decide) x hx b hbx
    · exact decimalParam_safe _ _ (by decide) x hx b hbx

/-! ## The query of a parsed URL, in general -/

theorem getSchemeAux_spec (raw : Bytes) (rest soFar s0 r0 : Bytes)
    (hso : ∀ b ∈ soFar, b ≠ 63 ∧ b ≠ 35)
    (h : getSchemeAux raw soFar rest = .ok (s0, r0)) :
    (s0 = [] ∧ r0 = raw) ∨
      (soFar ++ rest = s0 ++ 58 :: r0 ∧ ∀ b ∈ s0, b ≠ 63 ∧ b ≠ 35) := by
  induction rest generalizing soFar with
  | nil =>
    rw [getSchemeAux] at h
    injection h with h
    injection h with h1 h2
    exact Or.inl ⟨h1.symm, h2.symm⟩
  | cons c rest ih =>
    rw [getSchemeAux] at h
    have hso' : ∀ b ∈ soFar ++ [c], c ≠ 63 → c ≠ 35 → b ≠ 63 ∧ b ≠ 35 := by
      intro b hb h1 h2
      rw [List.mem_append] at hb
      rcases hb with hb | hb
      · exact hso b hb
      · simp at hb; subst hb; exact ⟨h1, h2⟩
    split at h
    · rename_i hl
      rcases ih (soFar ++ [c]) (fun b hb => hso' b hb (by omega) (by omega)) h with h1 | h1
      · exact Or.inl h1
      · exact Or.inr ⟨by simpa using h1.1, h1.2⟩
    · split at h
      · rename_i hd
        split at h
        · injection h with h
          injection h with h1 h2
          exact Or.inl ⟨h1.symm, h2.symm⟩
        · rcases ih (soFar ++ [c]) (fun b hb => hso' b hb (by omega) (by omega)) h with h1 | h1
          · exact Or.inl h1
          · exact Or.inr ⟨by simpa using h1.1, h1.2⟩
      · split at h
        · rename_i hcolon
          split at h
          · cases h
          · injection h with h
            injection h with h1 h2
            subst h1 h2 hcolon
            exact Or.inr ⟨rfl, hso⟩
        · injection h with h
          injection h with h1 h2
          exact Or.inl ⟨h1.symm, h2.symm⟩

theorem getScheme_spec (raw s0 r0 : Bytes) (h : getScheme raw = .ok (s0, r0)) :
    (s0 = [] ∧ r0 = raw) ∨ (raw = s0 ++ 58 :: r0 ∧ ∀ b ∈ s0, b ≠ 63 ∧ b ≠ 35) := by
  unfold getScheme at h
  have := getSchemeAux_spec raw raw [] s0 r0 (by simp) h
  simpa using this

theorem setPath_fields (u u2 : URL) (p : Bytes) (h : u.setPath p = .ok u2) :
    u2.Scheme = u.Scheme ∧ u2.Opaque = u.Opaque ∧ u2.ForceQuery = u.ForceQuery ∧
    u2.RawQuery = u.RawQuery := by
  unfold URL.setPath at h
  split at h
  · cases h
  · split at h <;> (injection h with h; subst h; exact ⟨rfl, rfl, rfl, rfl⟩)

theorem setFragment_fields (u u2 : URL) (f : Bytes) (h : u.setFragment f = .ok u2) :
    u2.Scheme = u.Scheme ∧ u2.Opaque = u.Opaque ∧ u2.ForceQuery = u.ForceQuery ∧
    u2.RawQuery = u.RawQuery := by
  unfold URL.setFragment at h
  split at h
  · cases h
  · split at h <;> (injection h with h; subst h; exact ⟨rfl, rfl, rfl, rfl⟩)

/-- What a successful `parse` stores in the fields that do not depend on the
authority and the path. -/
theorem parse_spec (x : Bytes) (u : URL) (h : parse x = .ok u) :
    (x = [42] ∧ u.Scheme = [] ∧ u.Opaque = [] ∧ u.ForceQuery = false ∧ u.RawQuery = []) ∨
    (∃ s0 r0, getScheme x = .ok (s0, r0) ∧ u.Scheme = s0.map lowerByte ∧
      u.ForceQuery = (([63] : Bytes).isSuffixOf r0 && r0.count 63 == 1) ∧
      u.RawQuery = (if (([63] : Bytes).isSuffixOf r0 && r0.count 63 == 1) = true then []
        else (stringsCut 63 r0).2.1) ∧
      (u.Opaque = [] ∨
        u.Opaque = (if (([63] : Bytes).isSuffixOf r0 && r0.count 63 == 1) = true
          then r0.dropLast else (stringsCut 63 r0).1))) := by
  unfold parse at h
  split at h
  · cases h
  · split at h
    · rename_i hstar
      injection h with h
      subst h
      exact Or.inl ⟨hstar, rfl, rfl, rfl, rfl⟩
    · right
      split at h
      · cases h
      · rename_i s0 r0 hgs
        refine ⟨s0, r0, hgs, ?_⟩
        simp only at h
        generalize (([63] : Bytes).isSuffixOf r0 && r0.count 63 == 1) = fq at h ⊢
        generalize (if fq = true then r0.dropLast else (stringsCut 63 r0).1) = rest1 at h ⊢
        generalize (if fq = true then [] else (stringsCut 63 r0).2.1) = rq at h ⊢
        by_cases c1 : ¬ ([47] : Bytes).isPrefixOf rest1 = true ∧ s0.map lowerByte ≠ []
        · rw [if_pos c1] at h
          cases h
          exact ⟨rfl, rfl, rfl, Or.inr rfl⟩
        · rw [if_neg c1] at h
          by_cases c2 : ¬ ([47] : Bytes).isPrefixOf rest1 = true ∧
              (stringsCut 47 rest1).1.contains 58 = true
          · rw [if_pos c2] at h
            cases h
          · rw [if_neg c2] at h
            by_cases c3 : (s0.map lowerByte ≠ [] ∨ ¬ ([47, 47, 47] : Bytes).isPrefixOf rest1 = true) ∧
                ([47, 47] : Bytes).isPrefixOf rest1 = true
            · rw [if_pos c3] at h
              cases hpa : parseAuthority (stringsCut 47 (List.drop 2 rest1)).1 with
              | error e => rw [hpa] at h; cases h
              | ok r =>
                rw [hpa] at h
                obtain ⟨h1, h2, h3, h4⟩ := setPath_fields _ _ _ h
                exact ⟨h1, h3, h4, Or.inl h2⟩
            · rw [if_neg c3] at h
              by_cases c4 : s0.map lowerByte ≠ [] ∧ ([47] : Bytes).isPrefixOf rest1 = true
              · rw [if_pos c4] at h
                obtain ⟨h1, h2, h3, h4⟩ := setPath_fields _ _ _ h
                exact ⟨h1, h3, h4, Or.inl h2⟩
              · rw [if_neg c4] at h
                obtain ⟨h1, h2, h3, h4⟩ := setPath_fields _ _ _ h
                exact ⟨h1, h3, h4, Or.inl h2⟩

theorem stringsCut_fst_not_mem (sep : Nat) (r : Bytes) : sep ∉ (stringsCut sep r).1 := by
  induction r with
  | nil => simp [stringsCut]
  | cons c rest ih =>
    rw [stringsCut]
    split
    · simp
    · rename_i hc
      simp only [List.mem_cons, not_or]
      exact ⟨fun e => hc e.symm, ih⟩

theorem stringsCut_fst_subset (sep : Nat) (r : Bytes) : ∀ b ∈ (stringsCut sep r).1, b ∈ r := by
  induction r with
  | nil => simp [stringsCut]
  | cons c rest ih =>
    intro b hb
    rw [stringsCut] at hb
    split at hb
    · simp at hb
    · simp only [List.mem_cons] at hb ⊢
      rcases hb with hb | hb
      · exact Or.inl hb
      · exact Or.inr (ih b hb)

theorem stringsCut_append_left (sep : Nat) (a r : Bytes) (h : sep ∉ a) :
    stringsCut sep (a ++ r) =
      (a ++ (stringsCut sep r).1, (stringsCut sep r).2.1, (stringsCut sep r).2.2) := by
  induction a with
  | nil => simp
  | cons c rest ih =>
    have hc : c ≠ sep := fun e => h (by simp [e])
    have hr : sep ∉ rest := fun e => h (by simp [e])
    simp [stringsCut, hc, ih hr]

theorem stringsCut_rebuild (sep : Nat) (r : Bytes) (h : (stringsCut sep r).2.2 = true) :
    r = (stringsCut sep r).1 ++ sep :: (stringsCut sep r).2.1 := by
  induction r with
  | nil => simp [stringsCut] at h
  | cons c rest ih =>
    rw [stringsCut] at h ⊢
    split
    · rename_i hc; simp [hc]
    · rename_i hc
      rw [if_neg hc] at h
      simp only [List.cons_append]
      rw [← ih h]

/-- The raw query that `parse` stores for the text `r0` after the scheme. -/
theorem rawQuery_of_form (p q : Bytes) (c : Prop) [Decidable c] (hp : 63 ∉ p) (hq : 63 ∉ q)
    (hc : ¬ c → q = []) :
    (if (([63] : Bytes).isSuffixOf (p ++ (if c then 63 :: q else [])) &&
          (p ++ (if c then 63 :: q else [])).count 63 == 1) = true then []
      else (stringsCut 63 (p ++ (if c then 63 :: q else []))).2.1) = q := by
  by_cases h : c
  · simp only [if_pos h]
    by_cases hqe : q = []
    · subst hqe
      rw [stringsCut_append 63 p [] hp]
      split <;> rfl
    · rw [not_suffix_question p q hqe hq, stringsCut_append 63 p q hp]
      simp
  · simp only [if_neg h, List.append_nil]
    rw [hc h, stringsCut_not_mem 63 p hp]
    split <;> rfl

/-- After the scheme is split off, the text still ends with the same query. -/
theorem rest_of_form (p qp s0 r0 : Bytes) (hp : 63 ∉ p) (hqp : qp = [] ∨ ∃ q, qp = 63 :: q)
    (h : (s0 = [] ∧ r0 = p ++ qp) ∨ (p ++ qp = s0 ++ 58 :: r0 ∧ ∀ b ∈ s0, b ≠ 63 ∧ b ≠ 35)) :
    ∃ p2, r0 = p2 ++ qp ∧ 63 ∉ p2 ∧ ∀ b ∈ p2, b ∈ p := by
  rcases h with ⟨_, h⟩ | ⟨h, hs0⟩
  · exact ⟨p, h, hp, fun b hb => hb⟩
  · have ha : 63 ∉ s0 ++ [58] := by
      intro hm
      rw [List.mem_append] at hm
      rcases hm with hm | hm
      · exact (hs0 63 hm).1 rfl
      · simp at hm
    have hform : p ++ qp = (s0 ++ [58]) ++ r0 := by rw [h]; simp
    rcases hqp with hqp | ⟨q, hqp⟩
    · subst hqp
      rw [List.append_nil] at hform
      refine ⟨r0, by simp, ?_, ?_⟩
      · intro hm; exact hp (by rw [hform]; simp [hm])
      · intro b hb; rw [hform]; simp [hb]
    · subst hqp
      have h1 := stringsCut_append 63 p q hp
      rw [hform, stringsCut_append_left 63 _ r0 ha] at h1
      injection h1 with h1 h2
      injection h2 with h2 h3
      have hre := stringsCut_rebuild 63 r0 h3
      rw [h2] at hre
      refine ⟨(stringsCut 63 r0).1, hre, stringsCut_fst_not_mem 63 r0, ?_⟩
      intro b hb
      rw [← h1]
      simp [hb]

theorem parse_rawQuery (p q : Bytes) (c : Prop) [Decidable c] (u : URL) (hp : 63 ∉ p)
    (hq : 63 ∉ q) (hc : ¬ c → q = [])
    (h : parse (p ++ (if c then 63 :: q else [])) = .ok u) : u.RawQuery = q := by
  rcases parse_spec _ _ h with ⟨hx, _, _, _, hrq⟩ | ⟨s0, r0, hgs, _, _, hrq, _⟩
  · rw [hrq]
    by_cases hcc : c
    · rw [if_pos hcc] at hx
      have : (63 : Nat) ∈ p ++ 63 :: q := by simp
      rw [hx] at this
      simp at this
    · exact (hc hcc).symm
  · have hqp : (if c then 63 :: q else []) = [] ∨ ∃ q2, (if c then 63 :: q else []) = 63 :: q2 := by
      by_cases hcc : c
      · exact Or.inr ⟨q, by rw [if_pos hcc]⟩
      · exact Or.inl (by rw [if_neg hcc])
    have hspec := getScheme_spec _ _ _ hgs
    obtain ⟨p2, hr0, hp2, _⟩ := rest_of_form p _ s0 r0 hp hqp
      (by
        rcases hspec with h1 | h1
        · exact Or.inl h1
        · exact Or.inr h1)
    rw [hrq, hr0]
    exact rawQuery_of_form p2 q c hp2 hq hc

theorem urlParse_rawQuery (p q fp : Bytes) (c : Prop) [Decidable c] (u : URL)
    (hp : 63 ∉ p ∧ 35 ∉ p) (hq : 63 ∉ q ∧ 35 ∉ q) (hc : ¬ c → q = [])
    (hfp : fp = [] ∨ ∃ f, fp = 35 :: f)
    (h : urlParse (p ++ (if c then 63 :: q else []) ++ fp) = .ok u) : u.RawQuery = q := by
  have h35 : 35 ∉ p ++ (if c then 63 :: q else []) := by
    intro hm
    rw [List.mem_append] at hm
    rcases hm with hm | hm
    · exact hp.2 hm
    · split at hm
      · simp only [List.mem_cons] at hm
        rcases hm with hm | hm
        · omega
        · exact hq.2 hm
      · simp at hm
  have hcut : (stringsCut 35 (p ++ (if c then 63 :: q else []) ++ fp)).1 =
      p ++ (if c then 63 :: q else []) := by
    rcases hfp with hfp | ⟨f, hfp⟩
    · subst hfp
      rw [List.append_nil, stringsCut_not_mem 35 _ h35]
    · subst hfp
      rw [stringsCut_append 35 _ _ h35]
  unfold urlParse at h
  simp only [hcut] at h
  cases hparse : parse (p ++ (if c then 63 :: q else [])) with
  | error e => rw [hparse] at h; cases h
  | ok url =>
    rw [hparse] at h
    have hrq := parse_rawQuery p q c url hp.1 hq.1 hc hparse
    simp only at h
    generalize (stringsCut 35 (p ++ (if c then 63 :: q else []) ++ fp)).2.1 = frag at h
    by_cases hf : frag = []
    · rw [if_pos hf] at h
      injection h with h; rw [← h]; exact hrq
    · rw [if_neg hf] at h
      cases hsf : url.setFragment frag with
      | error e => rw [hsf] at h; cases h
      | ok url2 =>
        rw [hsf] at h
        injection h with h
        rw [← h, (setFragment_fields _ _ _ hsf).2.2.2]
        exact hrq

theorem lowerByte_ne (b : Nat) (h : b ≠ 63 ∧ b ≠ 35) : lowerByte b ≠ 63 ∧ lowerByte b ≠ 35 := by
  unfold lowerByte
  split <;> omega

theorem mem_dropLast_of_count (r : Bytes) (hs : ([63] : Bytes).isSuffixOf r = true)
    (hc : r.count 63 = 1) : 63 ∉ r.dropLast := by
  rw [List.isSuffixOf_iff_suffix] at hs
  obtain ⟨t, ht⟩ := hs
  subst ht
  rw [List.count_append] at hc
  simp at hc
  rw [List.dropLast_concat]
  exact List.count_eq_zero.mp hc

/-- Neither the scheme nor the opaque part of a parsed URL holds `?` or `#`. -/
theorem urlParse_inv (s : Bytes) (u : URL) (h : urlParse s = .ok u) :
    (∀ b ∈ u.Scheme, b ≠ 63 ∧ b ≠ 35) ∧ (∀ b ∈ u.Opaque, b ≠ 63 ∧ b ≠ 35) := by
  unfold urlParse at h
  simp only at h
  have h35 := stringsCut_fst_not_mem 35 s
  generalize (stringsCut 35 s).1 = x at h h35
  generalize (stringsCut 35 s).2.1 = frag at h
  cases hparse : parse x with
  | error e => rw [hparse] at h; cases h
  | ok url =>
    rw [hparse] at h
    simp only at h
    have hurl : (∀ b ∈ url.Scheme, b ≠ 63 ∧ b ≠ 35) ∧ (∀ b ∈ url.Opaque, b ≠ 63 ∧ b ≠ 35) := by
      rcases parse_spec _ _ hparse with ⟨_, h1, h2, _, _⟩ | ⟨s0, r0, hgs, hS, _, _, hO⟩
      · rw [h1, h2]; simp
      · have hspec := getScheme_spec _ _ _ hgs
        have hs0 : ∀ b ∈ s0, b ≠ 63 ∧ b ≠ 35 := by
          rcases hspec with ⟨h1, _⟩ | ⟨_, h1⟩
          · rw [h1]; simp
          · exact h1
        have hr0 : ∀ b ∈ r0, b ∈ x := by
          rcases hspec with ⟨_, h1⟩ | ⟨h1, _⟩
          · rw [h1]; exact fun b hb => hb
          · intro b hb; rw [h1]; simp [hb]
        refine ⟨?_, ?_⟩
        · rw [hS]
          intro b hb
          rw [List.mem_map] at hb
          obtain ⟨a, ha, hab⟩ := hb
          rw [← hab]
          exact lowerByte_ne a (hs0 a ha)
        · rcases hO with hO | hO
          · rw [hO]; simp
          · rw [hO]
            intro b hb
            split at hb
            · rename_i hfq
              simp only [Bool.and_eq_true, beq_iff_eq] at hfq
              refine ⟨?_, ?_⟩
              · intro e; subst e; exact mem_dropLast_of_count r0 hfq.1 hfq.2 hb
              · intro e; subst e; exact h35 (hr0 _ (List.mem_of_mem_dropLast hb))
            · refine ⟨?_, ?_⟩
              · intro e; subst e; exact stringsCut_fst_not_mem 63 r0 hb
              · intro e; subst e; exact h35 (hr0 _ (stringsCut_fst_subset 63 r0 _ hb))
    by_cases hf : frag = []
    · rw [if_pos hf] at h
      injection h with h; rw [← h]; exact hurl
    · rw [if_neg hf] at h
      cases hsf : url.setFragment frag with
      | error e => rw [hsf] at h; cases h
      | ok url2 =>
        rw [hsf] at h
        injection h with h
        obtain ⟨h1, h2, _, _⟩ := setFragment_fields _ _ _ hsf
        rw [← h, h1, h2]
        exact hurl

theorem upperhex_ne (n : Nat) : upperhex n ≠ 63 ∧ upperhex n ≠ 35 := by
  unfold upperhex
  split <;> omega

theorem escape_noQH (mode : Encoding) (s : Bytes)
    (hm : shouldEscape 63 mode = true ∧ shouldEscape 35 mode = true) :
    ∀ b ∈ escape mode s, b ≠ 63 ∧ b ≠ 35 := by
  induction s with
  | nil => intro b hb; simp [escape] at hb
  | cons c rest ih =>
    intro b hb
    rw [escape_cons] at hb
    split at hb
    · simp only [List.mem_cons] at hb
      rcases hb with hb | hb
      · omega
      · exact ih b hb
    · split at hb
      · simp only [List.mem_cons] at hb
        rcases hb with hb | hb | hb | hb
        · omega
        · rw [hb]; exact upperhex_ne _
        · rw [hb]; exact upperhex_ne _
        · exact ih b hb
      · rename_i hse
        simp only [List.mem_cons] at hb
        rcases hb with hb | hb
        · subst hb
          refine ⟨?_, ?_⟩
          · intro e; rw [e] at hse; exact hse hm.1
          · intro e; rw [e] at hse; exact hse hm.2
        · exact ih b hb

theorem escapedPath_noQH (u : URL) : ∀ b ∈ u.EscapedPath, b ≠ 63 ∧ b ≠ 35 := by
  unfold URL.EscapedPath
  simp only
  split
  · rename_i hc
    intro b hb
    have := (safeByte_iff b).mp (validEncoded_path_safe _ hc.2.1 b hb)
    omega
  · split
    · intro b hb; simp at hb; omega
    · exact escape_noQH .encodePath _ ⟨rfl, rfl⟩

theorem noQH_append (a b : Bytes) (ha : ∀ x ∈ a, x ≠ 63 ∧ x ≠ 35)
    (hb : ∀ x ∈ b, x ≠ 63 ∧ x ≠ 35) : ∀ x ∈ a ++ b, x ≠ 63 ∧ x ≠ 35 := by
  intro x hx
  rw [List.mem_append] at hx
  rcases hx with hx | hx
  · exact ha x hx
  · exact hb x hx

theorem noQH_ite (c : Prop) [Decidable c] (a b : Bytes) (ha : ∀ x ∈ a, x ≠ 63 ∧ x ≠ 35)
    (hb : ∀ x ∈ b, x ≠ 63 ∧ x ≠ 35) : ∀ x ∈ (if c then a else b), x ≠ 63 ∧ x ≠ 35 := by
  split
  · exact ha
  · exact hb

/-- The text of a URL before its query holds no `?` and no `#` when the
scheme and the opaque part hold none. -/
theorem stringHead_noQH (u : URL) (hS : ∀ b ∈ u.Scheme, b ≠ 63 ∧ b ≠ 35)
    (hO : ∀ b ∈ u.Opaque, b ≠ 63 ∧ b ≠ 35) : ∀ b ∈ u.stringHead, b ≠ 63 ∧ b ≠ 35 := by
  have hbuf1 : ∀ b ∈ (if u.Scheme ≠ [] then u.Scheme ++ [58] else []), b ≠ 63 ∧ b ≠ 35 := by
    intro b hb
    split at hb
    · rw [List.mem_append] at hb
      rcases hb with hb | hb
      · exact hS b hb
      · simp at hb; omega
    · simp at hb
  have huser : ∀ ui : Userinfo, ∀ b ∈ ui.String, b ≠ 63 ∧ b ≠ 35 := by
    intro ui b hb
    unfold Userinfo.String at hb
    rw [List.mem_append] at hb
    rcases hb with hb | hb
    · exact escape_noQH .encodeUserPassword _ ⟨rfl, rfl⟩ b hb
    · split at hb
      · simp only [List.mem_cons] at hb
        rcases hb with hb | hb
        · omega
        · exact escape_noQH .encodeUserPassword _ ⟨rfl, rfl⟩ b hb
      · simp at hb
  have hauth : ∀ b ∈ (if u.Scheme ≠ [] ∨ u.Host ≠ [] ∨ u.User ≠ none then
        if u.OmitHost = true ∧ u.Host = [] ∧ u.User = none then ([] : Bytes)
        else
          (if u.Host ≠ [] ∨ u.Path ≠ [] ∨ u.User ≠ none then [47, 47] else []) ++
          (match u.User with
           | some ui => ui.String ++ [64]
           | none => []) ++
          (if u.Host ≠ [] then escape .encodeHost u.Host else [])
      else []), b ≠ 63 ∧ b ≠ 35 := by
    intro b hb
    split at hb
    · split at hb
      · simp at hb
      · simp only [List.mem_append] at hb
        rcases hb with (hb | hb) | hb
        · split at hb
          · simp at hb; omega
          · simp at hb
        · split at hb
          · rw [List.mem_append] at hb
            rcases hb with hb | hb
            · exact huser _ b hb
            · simp at hb; omega
          · simp at hb
        · split at hb
          · exact escape_noQH .encodeHost _ ⟨rfl, rfl⟩ b hb
          · simp at hb
    · simp at hb
  have h47 : ∀ x ∈ ([47] : Bytes), x ≠ 63 ∧ x ≠ 35 := by
    intro x hx; simp at hx; omega
  have hdot : ∀ x ∈ ([46, 47] : Bytes), x ≠ 63 ∧ x ≠ 35 := by
    intro x hx; simp at hx; omega
  unfold URL.stringHead
  simp only
  apply noQH_ite
  · exact noQH_append _ _ hbuf1 hO
  · apply noQH_append _ _ _ (escapedPath_noQH u)
    apply noQH_ite _ _ _ hdot
    apply noQH_ite
    · exact noQH_append _ _ (noQH_append _ _ hbuf1 hauth) h47
    · exact noQH_append _ _ hbuf1 hauth

theorem string_eq (u : URL) :
    u.String = u.stringHead ++
      (if u.ForceQuery = true ∨ u.RawQuery ≠ [] then 63 :: u.RawQuery else []) ++
      (if u.Fragment ≠ [] then 35 :: u.EscapedFragment else []) := by
  unfold URL.String
  simp only
  by_cases h1 : u.ForceQuery = true ∨ u.RawQuery ≠ [] <;> by_cases h2 : u.Fragment ≠ [] <;>
    simp [h1, h2]

theorem joinPath_fields (u u1 : URL) (elems : List Bytes) (h : u.joinPath elems = .ok u1) :
    u1.Scheme = u.Scheme ∧ u1.Opaque = u.Opaque ∧
    u1.ForceQuery = u.ForceQuery ∧ u1.RawQuery = u.RawQuery := by
  unfold URL.joinPath at h
  exact setPath_fields _ _ _ h

theorem urlParse_string_rawQuery (u u3 : URL) (hS : ∀ b ∈ u.Scheme, b ≠ 63 ∧ b ≠ 35)
    (hO : ∀ b ∈ u.Opaque, b ≠ 63 ∧ b ≠ 35) (hq : ∀ b ∈ u.RawQuery, safeByte b = true)
    (h : urlParse u.String = .ok u3) : u3.RawQuery = u.RawQuery := by
  rw [string_eq] at h
  have hhead := stringHead_noQH u hS hO
  have hq2 : 63 ∉ u.RawQuery ∧ 35 ∉ u.RawQuery := by
    refine ⟨?_, ?_⟩ <;> intro hm <;> have := (safeByte_iff _).mp (hq _ hm) <;> omega
  refine urlParse_rawQuery u.stringHead u.RawQuery _ (u.ForceQuery = true ∨ u.RawQuery ≠ []) u3
    ⟨fun hm => (hhead 63 hm).1 rfl, fun hm => (hhead 35 hm).2 rfl⟩ hq2 ?_ ?_ h
  · intro hc
    by_contra hne
    exact hc (Or.inr hne)
  · by_cases hf : u.Fragment ≠ []
    · exact Or.inr ⟨_, by rw [if_pos hf]⟩
    · exact Or.inl (by rw [if_neg hf])

/-- The raw query of the request `Searchcode` builds, for every origin that
parses to a URL without query. -/
theorem searchcodeHTTPRequest_rawQuery (c : Client) (code : String)
    (opts : List searchcodeOption) (u0 : URL) (req : Request)
    (hparse : urlParse (utf8 c.origin) = .ok u0) (hnoq : u0.RawQuery = [])
    (h : searchcodeHTTPRequest c code opts = .ok req) :
    req.URL.RawQuery = searchcodeQueryText c (newSearchcodeRequest code opts) := by
  unfold searchcodeHTTPRequest at h
  simp only at h
  unfold urlJoinPath at h
  rw [hparse] at h
  simp only at h
  cases hu1 : u0.joinPath [utf8 "api", utf8 c.version, utf8 "searchcode",
        utf8 (newSearchcodeRequest code opts).SearchCode] with
  | error e => rw [hu1] at h; cases h
  | ok u1 =>
  rw [hu1] at h
  simp only at h
  obtain ⟨hf1, hf2, _, hf4⟩ := joinPath_fields u0 u1 _ hu1
  obtain ⟨hinvS, hinvO⟩ := urlParse_inv _ _ hparse
  cases hp2 : urlParse u1.String with
  | error e => rw [hp2] at h; cases h
  | ok u2 =>
    rw [hp2] at h
    simp only at h
    have hq2 : u2.RawQuery = [] := by
      have := urlParse_string_rawQuery u1 u2 (by rw [hf1]; exact hinvS) (by rw [hf2]; exact hinvO)
        (by rw [hf4, hnoq]; simp) hp2
      rw [this, hf4, hnoq]
    have hquery : u2.Query = [] := by
      unfold URL.Query
      rw [hq2]
      rfl
    rw [hquery, searchcodeQuery_encode] at h
    obtain ⟨hinvS2, hinvO2⟩ := urlParse_inv _ _ hp2
    generalize hr : httpNewRequest "GET"
      (URL.String { u2 with RawQuery := searchcodeQueryText c (newSearchcodeRequest code opts) })
      none = r at h
    cases r with
    | error e => cases h
    | ok q =>
      have hq : q = req := Except.ok.inj h
      subst hq
      obtain ⟨u3, hp3, hreq⟩ := httpNewRequest_ok (by decide) (by decide) hr
      have := urlParse_string_rawQuery
        { u2 with RawQuery := searchcodeQueryText c (newSearchcodeRequest code opts) } u3
        hinvS2 hinvO2 (searchcodeQueryText_safe c _) hp3
      rw [hreq]
      exact this

/-! ## Successful answers, errors.go and NewClient (C14, C15, C16) -/

/-- C14: when the transport answers the request of AddressZip or Searchcode
with status 200 and the body decodes (without error) to `v`, the operation
returns `v` itself and no error. -/
theorem decoded_response_returned (c : Client) (resp : Response) (body : String)
    (hstatus : resp.StatusCode = 200) (hbody : resp.Body = some body) :
    (∀ (dec : Decoder AddressResponse) (opts : List addressRequestOption) (req : Request)
        (v : AddressResponse),
      addressZipRequest c opts = .ok req → c.do_ req = (some resp, none) →
      dec.decode body = (v, none) → c.AddressZip dec opts = .ret v none) ∧
    (∀ (dec : Decoder SearchcodeResponse) (code : String) (opts : List searchcodeOption)
        (req : Request) (v : SearchcodeResponse),
      searchcodeHTTPRequest c code opts = .ok req → c.do_ req = (some resp, none) →
      dec.decode body = (v, none) → c.Searchcode dec code opts = .ret v none) := by
  refine ⟨?_, ?_⟩
  · intro dec opts req v hreq hdo hdec
    simp [Client.AddressZip, hreq, hdo, addressZipResult, hbody, hstatus, hdec]
  · intro dec code opts req v hreq hdo hdec
    simp [Client.Searchcode, hreq, hdo, searchcodeResult, hbody, hstatus, hdec]

set_option maxRecDepth 100000 in
theorem decoded_response_returned_witness :
    (sampleClient (some { StatusCode := 200, Body := some sampleAddressBody }, none)).AddressZip
        (constDecoder _ { Level := 1, Page := 0, Limit := 0, Count := 0, Addresses := some [] })
        [] =
      .ret { Level := 1, Page := 0, Limit := 0, Count := 0, Addresses := some [] } none ∧
    (sampleClient (some { StatusCode := 200, Body := some sampleSearchcodeBody }, none)).Searchcode
        (constDecoder _ { Page := 0, Limit := 0, Count := 0, Searchtype := "zipcode",
                          Addresses := some [] })
        "CODE" [] =
      .ret { Page := 0, Limit := 0, Count := 0, Searchtype := "zipcode",
             Addresses := some [] } none :=
  ⟨(decoded_response_returned
      (sampleClient (some { StatusCode := 200, Body := some sampleAddressBody }, none))
      { StatusCode := 200, Body := some sampleAddressBody } sampleAddressBody rfl rfl).1
      _ [] sampleAddressZipRequest _ (by decide) rfl rfl,
   (decoded_response_returned
      (sampleClient (some { StatusCode := 200, Body := some sampleSearchcodeBody }, none))
      { StatusCode := 200, Body := some sampleSearchcodeBody } sampleSearchcodeBody rfl rfl).2
      _ "CODE" [] sampleSearchcodeRequest _ (by decide) rfl rfl⟩

/-- C15: `NewError(s, m)` always yields an `Error` (the function is total, so
the pointer is never nil), with `StatusCode = s` and `Message = m`; its
`Error()` text is `m`, also when it is used as an `error` value; `ToJSON`
succeeds with the object of exactly the two members `status_code = s` and
`message = m`. -/
theorem newError_spec (s : Int) (m : String) :
    (NewError s m).StatusCode = s ∧ (NewError s m).Message = m ∧
    (NewError s m).Error = m ∧
    (GoError.api (NewError s m)).message = m ∧
    (GoError.api (NewError s m)).asError = some { StatusCode := s, Message := m } ∧
    (NewError s m).ToJSON = .ok [("status_code", .num s), ("message", .str m)] ∧
    ∃ obj, (NewError s m).ToJSON = .ok obj ∧ obj.length = 2 ∧
      obj.lookup "status_code" = some (.num s) ∧ obj.lookup "message" = some (.str m) ∧
      ∀ k v, (k, v) ∈ obj → k = "status_code" ∨ k = "message" := by
  refine ⟨rfl, rfl, rfl, rfl, rfl, rfl, _, rfl, rfl, rfl, rfl, ?_⟩
  intro k v h
  simp only [List.mem_cons, Prod.mk.injEq, List.mem_singleton, List.not_mem_nil, or_false] at h
  rcases h with h | h
  · exact Or.inl h.1
  · exact Or.inr h.1

/-- C16: `NewClient(origin, clientID, clientSecret, myip)` stores the four
values as given, has version "v1", an empty partner ID and no token, and its
transport is the default one. -/
theorem newClient_spec (defaultDo : Request → DoResult)
    (origin clientID clientSecret myip : String) :
    (NewClient defaultDo origin clientID clientSecret myip).origin = origin ∧
    (NewClient defaultDo origin clientID clientSecret myip).clientID = clientID ∧
    (NewClient defaultDo origin clientID clientSecret myip).clientSecret = clientSecret ∧
    (NewClient defaultDo origin clientID clientSecret myip).myip = myip ∧
    (NewClient defaultDo origin clientID clientSecret myip).Version = "v1" ∧
    (NewClient defaultDo origin clientID clientSecret myip).ecuid = "" ∧
    (NewClient defaultDo origin clientID clientSecret myip).token = "" ∧
    (NewClient defaultDo origin clientID clientSecret myip).HasToken = false ∧
    (NewClient defaultDo origin clientID clientSecret myip).doFunc = defaultDo := by
  refine ⟨rfl, rfl, rfl, rfl, rfl, rfl, rfl, ?_, rfl⟩
  simp [Client.HasToken, NewClient]

/-! ## The status check comes first (C17) -/

/-- C17: when the transport fails, or answers with a status other than 200,
each of AddressZip, Searchcode and GetToken returns its error together with the
zero response (numbers 0, strings empty, address list nil) whatever the JSON
decoder would make of the body: the result is the same for every decoder, so
the body is not decoded. -/
theorem status_check_precedes_decoding (c : Client) (r : DoResult)
    (hr : (∃ e, r.2 = some e) ∨
      (∃ resp body, r = (some resp, none) ∧ resp.Body = some body ∧ resp.StatusCode ≠ 200)) :
    (∀ (opts : List addressRequestOption) (req : Request),
      addressZipRequest c opts = .ok req → c.do_ req = r →
      ∃ err, ∀ dec : Decoder AddressResponse,
        c.AddressZip dec opts =
          .ret { Level := 0, Page := 0, Limit := 0, Count := 0, Addresses := none }
            (some err)) ∧
    (∀ (code : String) (opts : List searchcodeOption) (req : Request),
      searchcodeHTTPRequest c code opts = .ok req → c.do_ req = r →
      ∃ err, ∀ dec : Decoder SearchcodeResponse,
        c.Searchcode dec code opts =
          .ret { Page := 0, Limit := 0, Count := 0, Searchtype := "", Addresses := none }
            (some err)) ∧
    (∀ (req : Request), getTokenRequest c = .ok req → c.do_ req = r →
      ∃ err, ∀ dec : Decoder TokenResponse,
        c.GetToken dec =
          .ret { Scope := "", TokenType := "", ExpiresIn := 0, Token := "" } (some err)) := by
  obtain ⟨r1, r2⟩ := r
  rcases hr with ⟨e, he⟩ | ⟨resp, body, hresp, hbody, hstatus⟩
  · simp only at he
    subst he
    refine ⟨?_, ?_, ?_⟩
    · intro opts req hreq hdo
      refine ⟨.join [.api (NewError 500 "client do error"), e], fun dec => ?_⟩
      simp [Client.AddressZip, hreq, hdo, addressZipResult, errorsJoin_pair,
        AddressResponse.zero]
    · intro code opts req hreq hdo
      refine ⟨.join [.api (NewError 500 "client do error"), e], fun dec => ?_⟩
      simp [Client.Searchcode, hreq, hdo, searchcodeResult, errorsJoin_pair,
        SearchcodeResponse.zero]
    · intro req hreq hdo
      refine ⟨.join [.api (NewError 500 "client do error"), e], fun dec => ?_⟩
      simp [Client.GetToken, hreq, hdo, getTokenResult, errorsJoin_pair, TokenResponse.zero]
  · obtain ⟨h1, h2⟩ := Prod.mk.inj hresp
    subst h1 h2
    refine ⟨?_, ?_, ?_⟩
    · intro opts req hreq hdo
      refine ⟨.api (NewError resp.StatusCode "unexpected status code"), fun dec => ?_⟩
      simp [Client.AddressZip, hreq, hdo, addressZipResult, hbody, hstatus,
        AddressResponse.zero]
    · intro code opts req hreq hdo
      refine ⟨.api (NewError resp.StatusCode "unexpected status code"), fun dec => ?_⟩
      simp [Client.Searchcode, hreq, hdo, searchcodeResult, hbody, hstatus,
        SearchcodeResponse.zero]
    · intro req hreq hdo
      refine ⟨.api (NewError resp.StatusCode "unexpected status code"), fun dec => ?_⟩
      simp [Client.GetToken, hreq, hdo, getTokenResult, hbody, hstatus, TokenResponse.zero]

set_option maxRecDepth 100000 in
theorem status_check_precedes_decoding_witness :
    (∃ err, ∀ dec : Decoder AddressResponse,
      (sampleClient (some { StatusCode := 500, Body := some sampleAddressBody }, none)).AddressZip
          dec [] =
        .ret { Level := 0, Page := 0, Limit := 0, Count := 0, Addresses := none } (some err)) ∧
    (∃ err, ∀ dec : Decoder SearchcodeResponse,
      (sampleClient (none, some (.foreign "fail"))).Searchcode dec "CODE" [] =
        .ret { Page := 0, Limit := 0, Count := 0, Searchtype := "", Addresses := none }
          (some err)) ∧
    (∃ err, ∀ dec : Decoder TokenResponse,
      (sampleClient (some { StatusCode := 403, Body := some sampleTokenBody }, none)).GetToken
          dec =
        .ret { Scope := "", TokenType := "", ExpiresIn := 0, Token := "" } (some err)) :=
  ⟨(status_check_precedes_decoding
      (sampleClient (some { StatusCode := 500, Body := some sampleAddressBody }, none))
      (some { StatusCode := 500, Body := some sampleAddressBody }, none)
      (Or.inr ⟨_, _, rfl, rfl, by decide⟩)).1 [] sampleAddressZipRequest (by decide) rfl,
   (status_check_precedes_decoding (sampleClient (none, some (.foreign "fail")))
      (none, some (.foreign "fail")) (Or.inl ⟨_, rfl⟩)).2.1 "CODE" []
      sampleSearchcodeRequest (by decide) rfl,
   (status_check_precedes_decoding
      (sampleClient (some { StatusCode := 403, Body := some sampleTokenBody }, none))
      (some { StatusCode := 403, Body := some sampleTokenBody }, none)
      (Or.inr ⟨_, _, rfl, rfl, by decide⟩)).2.2 sampleTokenRequest (by decide) rfl⟩

/-! ## The operations leave the client alone (C18) -/

theorem doM_fst (req : Request) (c : Client) : (Client.doM req c).1 = c.do_ req := by
  unfold Client.doM Client.HasTokenM Client.do_ Client.decorate Client.HasToken
  simp only [decide_not]

theorem doM_snd (req : Request) (c : Client) : (Client.doM req c).2 = c := rfl

/-- C18: as methods on the client state, AddressZip, Searchcode and GetToken
return the results of the operations and leave the client as it was, on every
path: version, origin, credentials, caller IP, partner ID, token and transport
are unchanged.  In particular HasToken after GetToken is HasToken before it,
whatever token the answer carries. -/
theorem operations_keep_client (c : Client) :
    (∀ (dec : Decoder AddressResponse) (opts : List addressRequestOption),
      Client.AddressZipM dec opts c = (c.AddressZip dec opts, c)) ∧
    (∀ (dec : Decoder SearchcodeResponse) (code : String) (opts : List searchcodeOption),
      Client.SearchcodeM dec code opts c = (c.Searchcode dec code opts, c)) ∧
    (∀ (dec : Decoder TokenResponse),
      Client.GetTokenM dec c = (c.GetToken dec, c) ∧
      (Client.HasTokenM (Client.GetTokenM dec c).2).1 = (Client.HasTokenM c).1) := by
  have h3 : ∀ dec : Decoder TokenResponse, Client.GetTokenM dec c = (c.GetToken dec, c) := by
    intro dec
    unfold Client.GetTokenM Client.GetToken
    cases getTokenRequest c with
    | error e => rfl
    | ok req => simp only [doM_fst, doM_snd]
  refine ⟨?_, ?_, fun dec => ⟨h3 dec, by rw [h3]⟩⟩
  · intro dec opts
    unfold Client.AddressZipM Client.AddressZip
    cases addressZipRequest c opts with
    | error e => rfl
    | ok req => simp only [doM_fst, doM_snd]
  · intro dec code opts
    unfold Client.SearchcodeM Client.Searchcode
    cases searchcodeHTTPRequest c code opts with
    | error e => rfl
    | ok req => simp only [doM_fst, doM_snd]

/-! ## The headers set by `do` (C13) -/

set_option maxRecDepth 100000 in
/-- The dummy request of the package tests is what `http.NewRequest` makes of
`GET origin/test`. -/
theorem sampleDummyRequest_built :
    httpNewRequest "GET" (utf8 "https://api.example.com/test") none = .ok sampleDummyRequest := by
  decide

theorem setTokenM_stores (token : String) (c : Client) :
    (Client.HasTokenM (Client.SetTokenM token c).2).1 = decide (token ≠ "") := rfl

theorem lookup_put_same (key : String) (values : List String) (h : Header) :
    (Header.put key values h).lookup key = some values := by
  induction h with
  | nil => simp [Header.put, List.lookup]
  | cons kv rest ih =>
    obtain ⟨k, vs⟩ := kv
    unfold Header.put
    by_cases hk : k = key
    · rw [if_pos hk]
      subst hk
      simp [List.lookup]
    · rw [if_neg hk]
      have : (key == k) = false := by
        rw [beq_eq_false_iff_ne]
        exact fun h => hk h.symm
      rw [List.lookup, this]
      exact ih

theorem lookup_put_ne (key k2 : String) (values : List String) (h : Header) (hne : k2 ≠ key) :
    (Header.put key values h).lookup k2 = h.lookup k2 := by
  induction h with
  | nil =>
    have : (k2 == key) = false := by
      rw [beq_eq_false_iff_ne]
      exact hne
    simp [Header.put, List.lookup, this]
  | cons kv rest ih =>
    obtain ⟨k, vs⟩ := kv
    unfold Header.put
    by_cases hk : k = key
    · rw [if_pos hk]
      subst hk
      have : (k2 == k) = false := by
        rw [beq_eq_false_iff_ne]
        exact hne
      simp [List.lookup, this]
    · rw [if_neg hk]
      by_cases h2 : k2 = k
      · subst h2
        simp [List.lookup]
      · have : (k2 == k) = false := by
          rw [beq_eq_false_iff_ne]
          exact h2
        rw [List.lookup, List.lookup, this]
        exact ih

theorem canonical_contentType : CanonicalMIMEHeaderKey "Content-Type" = "Content-Type" := by
  decide

theorem canonical_forwardedFor :
    CanonicalMIMEHeaderKey "x-forwarded-for" = "X-Forwarded-For" := by
  decide

theorem canonical_authorization : CanonicalMIMEHeaderKey "Authorization" = "Authorization" := by
  decide

/-- The header map after the `Header.Set` calls of `do`. -/
theorem decorate_lookup (c : Client) (req : Request) :
    (c.decorate req).Header.lookup "Content-Type" = some ["application/json"] ∧
    (c.decorate req).Header.lookup "X-Forwarded-For" = some [c.myip] ∧
    (c.decorate req).Header.lookup "Authorization" =
      (if c.token = "" then req.Header.lookup "Authorization"
       else some ["Bearer " ++ c.token]) ∧
    ∀ k, k ≠ "Content-Type" → k ≠ "X-Forwarded-For" → k ≠ "Authorization" →
      (c.decorate req).Header.lookup k = req.Header.lookup k := by
  unfold Client.decorate Client.HasToken Header.Set
  rw [canonical_contentType, canonical_forwardedFor, canonical_authorization]
  by_cases ht : c.token = ""
  · simp only [ht, ne_eq, not_true_eq_false, decide_False, Bool.false_eq_true, if_false, if_true]
    refine ⟨?_, ?_, ?_, ?_⟩
    · rw [lookup_put_ne _ _ _ _ (by decide), lookup_put_same]
    · rw [lookup_put_same]
    · rw [lookup_put_ne _ _ _ _ (by decide), lookup_put_ne _ _ _ _ (by decide)]
    · intro k h1 h2 _
      rw [lookup_put_ne _ _ _ _ h2, lookup_put_ne _ _ _ _ h1]
  · simp only [ht, ne_eq, not_false_eq_true, decide_True, if_true, if_false]
    refine ⟨?_, ?_, ?_, ?_⟩
    · rw [lookup_put_ne _ _ _ _ (by decide), lookup_put_ne _ _ _ _ (by decide),
        lookup_put_same]
    · rw [lookup_put_ne _ _ _ _ (by decide), lookup_put_same]
    · rw [lookup_put_same]
    · intro k h1 h2 h3
      rw [lookup_put_ne _ _ _ _ h3, lookup_put_ne _ _ _ _ h2, lookup_put_ne _ _ _ _ h1]

/-- C13: for a request without Authorization header, `do` hands the transport
the same request with the headers Content-Type `application/json`,
x-forwarded-for the caller IP and, exactly when the token is not empty,
Authorization `Bearer ` followed by the token; every other header and the rest
of the request are as before; and `do` returns what the transport returns. -/
theorem do_sets_headers (c : Client) (req : Request)
    (hauth : req.Header.lookup (CanonicalMIMEHeaderKey "Authorization") = none) :
    c.do_ req = c.doFunc (c.decorate req) ∧
    (c.decorate req).Header.Get "Content-Type" = "application/json" ∧
    (c.decorate req).Header.Get "x-forwarded-for" = c.myip ∧
    ((c.decorate req).Header.lookup (CanonicalMIMEHeaderKey "Authorization") ≠ none ↔
      c.HasToken = true) ∧
    (c.HasToken = true →
      (c.decorate req).Header.lookup (CanonicalMIMEHeaderKey "Authorization") =
        some ["Bearer " ++ c.token] ∧
      (c.decorate req).Header.Get "Authorization" = "Bearer " ++ c.token) ∧
    (c.HasToken = false → (c.decorate req).Header.Get "Authorization" = "") ∧
    (∀ k, k ≠ "Content-Type" → k ≠ "X-Forwarded-For" → k ≠ "Authorization" →
      (c.decorate req).Header.lookup k = req.Header.lookup k) ∧
    (c.decorate req).Method = req.Method ∧ (c.decorate req).URL = req.URL ∧
    (c.decorate req).Body = req.Body ∧ (c.decorate req).Host = req.Host := by
  obtain ⟨h1, h2, h3, h4⟩ := decorate_lookup c req
  rw [canonical_authorization] at hauth ⊢
  rw [hauth] at h3
  have hget : ∀ k, (c.decorate req).Header.Get k =
      match (c.decorate req).Header.lookup (CanonicalMIMEHeaderKey k) with
      | some (x :: _) => x
      | _ => "" := fun k => rfl
  refine ⟨rfl, ?_, ?_, ?_, ?_, ?_, h4, rfl, rfl, rfl, rfl⟩
  · rw [hget, canonical_contentType, h1]
  · rw [hget, canonical_forwardedFor, h2]
  · rw [h3]
    by_cases ht : c.token = "" <;> simp [Client.HasToken, ht]
  · intro ht
    have ht2 : c.token ≠ "" := by simpa [Client.HasToken] using ht
    rw [hget, canonical_authorization, h3, if_neg ht2]
    exact ⟨rfl, rfl⟩
  · intro ht
    have ht2 : c.token = "" := by simpa [Client.HasToken] using ht
    rw [hget, canonical_authorization, h3, if_pos ht2]

set_option maxRecDepth 100000 in
theorem do_sets_headers_witness :
    (((sampleClient (none, none)).SetToken "test-token").decorate sampleDummyRequest).Header =
      [("Content-Type", ["application/json"]), ("X-Forwarded-For", ["1.2.3.4"]),
       ("Authorization", ["Bearer test-token"])] ∧
    (((sampleClient (none, none)).SetToken "test-token").decorate
      sampleDummyRequest).Header.Get "Authorization" = "Bearer test-token" ∧
    ((sampleClient (none, none)).decorate sampleDummyRequest).Header.Get "Authorization" = "" :=
  ⟨by decide,
   ((do_sets_headers ((sampleClient (none, none)).SetToken "test-token") sampleDummyRequest
      (by decide)).2.2.2.2.1 (by decide)).2,
   (do_sets_headers (sampleClient (none, none)) sampleDummyRequest
      (by decide)).2.2.2.2.2.1 (by decide)⟩

/-! ## Query parameters read back -/

theorem unescape_single (mode : Encoding) : ∃ e, unescape mode [37] = .error e := by
  rw [unescape.eq_def]
  exact ⟨_, rfl⟩

theorem unescape_pair (mode : Encoding) (x : Nat) : ∃ e, unescape mode [37, x] = .error e := by
  rw [unescape.eq_def]
  exact ⟨_, rfl⟩

theorem unhex_le (c : Nat) : unhex c ≤ 15 := by
  unfold unhex
  split
  · omega
  · split
    · omega
    · split <;> omega

/-- The shape of a successful unescaping, step by step. -/
theorem unescape_ok_cases (mode : Encoding) (s t : Bytes) (h : unescape mode s = .ok t) :
    (s = [] ∧ t = []) ∨
    (∃ a b rest t2, s = 37 :: a :: b :: rest ∧ t = (unhex a * 16 + unhex b) :: t2 ∧
      unescape mode rest = .ok t2 ∧ ishex a = true ∧ ishex b = true ∧
      ¬ (mode = .encodeHost ∧ unhex a < 8 ∧ ¬ (a = 50 ∧ b = 53)) ∧
      ¬ (mode = .encodeZone ∧ ¬ (a = 50 ∧ b = 53) ∧ unhex a * 16 + unhex b ≠ 32
          ∧ shouldEscape (unhex a * 16 + unhex b) .encodeHost = true)) ∨
    (∃ c rest t2, s = c :: rest ∧ c ≠ 37 ∧
      t = (if c = 43 ∧ mode = .encodeQueryComponent then 32 else c) :: t2 ∧
      unescape mode rest = .ok t2 ∧
      ¬ ((mode = .encodeHost ∨ mode = .encodeZone) ∧ c < 128 ∧
          shouldEscape c .encodeHost = true)) := by
  cases s with
  | nil =>
    left
    rw [unescape] at h
    exact ⟨rfl, (Except.ok.inj h).symm⟩
  | cons c rest =>
    right
    by_cases hc : c = 37
    · subst hc
      left
      match rest, h with
      | [], h =>
        obtain ⟨e, he⟩ := unescape_single mode
        rw [he] at h; cases h
      | [x], h =>
        obtain ⟨e, he⟩ := unescape_pair mode x
        rw [he] at h; cases h
      | a :: b :: rest2, h =>
        rw [unescape_percent] at h
        by_cases c1 : ¬ (ishex a = true ∧ ishex b = true)
        · rw [if_pos c1] at h; cases h
        · rw [if_neg c1] at h
          by_cases c2 : mode = .encodeHost ∧ unhex a < 8 ∧ ¬ (a = 50 ∧ b = 53)
          · rw [if_pos c2] at h; cases h
          · rw [if_neg c2] at h
            by_cases c3 : mode = .encodeZone ∧ ¬ (a = 50 ∧ b = 53) ∧
                unhex a * 16 + unhex b ≠ 32 ∧
                shouldEscape (unhex a * 16 + unhex b) .encodeHost = true
            · rw [if_pos c3] at h; cases h
            · rw [if_neg c3] at h
              cases hr : unescape mode rest2 with
              | error e => rw [hr] at h; cases h
              | ok t2 =>
                rw [hr] at h
                have c1 := not_not.mp c1
                exact ⟨a, b, rest2, t2, rfl, (Except.ok.inj h).symm, hr, c1.1, c1.2, c2, c3⟩
    · right
      rw [unescape_cons_of_ne _ _ _ hc] at h
      by_cases c1 : (mode = .encodeHost ∨ mode = .encodeZone) ∧ c < 128 ∧
          shouldEscape c .encodeHost = true
      · rw [if_pos c1] at h; cases h
      · rw [if_neg c1] at h
        cases hr : unescape mode rest with
        | error e => rw [hr] at h; cases h
        | ok t2 =>
          rw [hr] at h
          exact ⟨c, rest, t2, rfl, hc, (Except.ok.inj h).symm, hr, c1⟩

theorem unescape_lt_aux (mode : Encoding) : ∀ (n : Nat) (s t : Bytes), s.length ≤ n →
    (∀ b ∈ s, b < 256) → unescape mode s = .ok t → ∀ b ∈ t, b < 256 := by
  intro n
  induction n with
  | zero =>
    intro s t hn _ h
    have hs : s = [] := List.length_eq_zero.mp (Nat.le_zero.mp hn)
    subst hs
    rw [unescape] at h
    have := Except.ok.inj h
    subst this
    simp
  | succ n ih =>
    intro s t hn hb h
    rcases unescape_ok_cases mode s t h with ⟨_, ht⟩ | ⟨a, b, rest, t2, hs, ht, hr, _⟩ |
      ⟨c, rest, t2, hs, _, ht, hr, _⟩
    · subst ht; simp
    · subst hs ht
      have hlen : rest.length ≤ n := by simp at hn; omega
      have hrest : ∀ x ∈ rest, x < 256 := fun x hx => hb x (by simp [hx])
      have := ih rest t2 hlen hrest hr
      intro x hx
      simp only [List.mem_cons] at hx
      rcases hx with hx | hx
      · have := unhex_le a
        have := unhex_le b
        omega
      · exact this x hx
    · subst hs ht
      have hlen : rest.length ≤ n := by simp at hn; omega
      have hrest : ∀ x ∈ rest, x < 256 := fun x hx => hb x (by simp [hx])
      have := ih rest t2 hlen hrest hr
      intro x hx
      simp only [List.mem_cons] at hx
      rcases hx with hx | hx
      · have := hb c (by simp)
        split at hx <;> omega
      · exact this x hx

/-- Unescaping bytes gives bytes. -/
theorem unescape_lt (mode : Encoding) (s t : Bytes) (hb : ∀ b ∈ s, b < 256)
    (h : unescape mode s = .ok t) : ∀ b ∈ t, b < 256 :=
  unescape_lt_aux mode s.length s t (Nat.le_refl _) hb h

theorem unescape_nil (mode : Encoding) : unescape mode [] = .ok [] := by
  rw [unescape]

theorem shouldEscape_percent (mode : Encoding) : shouldEscape 37 mode = true := by
  cases mode <;> rfl

theorem cutLast_of_form (sep : Nat) (a b : Bytes) (h : sep ∉ b) :
    cutLast sep (a ++ sep :: b) = some (a, b) := by
  induction a with
  | nil =>
    simp only [List.nil_append]
    rw [cutLast, cutLast_not_mem sep b h]
    simp
  | cons c a ih =>
    simp only [List.cons_append]
    rw [cutLast, ih]

theorem cutAtSub_percent_some (s a b : Bytes) (h : cutAtSub [37, 50, 53] s = some (a, b)) :
    ∃ rest, b = 37 :: 50 :: 53 :: rest := by
  induction s generalizing a with
  | nil => simp [cutAtSub] at h
  | cons c rest ih =>
    rw [cutAtSub] at h
    by_cases hp : ([37, 50, 53] : Bytes).isPrefixOf (c :: rest) = true
    · rw [if_pos hp] at h
      simp only [Option.some.injEq, Prod.mk.injEq] at h
      obtain ⟨_, h2⟩ := h
      subst h2
      match c, rest, hp with
      | _, [], hp => simp [List.isPrefixOf] at hp
      | _, [_], hp => simp [List.isPrefixOf] at hp
      | c, d :: e :: rest3, hp =>
        simp only [List.isPrefixOf, Bool.and_eq_true, beq_iff_eq, Bool.and_true] at hp
        obtain ⟨h1, h2, h3⟩ := hp
        subst h1 h2 h3
        exact ⟨rest3, rfl⟩
    · rw [if_neg hp] at h
      cases hr : cutAtSub [37, 50, 53] rest with
      | none => rw [hr] at h; cases h
      | some r =>
        obtain ⟨a2, b2⟩ := r
        rw [hr] at h
        simp only [Option.some.injEq, Prod.mk.injEq] at h
        obtain ⟨_, h2⟩ := h
        subst h2
        exact ih a2 hr

theorem hostByte_props (b : Nat) (h : shouldEscape b .encodeHost = false) :
    32 ≤ b ∧ b < 127 ∧ b ≠ 35 ∧ b ≠ 63 ∧ b ≠ 47 ∧ b ≠ 64 ∧ b ≠ 37 ∧ b ≠ 92 := by
  by_contra hne
  have hb : b < 32 ∨ 127 ≤ b ∨ b = 35 ∨ b = 63 ∨ b = 47 ∨ b = 64 ∨ b = 37 ∨ b = 92 := by omega
  have : shouldEscape b .encodeHost = true := by
    rcases hb with hb | hb | hb | hb | hb | hb | hb | hb
    · interval_cases b <;> rfl
    · unfold shouldEscape isAlnum hostSubDelim isReserved
      simp
      omega
    all_goals (subst hb; rfl)
  rw [h] at this
  cases this

theorem validOptionalPort_bytes (p : Bytes) (h : validOptionalPort p = true) :
    ∀ b ∈ p, b = 58 ∨ (48 ≤ b ∧ b ≤ 57) := by
  cases p with
  | nil => simp
  | cons c rest =>
    simp only [validOptionalPort, Bool.and_eq_true, decide_eq_true_eq, List.all_eq_true] at h
    intro b hb
    simp only [List.mem_cons] at hb
    rcases hb with hb | hb
    · left; rw [hb]; exact h.1
    · right; exact h.2 b hb

theorem shouldEscape_port (b : Nat) (h : b = 58 ∨ (48 ≤ b ∧ b ≤ 57)) :
    shouldEscape b .encodeHost = false := by
  rcases h with h | ⟨h1, h2⟩
  · subst h; rfl
  · interval_cases b <;> rfl

theorem unescape_host_id (s : Bytes) (h : ∀ b ∈ s, shouldEscape b .encodeHost = false) :
    unescape .encodeHost s = .ok s := by
  induction s with
  | nil => rfl
  | cons c rest ih =>
    have hc := h c (by simp)
    have hrest : ∀ b ∈ rest, shouldEscape b .encodeHost = false := fun b hb => h b (by simp [hb])
    have hne : c ≠ 37 := (hostByte_props c hc).2.2.2.2.2.2.1
    rw [unescape_cons_of_ne _ _ _ hne, ih hrest, hc]
    simp

theorem append_cons_split (pre after bc cp : Bytes)
    (h : pre ++ 91 :: after = bc ++ 93 :: cp) (h2 : 91 ∉ cp) :
    ∃ x, after = x ++ 93 :: cp := by
  have h3 : (pre ++ [91]) ++ after = bc ++ 93 :: cp := by simpa using h
  rcases List.append_eq_append_iff.mp h3 with ⟨t, _, ht2⟩ | ⟨t, ht1, ht2⟩
  · exact ⟨t, ht2⟩
  · cases t with
    | nil =>
      simp only [List.nil_append] at ht2
      exact ⟨[], by rw [← ht2]; rfl⟩
    | cons d t =>
      exfalso
      have hlast : (d :: t).getLast? = some 91 := by
        have h4 : (bc ++ d :: t).getLast? = some 91 := by
          rw [← ht1]; exact List.getLast?_concat _
        rw [List.getLast?_append_of_ne_nil _ (by simp)] at h4
        exact h4
      have hmem : 91 ∈ d :: t := List.mem_of_getLast?_eq_some hlast
      have : 91 ∈ 93 :: cp := by
        rw [ht2]; exact List.mem_append_left _ hmem
      simp only [List.mem_cons] at this
      rcases this with this | this
      · cases this
      · exact h2 this

theorem stringsCut_snd_subset (sep : Nat) (r : Bytes) :
    ∀ b ∈ (stringsCut sep r).2.1, b ∈ r := by
  induction r with
  | nil => simp [stringsCut]
  | cons c rest ih =>
    intro b hb
    rw [stringsCut] at hb
    split at hb
    · exact List.mem_cons_of_mem _ hb
    · exact List.mem_cons_of_mem _ (ih b hb)

/-- What `parseAuthority` gives: a host that `parseHost` gives, and a user
part made of bytes. -/
theorem parseAuthority_cases (A : Bytes) (usr : Option Userinfo) (H : Bytes)
    (hA : ∀ b ∈ A, b < 256) (h : parseAuthority A = .ok (usr, H)) :
    (∃ hp, (∀ b ∈ hp, b < 256) ∧ parseHost hp = .ok H) ∧ userinfoOK usr := by
  unfold parseAuthority at h
  cases hc : cutLast 64 A with
  | none =>
    rw [hc] at h
    simp only at h
    cases hp : parseHost A with
    | error e => rw [hp] at h; cases h
    | ok host =>
      rw [hp] at h
      simp only [Except.ok.injEq, Prod.mk.injEq] at h
      obtain ⟨h1, h2⟩ := h
      subst h1 h2
      exact ⟨⟨A, hA, hp⟩, trivial⟩
  | some p =>
    obtain ⟨ui, hpart⟩ := p
    rw [hc] at h
    simp only at h
    obtain ⟨hA2, _⟩ := cutLast_rebuild 64 A ui hpart hc
    have hui : ∀ b ∈ ui, b < 256 := fun b hb => hA b (by rw [hA2]; exact List.mem_append_left _ hb)
    have hpl : ∀ b ∈ hpart, b < 256 := fun b hb => hA b (by rw [hA2]; simp [hb])
    cases hp : parseHost hpart with
    | error e => rw [hp] at h; cases h
    | ok host =>
      rw [hp] at h
      simp only at h
      split at h
      · cases h
      · split at h
        · cases hn : unescape .encodeUserPassword ui with
          | error e => rw [hn] at h; cases h
          | ok name =>
            rw [hn] at h
            simp only [Except.ok.injEq, Prod.mk.injEq] at h
            obtain ⟨h1, h2⟩ := h
            subst h1 h2
            exact ⟨⟨hpart, hpl, hp⟩, unescape_lt _ _ _ hui hn, fun b hb => absurd hb (List.not_mem_nil b), fun _ => rfl⟩
        · cases hn : unescape .encodeUserPassword (stringsCut 58 ui).1 with
          | error e => rw [hn] at h; cases h
          | ok name =>
            rw [hn] at h
            simp only at h
            cases hw : unescape .encodeUserPassword (stringsCut 58 ui).2.1 with
            | error e => rw [hw] at h; cases h
            | ok pw =>
              rw [hw] at h
              simp only [Except.ok.injEq, Prod.mk.injEq] at h
              obtain ⟨h1, h2⟩ := h
              subst h1 h2
              refine ⟨⟨hpart, hpl, hp⟩, ?_, ?_, ?_⟩
              · exact unescape_lt _ _ _ (fun b hb => hui b (stringsCut_fst_subset 58 ui b hb)) hn
              · exact unescape_lt _ _ _ (fun b hb => hui b (stringsCut_snd_subset 58 ui b hb)) hw
              · intro hf; cases hf

/-! ## Hosts, in general -/

theorem escape_append (mode : Encoding) (a b : Bytes) :
    escape mode (a ++ b) = escape mode a ++ escape mode b := by
  induction a with
  | nil => simp [escape]
  | cons c rest ih =>
    simp only [List.cons_append]
    rw [escape_cons, escape_cons, ih]
    split
    · rfl
    · split <;> rfl

theorem mem_escape_host (s : Bytes) (h : ∀ b ∈ s, b < 256) (b : Nat)
    (hb : b ∈ escape .encodeHost s) :
    (b ∈ s ∧ shouldEscape b .encodeHost = false) ∨ b = 37 ∨ isAlnum b = true := by
  induction s with
  | nil => simp [escape] at hb
  | cons c rest ih =>
    have hc : c < 256 := h c (by simp)
    have hrest : ∀ b ∈ rest, b < 256 := fun b hb => h b (by simp [hb])
    rw [escape_cons, if_neg (by simp)] at hb
    have hstep : b ∈ escape .encodeHost rest →
        (b ∈ c :: rest ∧ shouldEscape b .encodeHost = false) ∨ b = 37 ∨ isAlnum b = true := by
      intro hm
      rcases ih hrest hm with h1 | h1
      · exact Or.inl ⟨List.mem_cons_of_mem _ h1.1, h1.2⟩
      · exact Or.inr h1
    by_cases hse : shouldEscape c .encodeHost = true
    · rw [if_pos hse] at hb
      simp only [List.mem_cons] at hb
      rcases hb with hb | hb | hb | hb
      · exact Or.inr (Or.inl hb)
      · exact Or.inr (Or.inr (by rw [hb]; exact upperhex_alnum _ (by omega)))
      · exact Or.inr (Or.inr (by rw [hb]; exact upperhex_alnum _ (by omega)))
      · exact hstep hb
    · rw [if_neg hse] at hb
      simp only [List.mem_cons] at hb
      rcases hb with hb | hb
      · left
        rw [hb]
        exact ⟨by simp, by simpa using hse⟩
      · exact hstep hb

theorem unescape_host_bytes_aux : ∀ (n : Nat) (r A : Bytes), r.length ≤ n →
    unescape .encodeHost r = .ok A →
    ∀ b ∈ A, 128 ≤ b ∨ b = 37 ∨ (b ∈ r ∧ shouldEscape b .encodeHost = false) := by
  intro n
  induction n with
  | zero =>
    intro r A hn h
    have hs : r = [] := List.length_eq_zero.mp (Nat.le_zero.mp hn)
    subst hs
    rw [unescape] at h
    have := Except.ok.inj h
    subst this
    simp
  | succ n ih =>
    intro r A hn h
    rcases unescape_ok_cases _ _ _ h with ⟨_, ht⟩ | ⟨x, y, rest, t2, hs, ht, hr, _, _, c2, _⟩ |
      ⟨c, rest, t2, hs, hc, ht, hr, c1⟩
    · subst ht; simp
    · subst hs ht
      have hlen : rest.length ≤ n := by simp at hn; omega
      intro b hb
      simp only [List.mem_cons] at hb
      rcases hb with hb | hb
      · by_cases h25 : x = 50 ∧ y = 53
        · obtain ⟨hx2, hy2⟩ := h25
          subst hx2 hy2
          right; left
          rw [hb]
          decide
        · have : ¬ unhex x < 8 := fun hlt => c2 ⟨rfl, hlt, h25⟩
          left
          omega
      · rcases ih rest t2 hlen hr b hb with h1 | h1 | h1
        · exact Or.inl h1
        · exact Or.inr (Or.inl h1)
        · exact Or.inr (Or.inr ⟨by simp [h1.1], h1.2⟩)
    · subst hs ht
      have hlen : rest.length ≤ n := by simp at hn; omega
      have hc2 : (if c = 43 ∧ Encoding.encodeHost = Encoding.encodeQueryComponent then 32 else c)
          = c := by
        rw [if_neg (by simp)]
      rw [hc2]
      intro b hb
      simp only [List.mem_cons] at hb
      rcases hb with hb | hb
      · by_cases h128 : 128 ≤ b
        · exact Or.inl h128
        · right; right
          rw [hb]
          refine ⟨by simp, ?_⟩
          by_contra hne
          exact c1 ⟨Or.inl rfl, by omega, by simpa using hne⟩
      · rcases ih rest t2 hlen hr b hb with h1 | h1 | h1
        · exact Or.inl h1
        · exact Or.inr (Or.inl h1)
        · exact Or.inr (Or.inr ⟨by simp [h1.1], h1.2⟩)

/-- A byte of an unescaped host is not ASCII, or `%`, or stood in the text as
it is. -/
theorem unescape_host_bytes (r A : Bytes) (h : unescape .encodeHost r = .ok A) :
    ∀ b ∈ A, 128 ≤ b ∨ b = 37 ∨ (b ∈ r ∧ shouldEscape b .encodeHost = false) :=
  unescape_host_bytes_aux r.length r A (Nat.le_refl _) h

/-- Escaping and unescaping a host. -/
theorem unescape_escape_host (A : Bytes)
    (h : ∀ b ∈ A, b < 256 ∧ (shouldEscape b .encodeHost = true → 128 ≤ b ∨ b = 37)) :
    unescape .encodeHost (escape .encodeHost A) = .ok A := by
  induction A with
  | nil => rfl
  | cons c rest ih =>
    obtain ⟨hc, hc2⟩ := h c (by simp)
    have hrest : ∀ b ∈ rest, b < 256 ∧ (shouldEscape b .encodeHost = true → 128 ≤ b ∨ b = 37) :=
      fun b hb => h b (by simp [hb])
    rw [escape_cons, if_neg (by simp)]
    by_cases hse : shouldEscape c .encodeHost = true
    · rw [if_pos hse, unescape_percent, ih hrest]
      have h1 : c / 16 < 16 := by omega
      have h2 : c % 16 < 16 := by omega
      rw [if_neg (by simp [ishex_upperhex _ h1, ishex_upperhex _ h2])]
      have hcond : ¬ (Encoding.encodeHost = Encoding.encodeHost ∧ unhex (upperhex (c / 16)) < 8 ∧
          ¬ (upperhex (c / 16) = 50 ∧ upperhex (c % 16) = 53)) := by
        rw [unhex_upperhex _ h1]
        rintro ⟨_, h8, hne⟩
        rcases hc2 hse with h128 | h37
        · omega
        · subst h37
          exact hne (by decide)
      rw [if_neg hcond, if_neg (by simp)]
      simp only [unhex_upperhex _ h1, unhex_upperhex _ h2]
      have : c / 16 * 16 + c % 16 = c := by omega
      rw [this]
    · rw [if_neg hse]
      have hne : c ≠ 37 := by
        intro e; subst e; exact hse (shouldEscape_percent _)
      rw [unescape_cons_of_ne _ _ _ hne, ih hrest, if_neg (by simp [hse])]
      simp

theorem unescape_split_aux (mode : Encoding) (c : Nat) (b : Bytes) (hc : ishex c = false) :
    ∀ (n : Nat) (a p : Bytes), a.length ≤ n →
    unescape mode (a ++ c :: b) = .ok p →
    ∃ A B, unescape mode a = .ok A ∧ unescape mode (c :: b) = .ok B ∧ p = A ++ B := by
  intro n
  induction n with
  | zero =>
    intro a p hn h
    have hs : a = [] := List.length_eq_zero.mp (Nat.le_zero.mp hn)
    subst hs
    exact ⟨[], p, unescape_nil mode, h, rfl⟩
  | succ n ih =>
    intro a p hn h
    cases a with
    | nil => exact ⟨[], p, unescape_nil mode, h, rfl⟩
    | cons d rest =>
      rcases unescape_ok_cases _ _ _ h with ⟨hs, _⟩ | ⟨x, y, r2, t2, hs, ht, hr, hx, hy, c2, c3⟩ |
        ⟨c0, r2, t2, hs, hc0, ht, hr, c1⟩
      · cases hs
      · simp only [List.cons_append] at hs
        injection hs with h1 h2
        subst h1
        match rest, h2, hn with
        | [], h2, _ =>
          injection h2 with h3 h4
          subst h3
          rw [hx] at hc
          cases hc
        | [z], h2, _ =>
          injection h2 with h3 h4
          injection h4 with h5 h6
          subst h5
          rw [hy] at hc
          cases hc
        | z :: w :: rest3, h2, hn =>
          simp only [List.cons_append] at h2
          injection h2 with h3 h4
          injection h4 with h5 h6
          subst h3 h5 h6
          have hlen : rest3.length ≤ n := by simp at hn; omega
          obtain ⟨A, B, hb1, hb2, hb3⟩ := ih rest3 t2 hlen hr
          refine ⟨(unhex z * 16 + unhex w) :: A, B, ?_, hb2, ?_⟩
          · rw [unescape_percent, if_neg (by simp [hx, hy]), if_neg c2, if_neg c3, hb1]
          · rw [ht, hb3]; rfl
      · simp only [List.cons_append] at hs
        injection hs with h1 h2
        subst h1 h2
        have hlen : rest.length ≤ n := by simp at hn; omega
        obtain ⟨A, B, hb1, hb2, hb3⟩ := ih rest t2 hlen hr
        refine ⟨(if d = 43 ∧ mode = .encodeQueryComponent then 32 else d) :: A, B, ?_, hb2, ?_⟩
        · rw [unescape_cons_of_ne _ _ _ hc0, if_neg c1, hb1]
        · rw [ht, hb3]; rfl

/-- Unescaping a text splits in front of a byte that is not a
hexadecimal digit (nor, thus, part of an escape). -/
theorem unescape_split (mode : Encoding) (a b p : Bytes) (c : Nat) (hc : ishex c = false)
    (h : unescape mode (a ++ c :: b) = .ok p) :
    ∃ A B, unescape mode a = .ok A ∧ unescape mode (c :: b) = .ok B ∧ p = A ++ B :=
  unescape_split_aux mode c b hc a.length a p (Nat.le_refl _) h

theorem stringsCut_not_found (sep : Nat) (r : Bytes) (h : (stringsCut sep r).2.2 = false) :
    sep ∉ r := by
  induction r with
  | nil => simp
  | cons c rest ih =>
    rw [stringsCut] at h
    split at h
    · cases h
    · rename_i hc
      simp only [List.mem_cons, not_or]
      exact ⟨fun e => hc e.symm, ih h⟩

theorem cutAtSub_cons_some (pat : Bytes) (c : Nat) (l a b : Bytes)
    (h : cutAtSub pat (c :: l) = some (c :: a, b)) :
    pat.isPrefixOf (c :: l) = false ∧ cutAtSub pat l = some (a, b) := by
  rw [cutAtSub] at h
  by_cases hp : pat.isPrefixOf (c :: l) = true
  · rw [if_pos hp] at h
    simp at h
  · rw [if_neg hp] at h
    refine ⟨Bool.eq_false_iff.mpr hp, ?_⟩
    cases hr : cutAtSub pat l with
    | none => rw [hr] at h; cases h
    | some q =>
      obtain ⟨a2, b2⟩ := q
      rw [hr] at h
      simp only [Option.some.injEq, Prod.mk.injEq, List.cons.injEq, true_and] at h
      rw [h.1, h.2]

theorem cutAtSub_cons_none (pat : Bytes) (c : Nat) (l : Bytes)
    (h : cutAtSub pat (c :: l) = none) :
    pat.isPrefixOf (c :: l) = false ∧ cutAtSub pat l = none := by
  rw [cutAtSub] at h
  by_cases hp : pat.isPrefixOf (c :: l) = true
  · rw [if_pos hp] at h
    cases h
  · rw [if_neg hp] at h
    refine ⟨Bool.eq_false_iff.mpr hp, ?_⟩
    cases hr : cutAtSub pat l with
    | none => rfl
    | some q =>
      obtain ⟨a2, b2⟩ := q
      rw [hr] at h
      cases h

theorem cutAtSub_rebuild (pat : Bytes) (s a b : Bytes) (h : cutAtSub pat s = some (a, b)) :
    s = a ++ b := by
  induction s generalizing a b with
  | nil =>
    rw [cutAtSub] at h
    split at h
    · simp only [Option.some.injEq, Prod.mk.injEq] at h
      rw [← h.1, ← h.2]
      rfl
    · cases h
  | cons c rest ih =>
    rw [cutAtSub] at h
    by_cases hp : pat.isPrefixOf (c :: rest) = true
    · rw [if_pos hp] at h
      simp only [Option.some.injEq, Prod.mk.injEq] at h
      rw [← h.1, ← h.2]
      rfl
    · rw [if_neg hp] at h
      cases hr : cutAtSub pat rest with
      | none => rw [hr] at h; cases h
      | some q =>
        obtain ⟨a2, b2⟩ := q
        rw [hr] at h
        simp only [Option.some.injEq, Prod.mk.injEq] at h
        rw [← h.1, ← h.2, List.cons_append, ← ih a2 b2 hr]

theorem percent_pattern (x y : Nat) (l : Bytes) :
    ([37, 50, 53] : Bytes).isPrefixOf (37 :: x :: y :: l) = true ↔ x = 50 ∧ y = 53 := by
  simp [List.isPrefixOf]
  constructor
  · rintro ⟨h1, h2⟩; exact ⟨h1.symm, h2.symm⟩
  · rintro ⟨h1, h2⟩; exact ⟨h1.symm, h2.symm⟩

theorem cutAtSub_step (c : Nat) (l b : Bytes)
    (h : cutAtSub [37, 50, 53] (c :: l ++ b) = some (c :: l, b) ∨
      (b = [] ∧ cutAtSub [37, 50, 53] (c :: l) = none)) :
    ([37, 50, 53] : Bytes).isPrefixOf (c :: (l ++ b)) = false ∧
    (cutAtSub [37, 50, 53] (l ++ b) = some (l, b) ∨
      (b = [] ∧ cutAtSub [37, 50, 53] l = none)) := by
  rcases h with h | ⟨hb, h⟩
  · simp only [List.cons_append] at h
    obtain ⟨h1, h2⟩ := cutAtSub_cons_some _ _ _ _ _ h
    exact ⟨h1, Or.inl h2⟩
  · subst hb
    obtain ⟨h1, h2⟩ := cutAtSub_cons_none _ _ _ h
    simp only [List.append_nil]
    exact ⟨h1, Or.inr ⟨trivial, h2⟩⟩

/-- The host part in front of the first `%25` (or a host text without `%25`)
unescapes to a text without `%`. -/
theorem unescape_host_no_percent_aux : ∀ (n : Nat) (a b A : Bytes), a.length ≤ n →
    (cutAtSub [37, 50, 53] (a ++ b) = some (a, b) ∨
      (b = [] ∧ cutAtSub [37, 50, 53] a = none)) →
    unescape .encodeHost a = .ok A → 37 ∉ A := by
  intro n
  induction n with
  | zero =>
    intro a b A hn _ h
    have hs : a = [] := List.length_eq_zero.mp (Nat.le_zero.mp hn)
    subst hs
    rw [unescape] at h
    have := Except.ok.inj h
    subst this
    simp
  | succ n ih =>
    intro a b A hn hcut h
    rcases unescape_ok_cases _ _ _ h with ⟨_, ht⟩ | ⟨x, y, rest, t2, hs, ht, hr, _, _, c2, _⟩ |
      ⟨c, rest, t2, hs, hc, ht, hr, c1⟩
    · subst ht; simp
    · subst hs
      obtain ⟨p1, q1⟩ := cutAtSub_step _ _ _ hcut
      obtain ⟨_, q2⟩ := cutAtSub_step _ _ _ q1
      obtain ⟨_, q3⟩ := cutAtSub_step _ _ _ q2
      have hlen : rest.length ≤ n := by simp at hn; omega
      have hrec := ih rest b t2 hlen q3 hr
      have hxy : ¬ (x = 50 ∧ y = 53) := by
        intro hxy
        have := (percent_pattern x y (rest ++ b)).mpr hxy
        simp only [List.cons_append] at p1
        rw [p1] at this
        cases this
      have h8 : ¬ unhex x < 8 := fun hlt => c2 ⟨rfl, hlt, hxy⟩
      rw [ht]
      simp only [List.mem_cons, not_or]
      exact ⟨by omega, hrec⟩
    · subst hs
      obtain ⟨_, q1⟩ := cutAtSub_step _ _ _ hcut
      have hlen : rest.length ≤ n := by simp at hn; omega
      have hrec := ih rest b t2 hlen q1 hr
      rw [ht, if_neg (by simp)]
      simp only [List.mem_cons, not_or]
      exact ⟨fun e => hc e.symm, hrec⟩

theorem upperhex_pair (c : Nat) (hne : c ≠ 37) :
    ¬ (upperhex (c / 16) = 50 ∧ upperhex (c % 16) = 53) := by
  unfold upperhex
  split <;> split <;> omega

theorem upperhex_ne_percent (n : Nat) : upperhex n ≠ 37 := by
  unfold upperhex
  split <;> omega

/-- Where `cutAtSub` finds the first `%25` in the escaped spelling of a host
text without `%`, followed by `t`: not inside the spelling. -/
theorem cutAtSub_escape (h1 t : Bytes) (hlt : ∀ b ∈ h1, b < 256) (h37 : 37 ∉ h1) :
    cutAtSub [37, 50, 53] (escape .encodeHost h1 ++ t) =
      match cutAtSub [37, 50, 53] t with
      | some (p, q) => some (escape .encodeHost h1 ++ p, q)
      | none => none := by
  induction h1 with
  | nil =>
    simp only [escape, List.nil_append]
    cases cutAtSub [37, 50, 53] t with
    | none => rfl
    | some q => rfl
  | cons c rest ih =>
    have hc : c < 256 := hlt c (by simp)
    have hne : c ≠ 37 := fun e => h37 (by simp [e])
    have hrest : ∀ b ∈ rest, b < 256 := fun b hb => hlt b (by simp [hb])
    have hr37 : 37 ∉ rest := fun e => h37 (by simp [e])
    have ih2 := ih hrest hr37
    have hraw : ∀ (d : Nat) (l : Bytes), d ≠ 37 →
        cutAtSub [37, 50, 53] (d :: l) =
          match cutAtSub [37, 50, 53] l with
          | some (a, b) => some (d :: a, b)
          | none => none := by
      intro d l hd
      rw [cutAtSub]
      have : ([37, 50, 53] : Bytes).isPrefixOf (d :: l) = false := by
        simp [List.isPrefixOf]
        intro e
        exact absurd e.symm hd
      rw [this]
      rfl
    rw [escape_cons, if_neg (by simp)]
    by_cases hse : shouldEscape c .encodeHost = true
    · rw [if_pos hse]
      simp only [List.cons_append]
      rw [cutAtSub]
      have hp : ([37, 50, 53] : Bytes).isPrefixOf
          (37 :: upperhex (c / 16) :: upperhex (c % 16) :: (escape .encodeHost rest ++ t)) =
          false := by
        rw [Bool.eq_false_iff]
        intro hh
        exact upperhex_pair c hne ((percent_pattern _ _ _).mp hh)
      rw [hp]
      simp only [Bool.false_eq_true, if_false]
      rw [hraw _ _ (upperhex_ne_percent _), hraw _ _ (upperhex_ne_percent _), ih2]
      cases cutAtSub [37, 50, 53] t with
      | none => rfl
      | some q => rfl
    · rw [if_neg hse]
      simp only [List.cons_append]
      rw [hraw _ _ hne, ih2]
      cases cutAtSub [37, 50, 53] t with
      | none => rfl
      | some q => rfl

theorem dropWhile_percent (pre rest : Bytes) (h : 37 ∉ pre) :
    (pre ++ 37 :: rest).dropWhile (fun b => b ≠ 37) = 37 :: rest := by
  induction pre with
  | nil => simp [List.dropWhile]
  | cons c l ih =>
    have hc : c ≠ 37 := fun e => h (by simp [e])
    have hl : 37 ∉ l := fun e => h (by simp [e])
    simp only [List.cons_append]
    rw [List.dropWhile_cons_of_pos (by simpa using hc)]
    exact ih hl

theorem unescape_zone_id (s : Bytes)
    (h : ∀ b ∈ s, shouldEscape b .encodeHost = false) :
    unescape .encodeZone s = .ok s := by
  induction s with
  | nil => rfl
  | cons c rest ih =>
    have hc := h c (by simp)
    have hrest : ∀ b ∈ rest, shouldEscape b .encodeHost = false := fun b hb => h b (by simp [hb])
    have hne : c ≠ 37 := (hostByte_props c hc).2.2.2.2.2.2.1
    rw [unescape_cons_of_ne _ _ _ hne, ih hrest, hc]
    simp

/-- Reading a bracketed host whose text between the brackets is `E`. -/
theorem parseHost_bracket (E cp uh : Bytes) (h91 : 91 ∉ E) (hvp : validOptionalPort cp = true)
    (hun : (∃ hp zp h1 h2, cutAtSub [37, 50, 53] E = some (hp, zp) ∧
        unescape .encodeHost hp = .ok h1 ∧ unescape .encodeZone zp = .ok h2 ∧
        uh = h1 ++ h2) ∨
      (cutAtSub [37, 50, 53] E = none ∧ unescape .encodeHost E = .ok uh))
    (hip : netipIsIPv6 uh = true) :
    parseHost (91 :: E ++ 93 :: cp) = .ok (91 :: uh ++ 93 :: cp) := by
  have hcpb := validOptionalPort_bytes cp hvp
  have hcpse : ∀ b ∈ cp, shouldEscape b .encodeHost = false :=
    fun b hb => shouldEscape_port b (hcpb b hb)
  have h91cp : 91 ∉ cp := by
    intro hm
    have := hcpb 91 hm
    omega
  have h93cp : 93 ∉ cp := by
    intro hm
    have := hcpb 93 hm
    omega
  have hform1 : 91 :: E ++ 93 :: cp = [] ++ 91 :: (E ++ 93 :: cp) := rfl
  have hc1 : cutLast 91 (91 :: E ++ 93 :: cp) = some ([], E ++ 93 :: cp) := by
    rw [hform1]
    apply cutLast_of_form
    simp only [List.mem_append, List.mem_cons, not_or]
    exact ⟨h91, by omega, h91cp⟩
  have hc2 : cutLast 93 (91 :: E ++ 93 :: cp) = some (91 :: E, cp) :=
    cutLast_of_form 93 _ _ h93cp
  unfold parseHost
  rw [hc1]
  simp only
  rw [hc2]
  simp only
  rw [if_neg (by simp [hvp]), unescape_host_id cp hcpse]
  simp only
  have htake2 : (E ++ 93 :: cp).take ((E ++ 93 :: cp).length - (cp.length + 1)) = E := by
    simp
  rw [htake2]
  rcases hun with ⟨hp, zp, h1, h2, hcut, hu1, hu2, huh⟩ | ⟨hcut, hu⟩
  · rw [hcut]
    simp only
    rw [hu1]
    simp only
    rw [hu2]
    simp only
    rw [← huh, if_neg (by simp [hip])]
  · rw [hcut]
    simp only
    rw [hu]
    simp only
    rw [if_neg (by simp [hip])]

/-- The escaped spelling of a host that `parseHost` gives parses to that host
again, when the bytes after the first `%` of the host are bytes that a host
holds as they are, `[` excepted. -/
theorem parseHost_render (r H : Bytes) (hr : ∀ b ∈ r, b < 256) (h : parseHost r = .ok H)
    (hz : ∀ b ∈ (H.dropWhile (fun b => b ≠ 37)).drop 1,
      shouldEscape b .encodeHost = false ∧ b ≠ 91) :
    parseHost (escape .encodeHost H) = .ok H := by
  -- what escaping and unescaping do to a text that unescaping gave
  have hround : ∀ (t A : Bytes), (∀ b ∈ t, b < 256) → unescape .encodeHost t = .ok A →
      unescape .encodeHost (escape .encodeHost A) = .ok A ∧
      ∀ x, isAlnum x = false → x ≠ 37 → x ∉ t → x ∉ escape .encodeHost A := by
    intro t A ht hA
    have hAb := unescape_host_bytes t A hA
    have hAlt := unescape_lt _ _ _ ht hA
    refine ⟨?_, ?_⟩
    · apply unescape_escape_host
      intro b hb
      refine ⟨hAlt b hb, fun hse => ?_⟩
      rcases hAb b hb with h1 | h1 | h1
      · exact Or.inl h1
      · exact Or.inr h1
      · rw [h1.2] at hse; cases hse
    · intro x hx hx37 hxt hm
      rcases mem_escape_host A hAlt x hm with h1 | h1 | h1
      · rcases hAb x h1.1 with h2 | h2 | h2
        · have := hostByte_props x h1.2
          omega
        · exact hx37 h2
        · exact hxt h2.1
      · exact hx37 h1
      · rw [hx] at h1
        cases h1
  unfold parseHost at h
  cases h91 : cutLast 91 r with
  | none =>
    rw [h91] at h
    simp only at h
    have hno91 := not_mem_of_cutLast_none 91 r h91
    split at h
    · cases h
    · rename_i hport
      obtain ⟨hrt, hnot⟩ := hround r H hr h
      have hT91 : 91 ∉ escape .encodeHost H := hnot 91 (by decide) (by decide) hno91
      unfold parseHost
      rw [cutLast_not_mem 91 _ hT91]
      simp only
      split
      · rename_i hportT
        exfalso
        by_cases hcol : (stringsCut 58 r).2.2 = true
        · have hvp : validOptionalPort (58 :: (stringsCut 58 r).2.1) = true := by
            by_contra hne
            exact hport ⟨hcol, hne⟩
          have hre := stringsCut_rebuild 58 r hcol
          have hn58 := stringsCut_fst_not_mem 58 r
          generalize (stringsCut 58 r).1 = name at hre hn58
          generalize (stringsCut 58 r).2.1 = ds at hre hvp
          have hnlt : ∀ b ∈ name, b < 256 :=
            fun b hb => hr b (by rw [hre]; exact List.mem_append_left _ hb)
          rw [hre] at h
          obtain ⟨Hn, B, hu1, hu2, hHeq⟩ := unescape_split _ _ _ _ 58 (by decide) h
          have hpb := validOptionalPort_bytes _ hvp
          have hpse : ∀ b ∈ 58 :: ds, shouldEscape b .encodeHost = false :=
            fun b hb => shouldEscape_port b (hpb b hb)
          rw [unescape_host_id _ hpse] at hu2
          have hB := (Except.ok.inj hu2).symm
          subst hB
          have hHn58 : 58 ∉ escape .encodeHost Hn :=
            (hround name Hn hnlt hu1).2 58 (by decide) (by decide) hn58
          rw [hHeq, escape_append, escape_of_not_shouldEscape _ (58 :: ds) hpse,
            stringsCut_append 58 _ _ hHn58] at hportT
          exact hportT.2 hvp
        · have hn58 := stringsCut_not_found 58 r (by simpa using hcol)
          have hT58 : 58 ∉ escape .encodeHost H := hnot 58 (by decide) (by decide) hn58
          rw [stringsCut_not_mem 58 _ hT58] at hportT
          exact absurd hportT.1 (by simp)
      · exact hrt
  | some p91 =>
    obtain ⟨pre, afterOpen⟩ := p91
    rw [h91] at h
    simp only at h
    cases h93 : cutLast 93 r with
    | none => rw [h93] at h; cases h
    | some p93 =>
      obtain ⟨bc, cp⟩ := p93
      rw [h93] at h
      simp only at h
      by_cases hvp : validOptionalPort cp = true
      · rw [if_neg (by simp [hvp])] at h
        have hcpb := validOptionalPort_bytes cp hvp
        have hcpse : ∀ b ∈ cp, shouldEscape b .encodeHost = false :=
          fun b hb => shouldEscape_port b (hcpb b hb)
        rw [unescape_host_id cp hcpse] at h
        simp only at h
        obtain ⟨hr1, hno91⟩ := cutLast_rebuild 91 r pre afterOpen h91
        obtain ⟨hr2, hno93⟩ := cutLast_rebuild 93 r bc cp h93
        have h91cp : 91 ∉ cp := by
          intro hm
          have := hcpb 91 hm
          omega
        obtain ⟨x, hx⟩ := append_cons_split pre afterOpen bc cp (hr1 ▸ hr2) h91cp
        have htake : afterOpen.take (afterOpen.length - (cp.length + 1)) = x := by
          rw [hx]
          simp
        rw [htake] at h
        have hx91 : 91 ∉ x := by
          intro hm
          exact hno91 (by rw [hx]; exact List.mem_append_left _ hm)
        have hxlt : ∀ b ∈ x, b < 256 := by
          intro b hb
          apply hr b
          rw [hr1, hx]
          simp [hb]
        -- the host is the bracketed text `uh`, whose escaped spelling is read back
        have key : ∀ uh : Bytes, netipIsIPv6 uh = true → H = 91 :: uh ++ 93 :: cp →
            91 ∉ escape .encodeHost uh →
            ((∃ hp zp h1 h2, cutAtSub [37, 50, 53] (escape .encodeHost uh) = some (hp, zp) ∧
                unescape .encodeHost hp = .ok h1 ∧ unescape .encodeZone zp = .ok h2 ∧
                uh = h1 ++ h2) ∨
              (cutAtSub [37, 50, 53] (escape .encodeHost uh) = none ∧
                unescape .encodeHost (escape .encodeHost uh) = .ok uh)) →
            parseHost (escape .encodeHost H) = .ok H := by
          intro uh hip hHeq hE91 hun
          have hesc : escape .encodeHost H = 91 :: escape .encodeHost uh ++ 93 :: cp := by
            rw [hHeq]
            have h1 : (91 :: uh ++ 93 :: cp) = [91] ++ (uh ++ ([93] ++ cp)) := by simp
            rw [h1, escape_append, escape_append, escape_append,
              escape_of_not_shouldEscape _ cp hcpse]
            rfl
          rw [hesc, hHeq]
          exact parseHost_bracket _ cp uh hE91 hvp hun hip
        cases hzc : cutAtSub [37, 50, 53] x with
        | some z =>
          obtain ⟨hp, zp⟩ := z
          rw [hzc] at h
          simp only at h
          obtain ⟨zrest, hzrest⟩ := cutAtSub_percent_some x hp zp hzc
          have hxeq := cutAtSub_rebuild _ _ _ _ hzc
          cases hu1 : unescape .encodeHost hp with
          | error e => rw [hu1] at h; cases h
          | ok h1 =>
            rw [hu1] at h
            simp only at h
            cases hu2 : unescape .encodeZone zp with
            | error e => rw [hu2] at h; cases h
            | ok h2 =>
              rw [hu2] at h
              simp only at h
              split at h
              · cases h
              · rename_i hip
                have hHeq := (Except.ok.inj h).symm
                have hhplt : ∀ b ∈ hp, b < 256 :=
                  fun b hb => hxlt b (by rw [hxeq]; exact List.mem_append_left _ hb)
                have hhp91 : 91 ∉ hp :=
                  fun hm => hx91 (by rw [hxeq]; exact List.mem_append_left _ hm)
                obtain ⟨hrt1, hnot1⟩ := hround hp h1 hhplt hu1
                have h1lt := unescape_lt _ _ _ hhplt hu1
                have h137 : 37 ∉ h1 :=
                  unescape_host_no_percent_aux hp.length hp zp h1 (Nat.le_refl _)
                    (Or.inl (by rw [← hxeq]; exact hzc)) hu1
                -- the zone
                rw [hzrest] at hu2
                obtain ⟨z2, hh2⟩ : ∃ z2, h2 = 37 :: z2 := by
                  rcases unescape_ok_cases _ _ _ hu2 with ⟨hs, _⟩ |
                    ⟨a, b, r2, t2, hs, ht, _⟩ | ⟨c, r2, t2, hs, hc, _⟩
                  · cases hs
                  · injection hs with _ hs
                    injection hs with ha hs
                    injection hs with hb _
                    subst ha hb
                    exact ⟨t2, by rw [ht]; rfl⟩
                  · injection hs with hs _
                    exact absurd hs.symm hc
                subst hh2
                have hHform : H = (91 :: h1) ++ 37 :: (z2 ++ 93 :: cp) := by
                  rw [hHeq]; simp
                have hzone : ∀ b ∈ z2, shouldEscape b .encodeHost = false ∧ b ≠ 91 := by
                  intro b hb
                  apply hz b
                  rw [hHform, dropWhile_percent _ _ (by
                    simp only [List.mem_cons, not_or]
                    exact ⟨by omega, h137⟩)]
                  simp [hb]
                have hz2 : escape .encodeHost z2 = z2 :=
                  escape_of_not_shouldEscape _ _ (fun b hb => (hzone b hb).1)
                have hE : escape .encodeHost (h1 ++ 37 :: z2) =
                    escape .encodeHost h1 ++ 37 :: 50 :: 53 :: z2 := by
                  have h2 : (h1 ++ 37 :: z2) = h1 ++ ([37] ++ z2) := by simp
                  rw [h2, escape_append, escape_append, hz2]
                  rfl
                apply key (h1 ++ 37 :: z2) (by simpa using hip) hHeq
                · rw [hE]
                  simp only [List.mem_append, List.mem_cons, not_or]
                  refine ⟨hnot1 91 (by decide) (by decide) hhp91, by omega, by omega, by omega, ?_⟩
                  intro hm
                  exact (hzone 91 hm).2 rfl
                · left
                  refine ⟨escape .encodeHost h1, 37 :: 50 :: 53 :: z2, h1, 37 :: z2, ?_, hrt1,
                    ?_, rfl⟩
                  · rw [hE, cutAtSub_escape h1 _ h1lt h137]
                    have hcz : cutAtSub [37, 50, 53] (37 :: 50 :: 53 :: z2) =
                        some ([], 37 :: 50 :: 53 :: z2) := by
                      rw [cutAtSub]
                      simp [List.isPrefixOf]
                    rw [hcz]
                    simp
                  · rw [unescape_percent, if_neg (by decide), if_neg (by simp),
                      if_neg (by simp),
                      unescape_zone_id z2 (fun b hb => (hzone b hb).1)]
                    rfl
        | none =>
          rw [hzc] at h
          simp only at h
          cases hu : unescape .encodeHost x with
          | error e => rw [hu] at h; cases h
          | ok uh =>
            rw [hu] at h
            simp only at h
            split at h
            · cases h
            · rename_i hip
              have hHeq := (Except.ok.inj h).symm
              obtain ⟨hrt1, hnot1⟩ := hround x uh hxlt hu
              have huhlt := unescape_lt _ _ _ hxlt hu
              have h37 : 37 ∉ uh :=
                unescape_host_no_percent_aux x.length x [] uh (Nat.le_refl _)
                  (Or.inr ⟨rfl, hzc⟩) hu
              apply key uh (by simpa using hip) hHeq
              · exact hnot1 91 (by decide) (by decide) hx91
              · right
                have hcn := cutAtSub_escape uh [] huhlt h37
                simp only [List.append_nil] at hcn
                have hnil : cutAtSub [37, 50, 53] [] = none := rfl
                rw [hnil] at hcn
                exact ⟨hcn, hrt1⟩
      · rw [if_pos (by simp [hvp])] at h
        cases h

theorem setPath_ok (u u2 : URL) (p : Bytes) (h : u.setPath p = .ok u2) :
    ∃ path, unescape .encodePath p = .ok path ∧
      u2 = { u with Path := path,
                    RawPath := if p = escape .encodePath path then [] else p } := by
  unfold URL.setPath at h
  cases hp : unescape .encodePath p with
  | error e => rw [hp] at h; cases h
  | ok path =>
    rw [hp] at h
    simp only at h
    refine ⟨path, rfl, ?_⟩
    by_cases hc : p = escape .encodePath path
    · rw [if_pos hc] at h ⊢
      exact (Except.ok.inj h).symm
    · rw [if_neg hc] at h ⊢
      exact (Except.ok.inj h).symm

theorem setFragment_ok (u u2 : URL) (f : Bytes) (h : u.setFragment f = .ok u2) :
    ∃ frag, unescape .encodeFragment f = .ok frag ∧
      u2 = { u with Fragment := frag,
                    RawFragment := if f = escape .encodeFragment frag then [] else f } := by
  unfold URL.setFragment at h
  cases hp : unescape .encodeFragment f with
  | error e => rw [hp] at h; cases h
  | ok frag =>
    rw [hp] at h
    simp only at h
    refine ⟨frag, rfl, ?_⟩
    by_cases hc : f = escape .encodeFragment frag
    · rw [if_pos hc] at h ⊢
      exact (Except.ok.inj h).symm
    · rw [if_neg hc] at h ⊢
      exact (Except.ok.inj h).symm

theorem lowerByte_letter (c : Nat) (h : (97 ≤ c ∧ c ≤ 122) ∨ (65 ≤ c ∧ c ≤ 90)) :
    97 ≤ lowerByte c ∧ lowerByte c ≤ 122 := by
  unfold lowerByte
  split <;> omega

theorem lowerByte_other (c : Nat) (h : (48 ≤ c ∧ c ≤ 57) ∨ c = 43 ∨ c = 45 ∨ c = 46) :
    lowerByte c = c := by
  unfold lowerByte
  rw [if_neg (by omega)]

theorem plainScheme_snoc (s : Bytes) (c : Nat) (hs : isPlainScheme s = true)
    (hc : (97 ≤ c ∧ c ≤ 122) ∨ (48 ≤ c ∧ c ≤ 57) ∨ c = 43 ∨ c = 45 ∨ c = 46) :
    isPlainScheme (s ++ [c]) = true := by
  cases s with
  | nil => cases hs
  | cons d t =>
    simp only [List.cons_append, isPlainScheme, Bool.and_eq_true, List.all_append,
      List.all_cons, List.all_nil, Bool.and_true] at hs ⊢
    refine ⟨hs.1, hs.2, ?_⟩
    simp only [Bool.or_eq_true, Bool.and_eq_true, decide_eq_true_eq]
    omega

theorem getSchemeAux_scheme (raw : Bytes) (rest soFar s0 r0 : Bytes)
    (hso : soFar = [] ∨ isPlainScheme (soFar.map lowerByte) = true)
    (h : getSchemeAux raw soFar rest = .ok (s0, r0)) :
    s0 = [] ∨ isPlainScheme (s0.map lowerByte) = true := by
  induction rest generalizing soFar with
  | nil =>
    rw [getSchemeAux] at h
    injection h with h
    injection h with h1 h2
    exact Or.inl h1.symm
  | cons c rest ih =>
    rw [getSchemeAux] at h
    split at h
    · rename_i hl
      apply ih (soFar ++ [c]) _ h
      right
      rcases hso with hso | hso
      · subst hso
        have := lowerByte_letter c hl
        simp [isPlainScheme, this.1, this.2]
      · rw [List.map_append]
        exact plainScheme_snoc _ _ hso (Or.inl (lowerByte_letter c hl))
    · split at h
      · rename_i hd
        split at h
        · injection h with h
          injection h with h1 h2
          exact Or.inl h1.symm
        · rename_i hne
          apply ih (soFar ++ [c]) _ h
          right
          rcases hso with hso | hso
          · exact absurd hso hne
          · rw [List.map_append]
            apply plainScheme_snoc _ _ hso
            rw [lowerByte_other c hd]
            omega
      · split at h
        · split at h
          · cases h
          · injection h with h
            injection h with h1 h2
            subst h1
            exact hso
        · injection h with h
          injection h with h1 h2
          exact Or.inl h1.symm

theorem getScheme_scheme (raw s0 r0 : Bytes) (h : getScheme raw = .ok (s0, r0)) :
    s0 = [] ∨ isPlainScheme (s0.map lowerByte) = true :=
  getSchemeAux_scheme raw raw [] s0 r0 (Or.inl rfl) h

theorem getScheme_rest_subset (raw s0 r0 : Bytes) (h : getScheme raw = .ok (s0, r0)) :
    ∀ b ∈ r0, b ∈ raw := by
  rcases getScheme_spec _ _ _ h with ⟨_, h1⟩ | ⟨h1, _⟩
  · rw [h1]; exact fun b hb => hb
  · intro b hb; rw [h1]; simp [hb]

theorem noCTL_bytes (x : Bytes) (h : stringContainsCTLByte x = false) :
    ∀ b ∈ x, 32 ≤ b ∧ b ≠ 127 := by
  intro b hb
  unfold stringContainsCTLByte at h
  have := List.any_eq_false.mp h b hb
  simp only [Bool.or_eq_true, decide_eq_true_eq, not_or] at this
  omega

/-- The fields that `parse` stores for a text with a host. -/
theorem parse_auth (x : Bytes) (u : URL) (hx : ∀ b ∈ x, b < 256) (h35 : 35 ∉ x)
    (h : parse x = .ok u) (hne : u.Host ≠ [] ∨ u.Path ≠ []) :
    (u.Scheme = [] ∨ isPlainScheme u.Scheme = true) ∧ u.Opaque = [] ∧
    ((∃ A, (∀ b ∈ A, b < 256) ∧ parseAuthority A = .ok (u.User, u.Host)) ∨
      (u.User = none ∧ u.Host = [])) ∧
    (∀ b ∈ u.Path, b < 256) ∧
    (u.Host ≠ [] → (u.RawPath = [] ∨ u.RawPath.head? = u.Path.head?)) ∧
    (∀ b ∈ u.RawQuery, 32 ≤ b ∧ b ≠ 127 ∧ b ≠ 35 ∧ b < 256) ∧ u.Fragment = [] := by
  unfold parse at h
  by_cases hctl : stringContainsCTLByte x = true
  · rw [if_pos hctl] at h; cases h
  · rw [if_neg hctl] at h
    have hx2 := noCTL_bytes x (by simpa using hctl)
    by_cases hstar : x = [42]
    · rw [if_pos hstar] at h
      have := (Except.ok.inj h).symm
      subst this
      refine ⟨Or.inl rfl, rfl, Or.inr ⟨rfl, rfl⟩, ?_, fun hh => absurd rfl hh, ?_, rfl⟩
      · intro b hb
        simp only [URL.zero, List.mem_singleton] at hb
        omega
      · intro b hb
        simp [URL.zero] at hb
    · rw [if_neg hstar] at h
      cases hgs : getScheme x with
      | error e => rw [hgs] at h; cases h
      | ok p =>
        obtain ⟨s0, r0⟩ := p
        rw [hgs] at h
        simp only at h
        have hsch := getScheme_scheme _ _ _ hgs
        have hr0 := getScheme_rest_subset _ _ _ hgs
        have hsch2 : s0.map lowerByte = [] ∨ isPlainScheme (s0.map lowerByte) = true := by
          rcases hsch with hsch | hsch
          · left; rw [hsch]; rfl
          · exact Or.inr hsch
        generalize s0.map lowerByte = scheme at h hsch2
        generalize (([63] : Bytes).isSuffixOf r0 && r0.count 63 == 1) = fq at h
        have hrest1 : ∀ b ∈ (if fq = true then r0.dropLast else (stringsCut 63 r0).1), b ∈ x := by
          intro b hb
          split at hb
          · exact hr0 b (List.mem_of_mem_dropLast hb)
          · exact hr0 b (stringsCut_fst_subset 63 r0 b hb)
        have hrq : ∀ b ∈ (if fq = true then [] else (stringsCut 63 r0).2.1), b ∈ x := by
          intro b hb
          split at hb
          · simp at hb
          · exact hr0 b (stringsCut_snd_subset 63 r0 b hb)
        generalize (if fq = true then r0.dropLast else (stringsCut 63 r0).1) = rest1 at h hrest1
        generalize (if fq = true then [] else (stringsCut 63 r0).2.1) = rq at h hrq
        by_cases c1 : ¬ ([47] : Bytes).isPrefixOf rest1 = true ∧ scheme ≠ []
        · rw [if_pos c1] at h
          have := (Except.ok.inj h).symm
          subst this
          rcases hne with hne | hne
          · exact absurd rfl hne
          · exact absurd rfl hne
        · rw [if_neg c1] at h
          by_cases c2 : ¬ ([47] : Bytes).isPrefixOf rest1 = true ∧
              (stringsCut 47 rest1).1.contains 58 = true
          · rw [if_pos c2] at h
            cases h
          · rw [if_neg c2] at h
            by_cases c3 : (scheme ≠ [] ∨ ¬ ([47, 47, 47] : Bytes).isPrefixOf rest1 = true) ∧
                ([47, 47] : Bytes).isPrefixOf rest1 = true
            · rw [if_pos c3] at h
              cases hpa : parseAuthority (stringsCut 47 (List.drop 2 rest1)).1 with
              | error e => rw [hpa] at h; cases h
              | ok r =>
                obtain ⟨usr, host⟩ := r
                rw [hpa] at h
                simp only at h
                have hdrop : ∀ b ∈ List.drop 2 rest1, b ∈ x :=
                  fun b hb => hrest1 b (List.mem_of_mem_drop hb)
                have hA : ∀ b ∈ (stringsCut 47 (List.drop 2 rest1)).1, b < 256 :=
                  fun b hb => hx b (hdrop b (stringsCut_fst_subset 47 _ b hb))
                have hrest2 : ∀ b ∈ (if (stringsCut 47 (List.drop 2 rest1)).2.2 = true
                    then 47 :: (stringsCut 47 (List.drop 2 rest1)).2.1 else []), b < 256 := by
                  intro b hb
                  split at hb
                  · simp only [List.mem_cons] at hb
                    rcases hb with hb | hb
                    · omega
                    · exact hx b (hdrop b (stringsCut_snd_subset 47 _ b hb))
                  · simp at hb
                have hhead : (if (stringsCut 47 (List.drop 2 rest1)).2.2 = true
                    then 47 :: (stringsCut 47 (List.drop 2 rest1)).2.1 else []) = [] ∨
                    ∃ t, (if (stringsCut 47 (List.drop 2 rest1)).2.2 = true
                    then 47 :: (stringsCut 47 (List.drop 2 rest1)).2.1 else []) = 47 :: t := by
                  split
                  · exact Or.inr ⟨_, rfl⟩
                  · exact Or.inl rfl
                generalize (if (stringsCut 47 (List.drop 2 rest1)).2.2 = true
                    then 47 :: (stringsCut 47 (List.drop 2 rest1)).2.1 else []) = rest2
                    at h hrest2 hhead
                obtain ⟨path, hpath, hu⟩ := setPath_ok _ _ _ h
                subst hu
                simp only at hne ⊢
                refine ⟨hsch2, rfl, Or.inl ⟨_, hA, hpa⟩, unescape_lt _ _ _ hrest2 hpath,
                  fun _ => ?_, ?_, rfl⟩
                · by_cases hc : rest2 = escape .encodePath path
                  · rw [if_pos hc]; exact Or.inl rfl
                  · rw [if_neg hc]
                    rcases hhead with hh | ⟨t, hh⟩
                    · exact Or.inl hh
                    · right
                      rw [hh] at hpath ⊢
                      rw [unescape_cons_of_ne _ _ _ (by decide), if_neg (by simp)] at hpath
                      cases ht : unescape .encodePath t with
                      | error e => rw [ht] at hpath; cases hpath
                      | ok t2 =>
                        rw [ht] at hpath
                        have := (Except.ok.inj hpath).symm
                        rw [this]
                        simp
                · intro b hb
                  have hbx := hrq b hb
                  have := hx2 b hbx
                  have := hx b hbx
                  refine ⟨by omega, by omega, ?_, by omega⟩
                  intro e; subst e; exact h35 hbx
            · rw [if_neg c3] at h
              have hquery : ∀ b ∈ rq, 32 ≤ b ∧ b ≠ 127 ∧ b ≠ 35 ∧ b < 256 := by
                intro b hb
                have hbx := hrq b hb
                have := hx2 b hbx
                have := hx b hbx
                refine ⟨by omega, by omega, ?_, by omega⟩
                intro e; subst e; exact h35 hbx
              have hrest1lt : ∀ b ∈ rest1, b < 256 := fun b hb => hx b (hrest1 b hb)
              by_cases c4 : scheme ≠ [] ∧ ([47] : Bytes).isPrefixOf rest1 = true
              · rw [if_pos c4] at h
                obtain ⟨path, hpath, hu⟩ := setPath_ok _ _ _ h
                subst hu
                exact ⟨hsch2, rfl, Or.inr ⟨rfl, rfl⟩, unescape_lt _ _ _ hrest1lt hpath,
                  fun hh => absurd rfl hh, hquery, rfl⟩
              · rw [if_neg c4] at h
                obtain ⟨path, hpath, hu⟩ := setPath_ok _ _ _ h
                subst hu
                exact ⟨hsch2, rfl, Or.inr ⟨rfl, rfl⟩, unescape_lt _ _ _ hrest1lt hpath,
                  fun hh => absurd rfl hh, hquery, rfl⟩

/-- The fields that `url.Parse` stores for a text with a host or a path. -/
theorem urlParse_fields (s : Bytes) (u : URL) (hs : ∀ b ∈ s, b < 256)
    (h : urlParse s = .ok u) (hne : u.Host ≠ [] ∨ u.Path ≠ []) :
    (u.Scheme = [] ∨ isPlainScheme u.Scheme = true) ∧ u.Opaque = [] ∧
    ((∃ r, (∀ b ∈ r, b < 256) ∧ parseHost r = .ok u.Host) ∨ u.Host = []) ∧
    userinfoOK u.User ∧ (∀ b ∈ u.Path, b < 256) ∧
    (u.Host ≠ [] → (u.RawPath = [] ∨ u.RawPath.head? = u.Path.head?)) ∧
    (∀ b ∈ u.RawQuery, 32 ≤ b ∧ b ≠ 127 ∧ b ≠ 35 ∧ b < 256) ∧
    (∀ b ∈ u.Fragment, b < 256) := by
  unfold urlParse at h
  simp only at h
  have h35 := stringsCut_fst_not_mem 35 s
  have hx : ∀ b ∈ (stringsCut 35 s).1, b < 256 :=
    fun b hb => hs b (stringsCut_fst_subset 35 s b hb)
  have hf : ∀ b ∈ (stringsCut 35 s).2.1, b < 256 :=
    fun b hb => hs b (stringsCut_snd_subset 35 s b hb)
  generalize (stringsCut 35 s).1 = x at h h35 hx
  generalize (stringsCut 35 s).2.1 = f at h hf
  cases hp : parse x with
  | error e => rw [hp] at h; cases h
  | ok url =>
    rw [hp] at h
    simp only at h
    have key : ∀ frag rf, (∀ b ∈ frag, b < 256) →
        u = { url with Fragment := frag, RawFragment := rf } →
        (u.Scheme = [] ∨ isPlainScheme u.Scheme = true) ∧ u.Opaque = [] ∧
        ((∃ r, (∀ b ∈ r, b < 256) ∧ parseHost r = .ok u.Host) ∨ u.Host = []) ∧
        userinfoOK u.User ∧ (∀ b ∈ u.Path, b < 256) ∧
        (u.Host ≠ [] → (u.RawPath = [] ∨ u.RawPath.head? = u.Path.head?)) ∧
        (∀ b ∈ u.RawQuery, 32 ≤ b ∧ b ≠ 127 ∧ b ≠ 35 ∧ b < 256) ∧
        (∀ b ∈ u.Fragment, b < 256) := by
      intro frag rf hfrag hu
      subst hu
      simp only at hne
      obtain ⟨h1, h2, h3, h4, h5, h6, _⟩ := parse_auth x url hx h35 hp hne
      rcases h3 with ⟨A, hA, hpa⟩ | ⟨hnone, hnil⟩
      · obtain ⟨⟨hp0, hp0lt, hph⟩, huser⟩ := parseAuthority_cases A _ _ hA hpa
        exact ⟨h1, h2, Or.inl ⟨hp0, hp0lt, hph⟩, huser, h4, h5, h6, hfrag⟩
      · refine ⟨h1, h2, Or.inr hnil, ?_, h4, h5, h6, hfrag⟩
        show userinfoOK url.User
        rw [hnone]
        trivial
    by_cases hfn : f = []
    · rw [if_pos hfn] at h
      have hu := (Except.ok.inj h).symm
      subst hu
      have hfr : u.Fragment = [] := by
        have := (parse_auth x u hx h35 hp hne).2.2.2.2.2.2
        exact this
      apply key u.Fragment u.RawFragment
      · rw [hfr]; simp
      · rfl
    · rw [if_neg hfn] at h
      cases hsf : url.setFragment f with
      | error e => rw [hsf] at h; cases h
      | ok url2 =>
        rw [hsf] at h
        have hu := (Except.ok.inj h).symm
        subst hu
        obtain ⟨frag, hfrag, hu2⟩ := setFragment_ok _ _ _ hsf
        exact key frag _ (unescape_lt _ _ _ hf hfrag) hu2

/-- A host that `url.Parse` gives is read back when nothing but bytes that a
host holds as they are follows its first `%`: every host without `%`, and
every IPv6 literal with a zone of such bytes. -/
theorem urlParse_host_read_back (s : Bytes) (u : URL) (hs : ∀ b ∈ s, b < 256)
    (h : urlParse s = .ok u) (hne : u.Host ≠ []) (hz : hasPlainZone u.Host = true) :
    isJoinHost u.Host = true := by
  unfold hasPlainZone at hz
  simp only [Bool.and_eq_true, decide_eq_true_eq, List.all_eq_true, ne_eq,
    Bool.not_eq_true'] at hz
  obtain ⟨_, _, h3, _⟩ := urlParse_fields s u hs h (Or.inl hne)
  rcases h3 with ⟨r, hr, hph⟩ | h3
  · have hrender := parseHost_render r u.Host hr hph hz
    unfold isJoinHost
    simp only [Bool.and_eq_true, decide_eq_true_eq, ne_eq]
    exact ⟨hne, hrender⟩
  · exact absurd h3 hne

/-! ## url.JoinPath -/

set_option maxRecDepth 100000 in
/-- The path of the origin is cleaned as well: the origin
`https://api.example.com/a/../b` sends the request to `/b/api/v1/searchcode/CODE`. -/
theorem searchcode_origin_path_cleaned :
    (searchcodeHTTPRequest
        (NewClient (stubDo (none, none)) "https://api.example.com/a/../b" "id" "secret" "1.2.3.4")
        "CODE" []).toOption.map (fun r => r.URL.Path) =
      some (utf8 "/b/api/v1/searchcode/CODE") := by
  decide

set_option maxRecDepth 100000 in
/-- An escape in the code is decoded: for the code `%41` the last segment of
the path of the request is `A`. -/
theorem searchcode_code_escape_decoded :
    (searchcodeHTTPRequest (sampleClient (none, none)) "%41" []).toOption.map
        (fun r => r.URL.Path) =
      some (utf8 "/api/v1/searchcode/A") := by
  decide

set_option maxRecDepth 100000 in
/-- A code that is not a valid escaped path makes `url.JoinPath` fail: for the
code `100%` no request is built and the error is the endpoint error joined
with the escape error. -/
theorem searchcode_code_escape_rejected :
    searchcodeHTTPRequest (sampleClient (none, none)) "100%" [] =
      .error (some (.join [.api { StatusCode := 500, Message := "endpoint error" },
        .foreign "invalid URL escape \"%\""])) := by
  decide

set_option maxRecDepth 100000 in
/-- An origin without host may lose the path, get a relative one, or turn a
segment into the host: for the opaque origins `mailto:x` and `localhost:8080`
the URL of the request has no path at all; for the empty origin the path is
the relative `api/v1/searchcode/CODE`; for the origin `http:` the request goes
to the host `api` with the path `/v1/searchcode/CODE`; for the origin `/%2Fx`
and the code `a b` it goes to the host `x`; and for the origin `a%3Ab` and the
code `a b` the path starts with `./`. -/
theorem searchcode_origin_without_host :
    (searchcodeHTTPRequest
        (NewClient (stubDo (none, none)) "mailto:x" "id" "secret" "1.2.3.4")
        "CODE" []).toOption.map (fun r => (r.URL.Opaque, r.URL.Path)) =
      some (utf8 "x", []) ∧
    (searchcodeHTTPRequest
        (NewClient (stubDo (none, none)) "localhost:8080" "id" "secret" "1.2.3.4")
        "CODE" []).toOption.map (fun r => (r.URL.Scheme, r.URL.Opaque, r.URL.Path)) =
      some (utf8 "localhost", utf8 "8080", []) ∧
    (searchcodeHTTPRequest
        (NewClient (stubDo (none, none)) "" "id" "secret" "1.2.3.4")
        "CODE" []).toOption.map (fun r => (r.URL.Host, r.URL.Path)) =
      some ([], utf8 "api/v1/searchcode/CODE") ∧
    (searchcodeHTTPRequest
        (NewClient (stubDo (none, none)) "http:" "id" "secret" "1.2.3.4")
        "CODE" []).toOption.map (fun r => (r.URL.Host, r.URL.Path)) =
      some (utf8 "api", utf8 "/v1/searchcode/CODE") ∧
    (searchcodeHTTPRequest
        (NewClient (stubDo (none, none)) "/%2Fx" "id" "secret" "1.2.3.4")
        "a b" []).toOption.map (fun r => (r.URL.Host, r.URL.Path)) =
      some (utf8 "x", utf8 "/api/v1/searchcode/a b") ∧
    (searchcodeHTTPRequest
        (NewClient (stubDo (none, none)) "a%3Ab" "id" "secret" "1.2.3.4")
        "a b" []).toOption.map (fun r => (r.URL.Host, r.URL.Path)) =
      some ([], utf8 "./a:b/api/v1/searchcode/a b") := by
  decide

set_option maxRecDepth 100000 in
/-- The version is joined like the code: for the version `..` the request goes
to `/searchcode/CODE`. -/
theorem searchcode_version_cleaned :
    (searchcodeHTTPRequest { sampleClient (none, none) with version := ".." }
        "CODE" []).toOption.map (fun r => r.URL.Path) =
      some (utf8 "/searchcode/CODE") := by
  decide

set_option maxRecDepth 100000 in
/-- Hosts that `url.Parse` reads back from their escaped spelling: a name with
a port, a name that is not ASCII, an IPv4 address, an IPv6 literal with a port
or with a zone, and a name with an escaped `%`; an IPv6 literal whose zone is
not ASCII is not read back. -/
theorem host_read_back_samples :
    isJoinHost (utf8 "api.example.com:8080") = true ∧ isJoinHost (utf8 "münchen.de") = true ∧
    isJoinHost (utf8 "192.0.2.1") = true ∧ isJoinHost (utf8 "[::1]:8080") = true ∧
    isJoinHost (utf8 "[fe80::1%en0]") = true ∧ isJoinHost (utf8 "a%bé") = true ∧
    isJoinHost (utf8 "[fe80::1%é]") = false := by
  decide

set_option maxRecDepth 100000 in
/-- A host whose zone holds a byte that a host does not hold as it is, is not
read back: `url.Parse` accepts the origin `http://[fe80::1%25é]/`, but in the
endpoint that `url.JoinPath` writes the zone is escaped, which `url.Parse`
refuses, and no request is built. -/
theorem searchcode_zone_not_read_back :
    (urlParse (utf8 "http://[fe80::1%25é]/")).toOption.map (fun u => u.Host) =
      some (utf8 "[fe80::1%é]") ∧
    searchcodeHTTPRequest
        (NewClient (stubDo (none, none)) "http://[fe80::1%25é]/" "id" "secret" "1.2.3.4")
        "CODE" [] =
      .error (some (.join [.api { StatusCode := 500, Message := "url parse error" },
        .wrap
          "parse \"http://[fe80::1%25%C3%A9]/api/v1/searchcode/CODE\": invalid URL escape \"%C3\""
          (.foreign "invalid URL escape \"%C3\"")])) := by
  decide

set_option maxRecDepth 100000 in
/-- A query in the origin is parsed and the parameters are set on it: with the
origin query `page=9&x=1` and the option page 1 the query string sent is
`page=1&x=1`. -/
theorem searchcode_origin_query_merged :
    (searchcodeHTTPRequest
        (NewClient (stubDo (none, none)) "https://api.example.com?page=9&x=1" "id" "secret"
          "1.2.3.4")
        "CODE" [WithSCPage 1]).toOption.map (fun r => r.URL.RawQuery) =
      some (utf8 "page=1&x=1") := by
  decide

set_option maxRecDepth 100000 in
/-- A piece of the origin query that holds a semicolon is dropped: with the
origin query `a=1;b=2` and no parameter the query string sent is empty. -/
theorem searchcode_origin_query_dropped :
    (searchcodeHTTPRequest
        (NewClient (stubDo (none, none)) "https://api.example.com?a=1;b=2" "id" "secret"
          "1.2.3.4")
        "CODE" []).toOption.map (fun r => r.URL.RawQuery) =
      some [] := by
  decide

set_option maxRecDepth 100000 in
/-- C9 as stated fails: a client whose origin carries a query string sends it
along; with no options and no partner ID the query string is `x=1`, not
empty. -/
theorem searchcode_query_counterexample :
    searchcodeHTTPRequest
        { sampleClient (none, none) with origin := "https://api.example.com?x=1" } "CODE" [] =
      .ok { sampleSearchcodeRequest with
            URL := { sampleSearchcodeRequest.URL with RawQuery := utf8 "x=1" } } ∧
    utf8 "x=1" ≠ [] := by
  decide

/-- C9, amended: for a client whose origin parses to a URL without query
string, the query string of the request that Searchcode hands to the transport
is the `&`-joined list, in the order of the keys, of `choikitype=`, `limit=`,
`page=` and `searchtype=` with the decimal rendering of the built value, each
present exactly when that value is greater than 0, and of `ec_uid=` with the
query-escaped partner ID, present exactly when the partner ID is not empty; it
holds nothing else, and is empty when no parameter is present. -/
theorem searchcode_query (c : Client) (code : String) (opts : List searchcodeOption)
    (u0 : URL) (req : Request)
    (hparse : urlParse (utf8 c.origin) = .ok u0) (hnoq : u0.RawQuery = [])
    (h : searchcodeHTTPRequest c code opts = .ok req) :
    (c.decorate req).URL.RawQuery =
      [38].intercalate
        (decimalParam "choikitype" (newSearchcodeRequest code opts).Choikitype ++
         textParam "ec_uid" c.ecuid ++
         decimalParam "limit" (newSearchcodeRequest code opts).Limit ++
         decimalParam "page" (newSearchcodeRequest code opts).Page ++
         decimalParam "searchtype" (newSearchcodeRequest code opts).Searchtype) ∧
    (opts = [] → c.ecuid = "" → (c.decorate req).URL.RawQuery = []) := by
  have hq := searchcodeHTTPRequest_rawQuery c code opts u0 req hparse hnoq h
  refine ⟨hq, ?_⟩
  intro ho he
  show req.URL.RawQuery = []
  rw [hq, ho]
  simp [searchcodeQueryText, decimalParam, textParam, newSearchcodeRequest, he]
  rfl

set_option maxRecDepth 100000 in
theorem searchcode_query_witness :
    (((sampleClient (none, none)).SetECUID "EC1").decorate
      { sampleSearchcodeRequest with
        URL := { sampleSearchcodeRequest.URL with
                 RawQuery := utf8 "choikitype=2&ec_uid=EC1&limit=5&page=3&searchtype=1" } }
      ).URL.RawQuery = utf8 "choikitype=2&ec_uid=EC1&limit=5&page=3&searchtype=1" ∧
    [38].intercalate
        (decimalParam "choikitype" 2 ++ textParam "ec_uid" "EC1" ++ decimalParam "limit" 5 ++
         decimalParam "page" 3 ++ decimalParam "searchtype" 1) =
      utf8 "choikitype=2&ec_uid=EC1&limit=5&page=3&searchtype=1" :=
  ⟨((searchcode_query ((sampleClient (none, none)).SetECUID "EC1") "CODE"
      [WithSCPage 3, WithSCLimit 5, WithChoikitype 2, WithSearchtype 1]
      { URL.zero with Scheme := utf8 "https", Host := utf8 "api.example.com" }
      { sampleSearchcodeRequest with
        URL := { sampleSearchcodeRequest.URL with
                 RawQuery := utf8 "choikitype=2&ec_uid=EC1&limit=5&page=3&searchtype=1" } }
      (by decide) rfl (by decide)).1).trans (by decide), by decide⟩

/-! ## AddressZip and GetToken requests (C11, C12) -/

set_option maxRecDepth 100000 in
/-- The request of the `with options + ecuid` case of the package tests, without
the options. -/
theorem samplePartnerRequest_built :
    addressZipRequest ((sampleClient (none, none)).SetECUID "EC42") [] =
      .ok samplePartnerRequest := by
  decide

set_option maxRecDepth 100000 in
/-- An `ec_uid` in the query of the origin is sent although the client has no
partner ID. -/
theorem addressZip_origin_ec_uid_kept :
    (addressZipRequest
        (NewClient (stubDo (none, none)) "https://api.example.com?ec_uid=zz" "id" "secret"
          "1.2.3.4") []).toOption.map (fun r => r.URL.RawQuery) =
      some (utf8 "ec_uid=zz") := by
  decide

set_option maxRecDepth 100000 in
/-- An `ec_uid` in the query of the origin is replaced by the partner ID, and a
piece of the origin query that holds a semicolon is dropped. -/
theorem addressZip_origin_ec_uid_replaced :
    (addressZipRequest
        ((NewClient (stubDo (none, none)) "https://api.example.com?ec_uid=old" "id" "secret"
          "1.2.3.4").SetECUID "EC1") []).toOption.map (fun r => r.URL.RawQuery) =
      some (utf8 "ec_uid=EC1") ∧
    (addressZipRequest
        ((NewClient (stubDo (none, none)) "https://api.example.com?a=1;b=2" "id" "secret"
          "1.2.3.4").SetECUID "EC1") []).toOption.map (fun r => r.URL.RawQuery) =
      some (utf8 "ec_uid=EC1") := by
  decide

set_option maxRecDepth 100000 in
/-- The path of the origin is cleaned by `path.Join`, and an origin without
host may lose the path or turn a segment into the host: the origin
`https://api.example.com/a/../b` sends the request of AddressZip to
`/b/api/v1/addresszip`, for the opaque origin `mailto:x` the URL of the request
has no path at all, and for the origin `http:` the request goes to the host
`api` with the path `/v1/addresszip`. -/
theorem addressZip_origin_path_cleaned :
    (addressZipRequest
        (NewClient (stubDo (none, none)) "https://api.example.com/a/../b" "id" "secret"
          "1.2.3.4") []).toOption.map (fun r => r.URL.Path) =
      some (utf8 "/b/api/v1/addresszip") ∧
    (addressZipRequest
        (NewClient (stubDo (none, none)) "mailto:x" "id" "secret" "1.2.3.4")
        []).toOption.map (fun r => (r.URL.Opaque, r.URL.Path)) =
      some (utf8 "x", []) ∧
    (addressZipRequest
        (NewClient (stubDo (none, none)) "http:" "id" "secret" "1.2.3.4")
        []).toOption.map (fun r => (r.URL.Host, r.URL.Path)) =
      some (utf8 "api", utf8 "/v1/addresszip") := by
  decide

set_option maxRecDepth 100000 in
/-- The version is joined like the other elements: for the version `..` the
request of GetToken goes to `/j/token`, and for the version `%zz` no request is
built. -/
theorem getToken_version_cleaned :
    (getTokenRequest { sampleClient (none, none) with version := ".." }).toOption.map
        (fun r => r.URL.Path) = some (utf8 "/j/token") ∧
    getTokenRequest { sampleClient (none, none) with version := "%zz" } =
      .error (some (.join [.api { StatusCode := 500, Message := "endpoint error" },
        .foreign "invalid URL escape \"%zz\""])) := by
  decide

set_option maxRecDepth 100000 in
/-- The path of the origin is cleaned by `path.Join`, and an origin without
host may lose the path or turn a segment into the host: the origin
`https://api.example.com/a/../b` sends the request of GetToken to
`/b/api/v1/j/token`, for the opaque origin `mailto:x` the URL of the request
has no path at all, and for the origin `http:` the request goes to the host
`api` with the path `/v1/j/token`. -/
theorem getToken_origin_path_cleaned :
    (getTokenRequest
        (NewClient (stubDo (none, none)) "https://api.example.com/a/../b" "id" "secret"
          "1.2.3.4")).toOption.map (fun r => r.URL.Path) =
      some (utf8 "/b/api/v1/j/token") ∧
    (getTokenRequest
        (NewClient (stubDo (none, none)) "mailto:x" "id" "secret" "1.2.3.4")).toOption.map
        (fun r => (r.URL.Opaque, r.URL.Path)) =
      some (utf8 "x", []) ∧
    (getTokenRequest
        (NewClient (stubDo (none, none)) "http:" "id" "secret" "1.2.3.4")).toOption.map
        (fun r => (r.URL.Host, r.URL.Path)) =
      some (utf8 "api", utf8 "/v1/j/token") := by
  decide

end Yd4b
